import Mathlib

/-!
# Verification of the JSONL annotation app (`src/streamlit_app.py`)

Shallow embedding of the core of `streamlit_app.py`: the line-delimited
JSON parser (`load_jsonl_from_bytes`), the `json.dumps`-based JSONL
serializer, the pandas `DataFrame` record table (column-major, with the
dtype coercion that pandas applies when building a frame from a list of
dicts), the Streamlit rerun loop (upload handler, annotation-column
normalisation, index widget, save handler) and the export surface.

Python text is modelled as `List Char` (a Python `str` is a sequence of
Unicode code points).  Python floats are modelled as exact decimal numbers
`m * 10 ^ e` (plus `nan` / `inf` / `-inf`); `repr` of a float is modelled
as a canonical scientific-notation literal.  This is exact for every value
the claims exercise; IEEE-754 rounding of huge integer-to-float casts is
outside the model and is noted where relevant.  Nested JSON arrays/objects
are outside the modelled fragment (the round-trip claim explicitly limits
field values to text / number / boolean / null).
-/

namespace JsonlApp

/-- Python text: a sequence of Unicode code points. -/
abbrev Str := List Char

/-- The characters `str.splitlines` treats as line boundaries
(CPython: `\n \v \f \r \x1c \x1d \x1e \x85    `, with `\r\n`
counting as a single boundary). -/
def lineBoundary (c : Char) : Bool :=
  c = '\n' || c = '\x0b' || c = '\x0c' || c = '\r' ||
  c = '\x1c' || c = '\x1d' || c = '\x1e' ||
  c.toNat = 0x85 || c.toNat = 0x2028 || c.toNat = 0x2029

/-- Characters Python's `str.strip()` / `str.isspace()` treat as whitespace. -/
def pySpace (c : Char) : Bool :=
  c = ' ' || c = '\t' || c = '\n' || c = '\r' ||
  c = '\x0b' || c = '\x0c' || c = '\x1c' || c = '\x1d' ||
  c = '\x1e' || c = '\x1f' || c.toNat = 0x85 || c.toNat = 0xa0 ||
  c.toNat = 0x1680 || (0x2000 ≤ c.toNat && c.toNat ≤ 0x200a) ||
  c.toNat = 0x2028 || c.toNat = 0x2029 || c.toNat = 0x202f ||
  c.toNat = 0x205f || c.toNat = 0x3000

/-- Drop a single leading `\n` (the second half of a `\r\n` pair). -/
def dropLf : Str → Str
  | [] => []
  | c :: r => if c = '\n' then r else c :: r

theorem dropLf_length (r : Str) : (dropLf r).length ≤ r.length := by
  cases r with
  | nil => simp [dropLf]
  | cons c t =>
      by_cases h : c = '\n' <;> simp [dropLf, h]

/-- `str.splitlines()`.  `acc` is the current line, reversed.  `\r\n`
counts as a single boundary.  `fuel` bounds the step count; the entry
point passes the text length plus one, which always suffices since every
step consumes at least one character. -/
def splitlinesAux : Nat → Str → Str → List Str
  | 0, _, acc => if acc = [] then [] else [acc.reverse]
  | _ + 1, [], acc => if acc = [] then [] else [acc.reverse]
  | fuel + 1, c :: rest, acc =>
      if c = '\r' then acc.reverse :: splitlinesAux fuel (dropLf rest) []
      else if lineBoundary c then acc.reverse :: splitlinesAux fuel rest []
      else splitlinesAux fuel rest (c :: acc)

/-- Model of Python `text.splitlines()`. -/
def splitlines (cs : Str) : List Str := splitlinesAux (cs.length + 1) cs []

theorem splitlinesAux_fuel : ∀ (f1 f2 : Nat) (cs acc : Str), cs.length < f1 →
    cs.length < f2 → splitlinesAux f1 cs acc = splitlinesAux f2 cs acc := by
  intro f1
  induction f1 with
  | zero => intro f2 cs acc h _; omega
  | succ f1 ih =>
      intro f2 cs acc h1 h2
      cases f2 with
      | zero => omega
      | succ f2 =>
          cases cs with
          | nil => rfl
          | cons c rest =>
              have hd := dropLf_length rest
              simp only [List.length_cons] at h1 h2
              simp only [splitlinesAux]
              by_cases hr : c = '\r'
              · rw [if_pos hr, if_pos hr,
                  ih f2 (dropLf rest) [] (by omega) (by omega)]
              · rw [if_neg hr, if_neg hr]
                by_cases hb : lineBoundary c = true
                · rw [if_pos hb, if_pos hb, ih f2 rest [] (by omega) (by omega)]
                · rw [if_neg hb, if_neg hb, ih f2 rest (c :: acc) (by omega) (by omega)]

/-- `line.strip()` is falsy exactly when every character is whitespace. -/
def isBlank (l : Str) : Bool := l.all pySpace

/-- The non-blank lines of the input, in order: models
`[line for line in text.splitlines() if line.strip()]`. -/
def pyLines (text : Str) : List Str :=
  (splitlines text).filter (fun l => !isBlank l)

/-- Model of a Python float value: an exact decimal `m * 10 ^ e`, or one of
the non-finite floats.  Finite values are kept normalised
(`m = 0 → e = 0`, and `10 ∤ m` otherwise) so that equal numbers have equal
representations. -/
inductive PyFloat where
  | finite (m : Int) (e : Int)
  | nan
  | inf
  | ninf
deriving DecidableEq, Repr

/-- A Python value as it occurs in a cell of the loaded table: the JSON
scalars (`str`, `int`, `float`, `bool`, `None`).  A missing cell is the
float `nan`, exactly as in pandas. -/
inductive PyVal where
  | vstr (s : Str)
  | vint (n : Int)
  | vfloat (x : PyFloat)
  | vbool (b : Bool)
  | vnone
deriving DecidableEq, Repr

theorem natAbs_div10_lt {m : Int} (h : m ≠ 0) (hd : m % 10 = 0) :
    (m / 10).natAbs < m.natAbs := by
  rcases Int.dvd_of_emod_eq_zero hd with ⟨k, hk⟩
  subst hk
  rw [Int.mul_ediv_cancel_left k (by norm_num)]
  have hk0 : k ≠ 0 := by intro hz; apply h; simp [hz]
  have h1 : 0 < k.natAbs := Int.natAbs_pos.mpr hk0
  have h2 : (10 * k).natAbs = 10 * k.natAbs := by
    rw [Int.natAbs_mul]
    norm_num
  omega

/-- One pass of trailing-zero stripping, bounded by `fuel` (callers pass
`m.natAbs + 1`, which always suffices). -/
def normPairF : Nat → Int → Int → Int × Int
  | 0, m, e => (m, e)
  | fuel + 1, m, e =>
      if m = 0 then (0, 0)
      else if m % 10 = 0 then normPairF fuel (m / 10) (e + 1)
      else (m, e)

/-- Strip trailing decimal zeros from a mantissa/exponent pair. -/
def normPair (m e : Int) : Int × Int := normPairF (m.natAbs + 1) m e

/-- Normal form for finite float representations. -/
def NormFin (m e : Int) : Prop := (m = 0 ∧ e = 0) ∨ m % 10 ≠ 0

/-- Smart constructor for finite floats: normalises the representation. -/
def mkFin (m e : Int) : PyFloat := PyFloat.finite (normPair m e).1 (normPair m e).2

theorem normPairF_norm : ∀ (fuel : Nat) (m e : Int), m.natAbs < fuel →
    NormFin (normPairF fuel m e).1 (normPairF fuel m e).2 := by
  intro fuel
  induction fuel with
  | zero => intro m e h; omega
  | succ f ih =>
      intro m e hf
      by_cases hm : m = 0
      · rw [show normPairF (f + 1) m e = (0, 0) by simp [normPairF, hm]]
        left
        exact ⟨rfl, rfl⟩
      · by_cases hmod : m % 10 = 0
        · rw [show normPairF (f + 1) m e = normPairF f (m / 10) (e + 1) by
            simp [normPairF, hm, hmod]]
          have := natAbs_div10_lt hm hmod
          exact ih (m / 10) (e + 1) (by omega)
        · rw [show normPairF (f + 1) m e = (m, e) by simp [normPairF, hm, hmod]]
          right
          simpa using hmod

theorem normPair_norm (m e : Int) : NormFin (normPair m e).1 (normPair m e).2 :=
  normPairF_norm (m.natAbs + 1) m e (by omega)

theorem normPair_self {m e : Int} (h : NormFin m e) : normPair m e = (m, e) := by
  unfold normPair
  rcases h with ⟨hm, he⟩ | hmod
  · subst hm; subst he
    rfl
  · have hm : m ≠ 0 := by
      intro hz; apply hmod; simp [hz]
    simp [normPairF, hm, hmod]

theorem mkFin_self {m e : Int} (h : NormFin m e) : mkFin m e = PyFloat.finite m e := by
  unfold mkFin
  rw [normPair_self h]

theorem mkFin_norm (m e : Int) :
    ∃ m2 e2, mkFin m e = PyFloat.finite m2 e2 ∧ NormFin m2 e2 :=
  ⟨_, _, rfl, normPair_norm m e⟩

/-! ## Decimal digits: printing and parsing -/

/-- The ASCII digit character for `d` (meaningful for `d < 10`). -/
def digitChar (d : Nat) : Char := Char.ofNat (48 + d)

/-- Lowercase hex digit character (meaningful for `d < 16`), as produced by
`json.dumps` in `\u00xx` escapes. -/
def hexChar (d : Nat) : Char :=
  if d < 10 then digitChar d else Char.ofNat (87 + d)

/-- Big-endian decimal digit accumulation (`fuel` bounds the digit count;
callers pass `n + 1`, far more than the number of digits). -/
def printNatAux : Nat → Nat → Str → Str
  | 0, _, acc => acc
  | fuel + 1, n, acc =>
      if n < 10 then digitChar n :: acc
      else printNatAux fuel (n / 10) (digitChar (n % 10) :: acc)

/-- Decimal digit printing of a natural number, most significant first:
the text `repr(n)` / `json.dumps(n)` produces for a non-negative int. -/
def printNat (n : Nat) : Str := printNatAux (n + 1) n []

theorem printNatAux_digits : ∀ (fuel n : Nat) (acc : Str), n ≠ 0 → n < fuel →
    printNatAux fuel n acc = ((Nat.digits 10 n).map digitChar).reverse ++ acc := by
  intro fuel
  induction fuel with
  | zero => intro n acc _ h; omega
  | succ f ih =>
      intro n acc hn hf
      by_cases hlt : n < 10
      · rw [show printNatAux (f + 1) n acc = digitChar n :: acc by
          simp [printNatAux, hlt]]
        rw [Nat.digits_def' (by norm_num : 1 < 10) (Nat.pos_of_ne_zero hn)]
        rw [Nat.mod_eq_of_lt hlt, Nat.div_eq_of_lt hlt]
        simp
      · rw [show printNatAux (f + 1) n acc
            = printNatAux f (n / 10) (digitChar (n % 10) :: acc) by
          simp [printNatAux, hlt]]
        have hd : n / 10 ≠ 0 := by omega
        have hflt : n / 10 < f := by omega
        rw [ih (n / 10) (digitChar (n % 10) :: acc) hd hflt]
        rw [Nat.digits_def' (by norm_num : 1 < 10) (Nat.pos_of_ne_zero hn)]
        simp

/-- `printNat` in closed form over `Nat.digits`. -/
theorem printNat_eq (n : Nat) :
    printNat n = if n = 0 then ['0'] else ((Nat.digits 10 n).map digitChar).reverse := by
  by_cases hn : n = 0
  · subst hn
    rfl
  · rw [if_neg hn]
    unfold printNat
    rw [printNatAux_digits (n + 1) n [] hn (by omega)]
    simp

/-- `repr` of a Python int. -/
def printInt (n : Int) : Str :=
  if n < 0 then '-' :: printNat n.natAbs else printNat n.toNat

/-- Consume a maximal run of ASCII digits. -/
def takeDigits : Str → Str × Str
  | [] => ([], [])
  | c :: rest =>
      if c.isDigit then
        ((c :: (takeDigits rest).1), (takeDigits rest).2)
      else ([], c :: rest)

/-- Numeric value of a big-endian ASCII digit string. -/
def digitsToNat (ds : Str) : Nat :=
  ds.foldl (fun a c => 10 * a + (c.toNat - 48)) 0

theorem digitChar_toNat {d : Nat} (h : d < 10) : (digitChar d).toNat = 48 + d := by
  interval_cases d <;> rfl

theorem digitChar_isDigit {d : Nat} (h : d < 10) : (digitChar d).isDigit = true := by
  interval_cases d <;> rfl

theorem digitChar_ne_zero {d : Nat} (h : d < 10) (hd : d ≠ 0) : digitChar d ≠ '0' := by
  intro he
  have h2 : (digitChar d).toNat = 48 := by rw [he]; rfl
  rw [digitChar_toNat h] at h2
  omega

theorem foldl_digits_eq (L : List Nat) (a : Nat) (hL : ∀ d ∈ L, d < 10) :
    List.foldl (fun a c => 10 * a + (c.toNat - 48)) a ((L.map digitChar).reverse)
      = a * 10 ^ L.length + Nat.ofDigits 10 L := by
  induction L generalizing a with
  | nil => simp [Nat.ofDigits_nil]
  | cons d L ih =>
      have hd : d < 10 := hL d (by simp)
      have hL2 : ∀ x ∈ L, x < 10 := fun x hx => hL x (by simp [hx])
      simp only [List.map_cons, List.reverse_cons, List.foldl_append, List.foldl_cons,
        List.foldl_nil]
      rw [ih a hL2, digitChar_toNat hd, Nat.ofDigits_cons]
      have h48 : 48 + d - 48 = d := by omega
      rw [h48, List.length_cons, pow_succ]
      ring

theorem digitsToNat_printNat (n : Nat) : digitsToNat (printNat n) = n := by
  by_cases hn : n = 0
  · subst hn; rfl
  · rw [printNat_eq]
    unfold digitsToNat
    rw [if_neg hn]
    rw [foldl_digits_eq _ 0 (fun d hd => Nat.digits_lt_base (by norm_num) hd)]
    simpa using Nat.ofDigits_digits 10 n

theorem printNat_digits (n : Nat) : ∀ c ∈ printNat n, c.isDigit = true := by
  intro c hc
  rw [printNat_eq] at hc
  by_cases hn : n = 0
  · rw [if_pos hn] at hc
    simp at hc
    subst hc; rfl
  · rw [if_neg hn] at hc
    simp only [List.mem_reverse, List.mem_map] at hc
    obtain ⟨d, hd, rfl⟩ := hc
    exact digitChar_isDigit (Nat.digits_lt_base (by norm_num) hd)

theorem printNat_ne_nil (n : Nat) : printNat n ≠ [] := by
  rw [printNat_eq]
  by_cases hn : n = 0
  · simp [hn]
  · rw [if_neg hn]
    simp [Nat.digits_ne_nil_iff_ne_zero.mpr hn]

theorem printNat_head_pos (n : Nat) (hn : n ≠ 0) :
    ∃ c cs, printNat n = c :: cs ∧ c.isDigit = true ∧ c ≠ '0' := by
  rw [printNat_eq, if_neg hn]
  rcases List.eq_nil_or_concat (Nat.digits 10 n) with h | ⟨L, d, h⟩
  · exact absurd h (Nat.digits_ne_nil_iff_ne_zero.mpr hn)
  · have hdmem : d ∈ Nat.digits 10 n := by
      rw [h, List.concat_eq_append]
      simp
    have hdlt : d < 10 := Nat.digits_lt_base (by norm_num) hdmem
    have hlast : (Nat.digits 10 n).getLast (Nat.digits_ne_nil_iff_ne_zero.mpr hn) ≠ 0 :=
      Nat.getLast_digit_ne_zero 10 hn
    have hd0 : d ≠ 0 := by
      rw [List.getLast_congr _ (List.concat_ne_nil d L) h, List.getLast_concat'] at hlast
      exact hlast
    rw [h, List.concat_eq_append]
    exact ⟨digitChar d, (L.map digitChar).reverse, by simp,
      digitChar_isDigit hdlt, digitChar_ne_zero hdlt hd0⟩

/-! ## JSON strings: `json.dumps` escaping and the `json.loads` string scanner -/

/-- `json.dumps(..., ensure_ascii=False)` escaping of a single character:
`"` and `\` get a backslash, the five short control escapes are used where
they exist, any other control character becomes `\u00xx` (lowercase hex),
and every character `≥ U+0020` — including `U+0085`, `U+2028`, `U+2029` —
is emitted verbatim. -/
def escapeChar (c : Char) : Str :=
  if c = '"' then ['\\', '"']
  else if c = '\\' then ['\\', '\\']
  else if c = '\n' then ['\\', 'n']
  else if c = '\r' then ['\\', 'r']
  else if c = '\t' then ['\\', 't']
  else if c.toNat = 8 then ['\\', 'b']
  else if c.toNat = 12 then ['\\', 'f']
  else if c.toNat < 0x20 then
    ['\\', 'u', '0', '0', hexChar (c.toNat / 16), hexChar (c.toNat % 16)]
  else [c]

/-- A JSON string literal as `json.dumps` prints it. -/
def printJStr (s : Str) : Str := '"' :: (s.map escapeChar).flatten ++ ['"']

/-- Value of one hex digit character (as accepted by `json.loads` in
`\uXXXX` escapes). -/
def hexVal (c : Char) : Option Nat :=
  if '0' ≤ c ∧ c ≤ '9' then some (c.toNat - 48)
  else if 'a' ≤ c ∧ c ≤ 'f' then some (c.toNat - 87)
  else if 'A' ≤ c ∧ c ≤ 'F' then some (c.toNat - 55)
  else none

/-- Exactly four hex digits, as in a `\uXXXX` escape. -/
def hex4 : Str → Option (Nat × Str)
  | h1 :: h2 :: h3 :: h4 :: r =>
    (hexVal h1).bind fun a => (hexVal h2).bind fun b =>
    (hexVal h3).bind fun c => (hexVal h4).bind fun d =>
      some ((((a * 16 + b) * 16 + c) * 16 + d), r)
  | _ => none

/-- Continue a `\uXXXX` escape whose first code unit was a high surrogate:
expect a following `\uXXXX` low surrogate and combine the pair. -/
def parseLowSur (n : Nat) : Str → Option (Char × Str)
  | s1 :: s2 :: r3 =>
    if s1 = '\\' ∧ s2 = 'u' then
      (hex4 r3).bind fun q =>
        if 0xDC00 ≤ q.1 ∧ q.1 < 0xE000 then
          some (Char.ofNat (0x10000 + (n - 0xD800) * 0x400 + (q.1 - 0xDC00)), q.2)
        else none
    else none
  | _ => none

/-- Decode the payload of a `\u` escape (the scanner stands just after the
`u`): one code unit, or a surrogate pair combined into one character.  A
lone surrogate is rejected (Python would build a non-scalar `str`, which
`List Char` cannot represent; no serializer output contains one). -/
def parseUEsc (r : Str) : Option (Char × Str) :=
  (hex4 r).bind fun p =>
    if p.1 < 0xD800 ∨ 0xE000 ≤ p.1 then some (Char.ofNat p.1, p.2)
    else if p.1 < 0xDC00 then parseLowSur p.1 p.2
    else none

/-- The single-character escapes `json.loads` accepts after a backslash. -/
def escCharOf (e : Char) : Option Char :=
  if e = '"' then some '"'
  else if e = '\\' then some '\\'
  else if e = '/' then some '/'
  else if e = 'b' then some '\x08'
  else if e = 'f' then some '\x0c'
  else if e = 'n' then some '\n'
  else if e = 'r' then some '\r'
  else if e = 't' then some '\t'
  else none

/-- Decode one backslash escape (the scanner stands just after the
backslash). -/
def parseEsc : Str → Option (Char × Str)
  | [] => none
  | e :: r => if e = 'u' then parseUEsc r else (escCharOf e).map (fun ch => (ch, r))

/-- The `json.loads` string scanner, after the opening quote.  `acc` holds
the decoded characters in reverse.  Strict mode: a raw control character
(`< U+0020`) is an error.  `fuel` bounds the recursion depth; every entry
point passes the remaining input length plus one, which always suffices
since each step consumes at least one character. -/
def parseStrBody : Nat → Str → Str → Option (Str × Str)
  | 0, _, _ => none
  | _ + 1, [], _ => none
  | fuel + 1, c :: rest, acc =>
    if c = '"' then some (acc.reverse, rest)
    else if c = '\\' then
      (parseEsc rest).bind fun p => parseStrBody fuel p.2 (p.1 :: acc)
    else if c.toNat < 0x20 then none
    else parseStrBody fuel rest (c :: acc)

theorem hexVal_hexChar {d : Nat} (h : d < 16) : hexVal (hexChar d) = some d := by
  interval_cases d <;> decide

theorem psb_quote (f : Nat) (acc rest : Str) :
    parseStrBody (f + 1) ('"' :: rest) acc = some (acc.reverse, rest) := by
  simp [parseStrBody]

theorem psb_backslash (f : Nat) (acc rest : Str) :
    parseStrBody (f + 1) ('\\' :: rest) acc
      = (parseEsc rest).bind fun p => parseStrBody f p.2 (p.1 :: acc) := by
  simp [parseStrBody]

theorem psb_other (f : Nat) (acc rest : Str) (c : Char) (h1 : c ≠ '"') (h2 : c ≠ '\\')
    (h3 : ¬ c.toNat < 0x20) :
    parseStrBody (f + 1) (c :: rest) acc = parseStrBody f rest (c :: acc) := by
  simp [parseStrBody, h1, h2, h3]

theorem parseEsc_single (e ch : Char) (r : Str) (hu : e ≠ 'u') (he : escCharOf e = some ch) :
    parseEsc (e :: r) = some (ch, r) := by
  simp [parseEsc, hu, he]

theorem parseUEsc_print {t : Nat} (ht : t < 0x20) (r : Str) :
    parseUEsc ('0' :: '0' :: hexChar (t / 16) :: hexChar (t % 16) :: r)
      = some (Char.ofNat t, r) := by
  have h0 : hexVal '0' = some 0 := by decide
  have h3 : hexVal (hexChar (t / 16)) = some (t / 16) := hexVal_hexChar (by omega)
  have h4 : hexVal (hexChar (t % 16)) = some (t % 16) := hexVal_hexChar (by omega)
  have harith : ((0 * 16 + 0) * 16 + t / 16) * 16 + t % 16 = t := by omega
  simp only [parseUEsc, hex4, h0, h3, h4, Option.some_bind]
  rw [harith]
  rw [if_pos (Or.inl (by omega))]

theorem char_eq_of_toNat {c : Char} {t : Nat} (h : c.toNat = t) : c = Char.ofNat t := by
  rw [← h, Char.ofNat_toNat]

/-- Decoding inverts `json.dumps` escaping: scanning the escaped text of
`s` followed by a closing quote yields `s` and the remaining input. -/
theorem parseStrBody_print (s : Str) : ∀ (fuel : Nat) (acc rest : Str),
    (s.map escapeChar).flatten.length < fuel →
    parseStrBody fuel ((s.map escapeChar).flatten ++ '"' :: rest) acc
      = some (acc.reverse ++ s, rest) := by
  induction s with
  | nil =>
      intro fuel acc rest hf
      cases fuel with
      | zero => omega
      | succ f =>
          simp only [List.map_nil, List.flatten_nil, List.nil_append]
          rw [psb_quote]
          simp
  | cons c s ih =>
      intro fuel acc rest hf
      simp only [List.map_cons, List.flatten_cons, List.length_append, List.append_assoc] at hf ⊢
      by_cases hq : c = '"'
      · subst hq
        have he : escapeChar '"' = ['\\', '"'] := rfl
        rw [he] at hf ⊢
        simp only [List.length_cons] at hf
        cases fuel with
        | zero => omega
        | succ f =>
            simp only [List.cons_append, List.nil_append]
            rw [psb_backslash, parseEsc_single '"' '"' _ (by decide) (by decide)]
            simp only [Option.some_bind]
            rw [ih f _ rest (by omega)]
            simp
      · by_cases hb : c = '\\'
        · subst hb
          have he : escapeChar '\\' = ['\\', '\\'] := rfl
          rw [he] at hf ⊢
          simp only [List.length_cons] at hf
          cases fuel with
          | zero => omega
          | succ f =>
              simp only [List.cons_append, List.nil_append]
              rw [psb_backslash, parseEsc_single '\\' '\\' _ (by decide) (by decide)]
              simp only [Option.some_bind]
              rw [ih f _ rest (by omega)]
              simp
        · by_cases hn : c = '\n'
          · subst hn
            have he : escapeChar '\n' = ['\\', 'n'] := rfl
            rw [he] at hf ⊢
            simp only [List.length_cons] at hf
            cases fuel with
            | zero => omega
            | succ f =>
                simp only [List.cons_append, List.nil_append]
                rw [psb_backslash, parseEsc_single 'n' '\n' _ (by decide) (by decide)]
                simp only [Option.some_bind]
                rw [ih f _ rest (by omega)]
                simp
          · by_cases hr : c = '\r'
            · subst hr
              have he : escapeChar '\r' = ['\\', 'r'] := rfl
              rw [he] at hf ⊢
              simp only [List.length_cons] at hf
              cases fuel with
              | zero => omega
              | succ f =>
                  simp only [List.cons_append, List.nil_append]
                  rw [psb_backslash, parseEsc_single 'r' '\r' _ (by decide) (by decide)]
                  simp only [Option.some_bind]
                  rw [ih f _ rest (by omega)]
                  simp
            · by_cases htb : c = '\t'
              · subst htb
                have he : escapeChar '\t' = ['\\', 't'] := rfl
                rw [he] at hf ⊢
                simp only [List.length_cons] at hf
                cases fuel with
                | zero => omega
                | succ f =>
                    simp only [List.cons_append, List.nil_append]
                    rw [psb_backslash, parseEsc_single 't' '\t' _ (by decide) (by decide)]
                    simp only [Option.some_bind]
                    rw [ih f _ rest (by omega)]
                    simp
              · by_cases h8 : c.toNat = 8
                · have hc : c = Char.ofNat 8 := char_eq_of_toNat h8
                  subst hc
                  have he : escapeChar (Char.ofNat 8) = ['\\', 'b'] := rfl
                  rw [he] at hf ⊢
                  simp only [List.length_cons] at hf
                  cases fuel with
                  | zero => omega
                  | succ f =>
                      simp only [List.cons_append, List.nil_append]
                      rw [psb_backslash, parseEsc_single 'b' (Char.ofNat 8) _ (by decide) (by decide)]
                      simp only [Option.some_bind]
                      rw [ih f _ rest (by omega)]
                      simp
                · by_cases h12 : c.toNat = 12
                  · have hc : c = Char.ofNat 12 := char_eq_of_toNat h12
                    subst hc
                    have he : escapeChar (Char.ofNat 12) = ['\\', 'f'] := rfl
                    rw [he] at hf ⊢
                    simp only [List.length_cons] at hf
                    cases fuel with
                    | zero => omega
                    | succ f =>
                        simp only [List.cons_append, List.nil_append]
                        rw [psb_backslash, parseEsc_single 'f' (Char.ofNat 12) _ (by decide) (by decide)]
                        simp only [Option.some_bind]
                        rw [ih f _ rest (by omega)]
                        simp
                  · by_cases hctl : c.toNat < 0x20
                    · have he : escapeChar c
                          = ['\\', 'u', '0', '0', hexChar (c.toNat / 16), hexChar (c.toNat % 16)] := by
                        unfold escapeChar
                        rw [if_neg hq, if_neg hb, if_neg hn, if_neg hr, if_neg htb,
                          if_neg h8, if_neg h12, if_pos hctl]
                      rw [he] at hf ⊢
                      simp only [List.length_cons] at hf
                      cases fuel with
                      | zero => omega
                      | succ f =>
                          simp only [List.cons_append, List.nil_append]
                          rw [psb_backslash]
                          have hesc : parseEsc ('u' :: '0' :: '0' :: hexChar (c.toNat / 16)
                              :: hexChar (c.toNat % 16)
                              :: ((s.map escapeChar).flatten ++ '"' :: rest))
                              = some (Char.ofNat c.toNat,
                                  (s.map escapeChar).flatten ++ '"' :: rest) := by
                            simp only [parseEsc, if_pos rfl]
                            exact parseUEsc_print hctl _
                          rw [hesc]
                          simp only [Option.some_bind, Char.ofNat_toNat]
                          rw [ih f _ rest (by omega)]
                          simp
                    · have he : escapeChar c = [c] := by
                        unfold escapeChar
                        rw [if_neg hq, if_neg hb, if_neg hn, if_neg hr, if_neg htb,
                          if_neg h8, if_neg h12, if_neg hctl]
                      rw [he] at hf ⊢
                      simp only [List.length_cons] at hf
                      cases fuel with
                      | zero => omega
                      | succ f =>
                          simp only [List.cons_append, List.nil_append]
                          rw [psb_other f _ _ c hq hb hctl]
                          rw [ih f _ rest (by omega)]
                          simp

/-- No further digit follows at the head of `rest`. -/
def NoDigitHead (rest : Str) : Prop :=
  ∀ c, rest.head? = some c → c.isDigit = false

theorem takeDigits_exact (ds rest : Str) (hds : ∀ c ∈ ds, c.isDigit = true)
    (hrest : NoDigitHead rest) : takeDigits (ds ++ rest) = (ds, rest) := by
  induction ds with
  | nil =>
      cases rest with
      | nil => rfl
      | cons c r =>
          have := hrest c (by rfl)
          simp [takeDigits, this]
  | cons c ds ih =>
      have hc : c.isDigit = true := hds c (by simp)
      have : takeDigits (ds ++ rest) = (ds, rest) := ih (fun x hx => hds x (by simp [hx]))
      simp [takeDigits, hc, this]

/-! ## JSON numbers and scalar values (the `json.loads` fragment used) -/

/-- First-match choice between alternatives of the scanner. -/
def oor {α : Type} : Option α → Option α → Option α
  | some a, _ => some a
  | none, b => b

/-- Strip a literal token (`true`, `null`, `NaN`, …) from the input. -/
def stripLit (lit : Str) (cs : Str) : Option Str :=
  if lit.isPrefixOf cs then some (cs.drop lit.length) else none

/-- A maximal nonempty digit run and its value. -/
def unsignedDigits (cs : Str) : Option (Nat × Str) :=
  if (takeDigits cs).1 = [] then none
  else some (digitsToNat (takeDigits cs).1, (takeDigits cs).2)

/-- A maximal nonempty digit run: value, digit count and the rest. -/
def unsignedDigitsLen (cs : Str) : Option (Nat × Nat × Str) :=
  if (takeDigits cs).1 = [] then none
  else some (digitsToNat (takeDigits cs).1, (takeDigits cs).1.length, (takeDigits cs).2)

/-- `[+-]?digits`, as in a JSON exponent. -/
def parseSignedDigits : Str → Option (Int × Str)
  | [] => none
  | c :: rest =>
      if c = '-' then (unsignedDigits rest).map (fun p => (-(p.1 : Int), p.2))
      else if c = '+' then (unsignedDigits rest).map (fun p => ((p.1 : Int), p.2))
      else (unsignedDigits (c :: rest)).map (fun p => ((p.1 : Int), p.2))

/-- JSON integer part: `0` or a nonzero digit followed by digits (leading
zeros are not matched — exactly the `(?:0|[1-9]\d*)` of `json`'s number
regex). -/
def parseIntPart : Str → Option (Nat × Str)
  | [] => none
  | c :: rest =>
      if c = '0' then some (0, rest)
      else if c.isDigit then
        some (digitsToNat (c :: (takeDigits rest).1), (takeDigits rest).2)
      else none

/-- Optional fraction `(\.\d+)?`: value and digit count (count `0` means
the group did not match, in which case nothing is consumed). -/
def parseFracPart : Str → (Nat × Nat) × Str
  | [] => ((0, 0), [])
  | c :: rest =>
      if c = '.' then
        ((unsignedDigitsLen rest).map (fun p => ((p.1, p.2.1), p.2.2))).getD
          ((0, 0), c :: rest)
      else ((0, 0), c :: rest)

/-- Optional exponent `([eE][-+]?\d+)?`: presence flag and value (nothing
consumed when absent). -/
def parseExpPart : Str → (Bool × Int) × Str
  | [] => ((false, 0), [])
  | c :: rest =>
      if c = 'e' ∨ c = 'E' then
        ((parseSignedDigits rest).map (fun p => ((true, p.1), p.2))).getD
          ((false, 0), c :: rest)
      else ((false, 0), c :: rest)

/-- Assemble a JSON number after the optional leading minus: an int if
neither fraction nor exponent matched, a float (exact decimal) otherwise —
mirroring `int(integer)` vs `float(...)` in `json.scanner`. -/
def parseNumAfterSign (neg : Bool) (cs : Str) : Option (PyVal × Str) :=
  (parseIntPart cs).bind fun ip =>
    let fr := parseFracPart ip.2
    let ex := parseExpPart fr.2
    if fr.1.2 = 0 ∧ ex.1.1 = false then
      some (PyVal.vint (if neg then -(ip.1 : Int) else (ip.1 : Int)), ex.2)
    else
      some (PyVal.vfloat
        (mkFin (if neg then -((ip.1 * 10 ^ fr.1.2 + fr.1.1 : Nat) : Int)
                else ((ip.1 * 10 ^ fr.1.2 + fr.1.1 : Nat) : Int))
          (ex.1.2 - fr.1.2)), ex.2)

/-- A JSON number. -/
def parseNumber : Str → Option (PyVal × Str)
  | [] => none
  | c :: rest =>
      if c = '-' then parseNumAfterSign true rest
      else parseNumAfterSign false (c :: rest)

/-- A JSON scalar value, per the `json.loads` scanner: string, `true`,
`false`, `null`, `NaN`, `Infinity`, `-Infinity`, or a number.  Nested
arrays/objects are outside the modelled fragment. -/
def parseValue : Str → Option (PyVal × Str)
  | [] => none
  | c :: rest =>
      if c = '"' then
        (parseStrBody (rest.length + 1) rest []).map (fun p => (PyVal.vstr p.1, p.2))
      else
        oor ((stripLit ['t', 'r', 'u', 'e'] (c :: rest)).map (fun r => (PyVal.vbool true, r)))
        (oor ((stripLit ['f', 'a', 'l', 's', 'e'] (c :: rest)).map
                (fun r => (PyVal.vbool false, r)))
        (oor ((stripLit ['n', 'u', 'l', 'l'] (c :: rest)).map (fun r => (PyVal.vnone, r)))
        (oor ((stripLit ['N', 'a', 'N'] (c :: rest)).map
                (fun r => (PyVal.vfloat PyFloat.nan, r)))
        (oor ((stripLit ['I', 'n', 'f', 'i', 'n', 'i', 't', 'y'] (c :: rest)).map
                (fun r => (PyVal.vfloat PyFloat.inf, r)))
        (oor ((stripLit ['-', 'I', 'n', 'f', 'i', 'n', 'i', 't', 'y'] (c :: rest)).map
                (fun r => (PyVal.vfloat PyFloat.ninf, r)))
        (parseNumber (c :: rest)))))))

/-- `json.dumps` text for one scalar value (Python `repr` for numbers;
floats in the model print in canonical scientific notation `<m>e<e>` — a
decimal-exact rendition of CPython's shortest-repr floats). -/
def printVal : PyVal → Str
  | PyVal.vstr s => printJStr s
  | PyVal.vint n => printInt n
  | PyVal.vfloat (PyFloat.finite m e) => printInt m ++ 'e' :: printInt e
  | PyVal.vfloat PyFloat.nan => ['N', 'a', 'N']
  | PyVal.vfloat PyFloat.inf => ['I', 'n', 'f', 'i', 'n', 'i', 't', 'y']
  | PyVal.vfloat PyFloat.ninf => ['-', 'I', 'n', 'f', 'i', 'n', 'i', 't', 'y']
  | PyVal.vbool true => ['t', 'r', 'u', 'e']
  | PyVal.vbool false => ['f', 'a', 'l', 's', 'e']
  | PyVal.vnone => ['n', 'u', 'l', 'l']

/-- Floats stored in a value are in normal form. -/
def NormVal : PyVal → Prop
  | PyVal.vfloat (PyFloat.finite m e) => NormFin m e
  | _ => True

/-- What may follow a serialized value inside a record: nothing, or a
member separator, or the closing brace. -/
def ValStop : Str → Prop
  | [] => True
  | c :: _ => c = ',' ∨ c = '}'

theorem ne_of_isDigit {c : Char} (h : c.isDigit = true) (X : Char) (hX : X.isDigit = false) :
    c ≠ X := by
  intro he
  rw [he, hX] at h
  cases h

theorem valStop_noDigit {rest : Str} (h : ValStop rest) : NoDigitHead rest := by
  intro c hc
  cases rest with
  | nil => cases hc
  | cons d r =>
      simp only [List.head?_cons, Option.some.injEq] at hc
      subst hc
      rcases h with h | h <;> rw [h] <;> rfl

theorem valStop_head {rest : Str} (h : ValStop rest) :
    ∀ c, rest.head? = some c → c ≠ '.' ∧ ¬(c = 'e' ∨ c = 'E') := by
  intro c hc
  cases rest with
  | nil => cases hc
  | cons d r =>
      simp only [List.head?_cons, Option.some.injEq] at hc
      subst hc
      rcases h with h | h <;> rw [h] <;> exact ⟨by decide, by decide⟩

theorem unsignedDigits_print (n : Nat) (rest : Str) (hrest : NoDigitHead rest) :
    unsignedDigits (printNat n ++ rest) = some (n, rest) := by
  unfold unsignedDigits
  rw [takeDigits_exact (printNat n) rest (printNat_digits n) hrest]
  simp [printNat_ne_nil n, digitsToNat_printNat n]

theorem parseIntPart_print (n : Nat) (rest : Str) (hrest : NoDigitHead rest) :
    parseIntPart (printNat n ++ rest) = some (n, rest) := by
  by_cases hn : n = 0
  · subst hn
    rw [show printNat 0 = ['0'] from rfl]
    simp [parseIntPart]
  · obtain ⟨c, cs, hpr, hdig, hne0⟩ := printNat_head_pos n hn
    have hcs : ∀ x ∈ cs, x.isDigit = true := by
      intro x hx
      exact printNat_digits n x (by rw [hpr]; simp [hx])
    have htd : takeDigits (cs ++ rest) = (cs, rest) := takeDigits_exact cs rest hcs hrest
    rw [hpr]
    simp only [List.cons_append, parseIntPart, if_neg hne0, hdig, if_true, htd]
    have : digitsToNat (c :: cs) = n := by
      rw [show c :: cs = printNat n from hpr.symm]
      exact digitsToNat_printNat n
    rw [this]

theorem parseFracPart_none (cs : Str) (h : ∀ c, cs.head? = some c → c ≠ '.') :
    parseFracPart cs = ((0, 0), cs) := by
  cases cs with
  | nil => rfl
  | cons c r =>
      have := h c (by rfl)
      simp [parseFracPart, this]

theorem parseExpPart_none (cs : Str) (h : ∀ c, cs.head? = some c → ¬(c = 'e' ∨ c = 'E')) :
    parseExpPart cs = ((false, 0), cs) := by
  cases cs with
  | nil => rfl
  | cons c r =>
      have := h c (by rfl)
      simp [parseExpPart, this]

/-- Definitional unfolding equations for the cons cases of the
non-recursive scanners. -/
theorem parseSignedDigits_cons (c : Char) (rest : Str) :
    parseSignedDigits (c :: rest)
      = (if c = '-' then (unsignedDigits rest).map (fun p => (-(p.1 : Int), p.2))
         else if c = '+' then (unsignedDigits rest).map (fun p => ((p.1 : Int), p.2))
         else (unsignedDigits (c :: rest)).map (fun p => ((p.1 : Int), p.2))) := rfl

theorem parseIntPart_cons (c : Char) (rest : Str) :
    parseIntPart (c :: rest)
      = (if c = '0' then some (0, rest)
         else if c.isDigit then
           some (digitsToNat (c :: (takeDigits rest).1), (takeDigits rest).2)
         else none) := rfl

theorem parseFracPart_cons (c : Char) (rest : Str) :
    parseFracPart (c :: rest)
      = (if c = '.' then
           ((unsignedDigitsLen rest).map (fun p => ((p.1, p.2.1), p.2.2))).getD
             ((0, 0), c :: rest)
         else ((0, 0), c :: rest)) := rfl

theorem parseExpPart_cons (c : Char) (rest : Str) :
    parseExpPart (c :: rest)
      = (if c = 'e' ∨ c = 'E' then
           ((parseSignedDigits rest).map (fun p => ((true, p.1), p.2))).getD
             ((false, 0), c :: rest)
         else ((false, 0), c :: rest)) := rfl

theorem parseNumber_cons (c : Char) (rest : Str) :
    parseNumber (c :: rest)
      = (if c = '-' then parseNumAfterSign true rest
         else parseNumAfterSign false (c :: rest)) := rfl

theorem parseValue_cons (c : Char) (rest : Str) :
    parseValue (c :: rest)
      = (if c = '"' then
          (parseStrBody (rest.length + 1) rest []).map (fun p => (PyVal.vstr p.1, p.2))
        else
          oor ((stripLit ['t', 'r', 'u', 'e'] (c :: rest)).map (fun r => (PyVal.vbool true, r)))
          (oor ((stripLit ['f', 'a', 'l', 's', 'e'] (c :: rest)).map
                  (fun r => (PyVal.vbool false, r)))
          (oor ((stripLit ['n', 'u', 'l', 'l'] (c :: rest)).map (fun r => (PyVal.vnone, r)))
          (oor ((stripLit ['N', 'a', 'N'] (c :: rest)).map
                  (fun r => (PyVal.vfloat PyFloat.nan, r)))
          (oor ((stripLit ['I', 'n', 'f', 'i', 'n', 'i', 't', 'y'] (c :: rest)).map
                  (fun r => (PyVal.vfloat PyFloat.inf, r)))
          (oor ((stripLit ['-', 'I', 'n', 'f', 'i', 'n', 'i', 't', 'y'] (c :: rest)).map
                  (fun r => (PyVal.vfloat PyFloat.ninf, r)))
          (parseNumber (c :: rest)))))))) := rfl

theorem oor_none {a : Type} (b : Option a) : oor none b = b := rfl

theorem oor_some {a : Type} (x : a) (b : Option a) : oor (some x) b = some x := rfl

theorem printInt_neg {n : Int} (h : n < 0) : printInt n = '-' :: printNat n.natAbs := by
  unfold printInt
  rw [if_pos h]

theorem printInt_nonneg {n : Int} (h : ¬ n < 0) : printInt n = printNat n.toNat := by
  unfold printInt
  rw [if_neg h]

theorem parseSignedDigits_print (e : Int) (rest : Str) (hrest : NoDigitHead rest) :
    parseSignedDigits (printInt e ++ rest) = some (e, rest) := by
  by_cases he : e < 0
  · rw [printInt_neg he, List.cons_append, parseSignedDigits_cons, if_pos rfl,
      unsignedDigits_print e.natAbs rest hrest]
    simp only [Option.map_some']
    have h2 : -(e.natAbs : Int) = e := by omega
    rw [h2]
  · rw [printInt_nonneg he]
    obtain ⟨c, cs, hpr⟩ := List.exists_cons_of_ne_nil (printNat_ne_nil e.toNat)
    have hdig : c.isDigit = true := printNat_digits e.toNat c (by rw [hpr]; simp)
    rw [hpr, List.cons_append, parseSignedDigits_cons,
      if_neg (ne_of_isDigit hdig '-' (by decide)), if_neg (ne_of_isDigit hdig '+' (by decide))]
    rw [show c :: (cs ++ rest) = printNat e.toNat ++ rest by rw [hpr]; simp]
    rw [unsignedDigits_print e.toNat rest hrest]
    simp only [Option.map_some']
    have h2 : (e.toNat : Int) = e := Int.toNat_of_nonneg (by omega)
    rw [h2]

theorem parseExpPart_print (e : Int) (rest : Str) (hrest : NoDigitHead rest) :
    parseExpPart ('e' :: (printInt e ++ rest)) = ((true, e), rest) := by
  rw [parseExpPart_cons, if_pos (Or.inl rfl), parseSignedDigits_print e rest hrest]
  rfl

theorem parseNumAfterSign_int (neg : Bool) (n : Nat) (rest : Str) (hstop : ValStop rest) :
    parseNumAfterSign neg (printNat n ++ rest)
      = some (PyVal.vint (if neg then -(n : Int) else (n : Int)), rest) := by
  unfold parseNumAfterSign
  rw [parseIntPart_print n rest (valStop_noDigit hstop)]
  simp only [Option.some_bind]
  rw [parseFracPart_none rest (fun c hc => (valStop_head hstop c hc).1)]
  rw [parseExpPart_none rest (fun c hc => (valStop_head hstop c hc).2)]
  simp

theorem parseNumAfterSign_float (neg : Bool) (n : Nat) (e : Int) (rest : Str)
    (hstop : ValStop rest) :
    parseNumAfterSign neg (printNat n ++ ('e' :: (printInt e ++ rest)))
      = some (PyVal.vfloat (mkFin (if neg then -(n : Int) else (n : Int)) e), rest) := by
  unfold parseNumAfterSign
  rw [parseIntPart_print n ('e' :: (printInt e ++ rest)) (by
    intro c hc
    simp only [List.head?_cons, Option.some.injEq] at hc
    subst hc
    rfl)]
  simp only [Option.some_bind]
  rw [parseFracPart_none ('e' :: (printInt e ++ rest)) (by
    intro c hc
    simp only [List.head?_cons, Option.some.injEq] at hc
    subst hc
    decide)]
  rw [parseExpPart_print e rest (valStop_noDigit hstop)]
  simp

theorem parseNumber_printInt (k : Int) (rest : Str) (hstop : ValStop rest) :
    parseNumber (printInt k ++ rest) = some (PyVal.vint k, rest) := by
  by_cases hk : k < 0
  · rw [printInt_neg hk, List.cons_append, parseNumber_cons, if_pos rfl,
      parseNumAfterSign_int true k.natAbs rest hstop]
    have h2 : -(k.natAbs : Int) = k := by omega
    rw [if_pos rfl, h2]
  · rw [printInt_nonneg hk]
    obtain ⟨c, cs, hpr⟩ := List.exists_cons_of_ne_nil (printNat_ne_nil k.toNat)
    have hdig : c.isDigit = true := printNat_digits k.toNat c (by rw [hpr]; simp)
    rw [hpr, List.cons_append, parseNumber_cons, if_neg (ne_of_isDigit hdig '-' (by decide))]
    rw [show c :: (cs ++ rest) = printNat k.toNat ++ rest by rw [hpr]; simp]
    rw [parseNumAfterSign_int false k.toNat rest hstop]
    have h2 : (k.toNat : Int) = k := Int.toNat_of_nonneg (by omega)
    rw [if_neg (by simp), h2]

theorem parseNumber_printFin (m e : Int) (rest : Str) (hnorm : NormFin m e)
    (hstop : ValStop rest) :
    parseNumber ((printInt m ++ 'e' :: printInt e) ++ rest)
      = some (PyVal.vfloat (PyFloat.finite m e), rest) := by
  rw [List.append_assoc]
  by_cases hm : m < 0
  · rw [printInt_neg hm, List.cons_append, parseNumber_cons, if_pos rfl]
    rw [show printNat m.natAbs ++ (('e' :: printInt e) ++ rest)
        = printNat m.natAbs ++ ('e' :: (printInt e ++ rest)) by simp]
    rw [parseNumAfterSign_float true m.natAbs e rest hstop]
    have h2 : -(m.natAbs : Int) = m := by omega
    rw [if_pos rfl, h2, mkFin_self hnorm]
  · rw [printInt_nonneg hm]
    obtain ⟨c, cs, hpr⟩ := List.exists_cons_of_ne_nil (printNat_ne_nil m.toNat)
    have hdig : c.isDigit = true := printNat_digits m.toNat c (by rw [hpr]; simp)
    rw [hpr, List.cons_append, parseNumber_cons, if_neg (ne_of_isDigit hdig '-' (by decide))]
    rw [show c :: (cs ++ (('e' :: printInt e) ++ rest))
        = printNat m.toNat ++ ('e' :: (printInt e ++ rest)) by rw [hpr]; simp]
    rw [parseNumAfterSign_float false m.toNat e rest hstop]
    have h2 : (m.toNat : Int) = m := Int.toNat_of_nonneg (by omega)
    rw [if_neg (by simp), h2, mkFin_self hnorm]

theorem stripLit_head_ne {a c : Char} (h : a ≠ c) (l cs : Str) :
    stripLit (a :: l) (c :: cs) = none := by
  have hb : (a == c) = false := beq_eq_false_iff_ne.mpr h
  simp [stripLit, List.isPrefixOf, hb]

theorem stripLit_head2_ne {a b c : Char} (h : b ≠ c) (l cs : Str) :
    stripLit (a :: b :: l) (a :: c :: cs) = none := by
  have hb : (b == c) = false := beq_eq_false_iff_ne.mpr h
  simp [stripLit, List.isPrefixOf, hb]

/-- On input that starts with a printed int (digit or minus sign), the
scanner's literal alternatives all fail and the number branch decides. -/
theorem parseValue_starts_num (k : Int) (X : Str) :
    parseValue (printInt k ++ X) = parseNumber (printInt k ++ X) := by
  by_cases hk : k < 0
  · rw [printInt_neg hk, List.cons_append, parseValue_cons, if_neg (by decide)]
    obtain ⟨c, cs, hpr⟩ := List.exists_cons_of_ne_nil (printNat_ne_nil k.natAbs)
    have hdig : c.isDigit = true := printNat_digits k.natAbs c (by rw [hpr]; simp)
    rw [hpr, List.cons_append]
    rw [stripLit_head_ne (by decide) _ _, stripLit_head_ne (by decide) _ _,
      stripLit_head_ne (by decide) _ _, stripLit_head_ne (by decide) _ _,
      stripLit_head_ne (by decide) _ _,
      stripLit_head2_ne (Ne.symm (ne_of_isDigit hdig 'I' (by decide))) _ _]
    simp only [Option.map_none', oor_none]
  · rw [printInt_nonneg hk]
    obtain ⟨c, cs, hpr⟩ := List.exists_cons_of_ne_nil (printNat_ne_nil k.toNat)
    have hdig : c.isDigit = true := printNat_digits k.toNat c (by rw [hpr]; simp)
    rw [hpr, List.cons_append, parseValue_cons,
      if_neg (ne_of_isDigit hdig '"' (by decide))]
    rw [stripLit_head_ne (Ne.symm (ne_of_isDigit hdig 't' (by decide))) _ _,
      stripLit_head_ne (Ne.symm (ne_of_isDigit hdig 'f' (by decide))) _ _,
      stripLit_head_ne (Ne.symm (ne_of_isDigit hdig 'n' (by decide))) _ _,
      stripLit_head_ne (Ne.symm (ne_of_isDigit hdig 'N' (by decide))) _ _,
      stripLit_head_ne (Ne.symm (ne_of_isDigit hdig 'I' (by decide))) _ _,
      stripLit_head_ne (Ne.symm (ne_of_isDigit hdig '-' (by decide))) _ _]
    simp only [Option.map_none', oor_none]

/-- Scanning the `json.dumps` text of a scalar value yields the value back:
the central one-value round-trip. -/
theorem parseValue_print (v : PyVal) (rest : Str) (hnorm : NormVal v) (hstop : ValStop rest) :
    parseValue (printVal v ++ rest) = some (v, rest) := by
  cases v with
  | vstr s =>
      have harr : printVal (PyVal.vstr s) ++ rest
          = '"' :: ((s.map escapeChar).flatten ++ '"' :: rest) := by
        simp [printVal, printJStr]
      rw [harr, parseValue_cons, if_pos rfl]
      rw [parseStrBody_print s _ [] rest (by simp [List.length_append]; omega)]
      simp
  | vint n =>
      rw [show printVal (PyVal.vint n) = printInt n from rfl, parseValue_starts_num,
        parseNumber_printInt n rest hstop]
  | vfloat x =>
      cases x with
      | finite m e =>
          have harr : printVal (PyVal.vfloat (PyFloat.finite m e)) ++ rest
              = printInt m ++ (('e' :: printInt e) ++ rest) := by
            simp [printVal]
          rw [harr, parseValue_starts_num]
          rw [show printInt m ++ (('e' :: printInt e) ++ rest)
              = (printInt m ++ 'e' :: printInt e) ++ rest by simp]
          exact parseNumber_printFin m e rest hnorm hstop
      | nan =>
          rw [show printVal (PyVal.vfloat PyFloat.nan) ++ rest
              = 'N' :: 'a' :: 'N' :: rest from rfl]
          rw [parseValue_cons, if_neg (by decide)]
          rw [stripLit_head_ne (by decide) _ _, stripLit_head_ne (by decide) _ _,
            stripLit_head_ne (by decide) _ _]
          simp only [Option.map_none', oor_none]
          rw [show stripLit ['N', 'a', 'N'] ('N' :: 'a' :: 'N' :: rest) = some rest by
            simp [stripLit, List.isPrefixOf]]
          simp [oor_some]
      | inf =>
          rw [show printVal (PyVal.vfloat PyFloat.inf) ++ rest
              = 'I' :: 'n' :: 'f' :: 'i' :: 'n' :: 'i' :: 't' :: 'y' :: rest from rfl]
          rw [parseValue_cons, if_neg (by decide)]
          rw [stripLit_head_ne (by decide) _ _, stripLit_head_ne (by decide) _ _,
            stripLit_head_ne (by decide) _ _, stripLit_head_ne (by decide) _ _]
          simp only [Option.map_none', oor_none]
          rw [show stripLit ['I', 'n', 'f', 'i', 'n', 'i', 't', 'y']
              ('I' :: 'n' :: 'f' :: 'i' :: 'n' :: 'i' :: 't' :: 'y' :: rest) = some rest by
            simp [stripLit, List.isPrefixOf]]
          simp [oor_some]
      | ninf =>
          rw [show printVal (PyVal.vfloat PyFloat.ninf) ++ rest
              = '-' :: 'I' :: 'n' :: 'f' :: 'i' :: 'n' :: 'i' :: 't' :: 'y' :: rest from rfl]
          rw [parseValue_cons, if_neg (by decide)]
          rw [stripLit_head_ne (by decide) _ _, stripLit_head_ne (by decide) _ _,
            stripLit_head_ne (by decide) _ _, stripLit_head_ne (by decide) _ _,
            stripLit_head_ne (by decide) _ _]
          simp only [Option.map_none', oor_none]
          rw [show stripLit ['-', 'I', 'n', 'f', 'i', 'n', 'i', 't', 'y']
              ('-' :: 'I' :: 'n' :: 'f' :: 'i' :: 'n' :: 'i' :: 't' :: 'y' :: rest)
              = some rest by
            simp [stripLit, List.isPrefixOf]]
          simp [oor_some]
  | vbool b =>
      cases b with
      | true =>
          rw [show printVal (PyVal.vbool true) ++ rest = 't' :: 'r' :: 'u' :: 'e' :: rest
            from rfl]
          rw [parseValue_cons, if_neg (by decide)]
          rw [show stripLit ['t', 'r', 'u', 'e'] ('t' :: 'r' :: 'u' :: 'e' :: rest)
              = some rest by simp [stripLit, List.isPrefixOf]]
          simp [oor_some]
      | false =>
          rw [show printVal (PyVal.vbool false) ++ rest
              = 'f' :: 'a' :: 'l' :: 's' :: 'e' :: rest from rfl]
          rw [parseValue_cons, if_neg (by decide)]
          rw [stripLit_head_ne (by decide) _ _]
          simp only [Option.map_none', oor_none]
          rw [show stripLit ['f', 'a', 'l', 's', 'e'] ('f' :: 'a' :: 'l' :: 's' :: 'e' :: rest)
              = some rest by simp [stripLit, List.isPrefixOf]]
          simp [oor_some]
  | vnone =>
      rw [show printVal PyVal.vnone ++ rest = 'n' :: 'u' :: 'l' :: 'l' :: rest from rfl]
      rw [parseValue_cons, if_neg (by decide)]
      rw [stripLit_head_ne (by decide) _ _, stripLit_head_ne (by decide) _ _]
      simp only [Option.map_none', oor_none]
      rw [show stripLit ['n', 'u', 'l', 'l'] ('n' :: 'u' :: 'l' :: 'l' :: rest)
          = some rest by simp [stripLit, List.isPrefixOf]]
      simp [oor_some]

/-! ## JSON objects: one line of the JSONL file -/

/-- A Python dict as built by `json.loads` of one line: an ordered mapping
from field name to value. -/
abbrev PyDict := List (Str × PyVal)

/-- `d[k] = v` on a Python dict: replace in place if the key exists
(keeping its position), else append. -/
def dictInsert (k : Str) (v : PyVal) : PyDict → PyDict
  | [] => [(k, v)]
  | kv :: t => if kv.1 = k then (k, v) :: t else kv :: dictInsert k v t

/-- The whitespace `json.loads` skips between tokens. -/
def jsonWs (c : Char) : Bool := c = ' ' || c = '\t' || c = '\n' || c = '\r'

def skipWs (cs : Str) : Str := cs.dropWhile jsonWs

def expectChar (c : Char) : Str → Option Str
  | [] => none
  | d :: rest => if d = c then some rest else none

/-- One `"key": value` member. -/
def parseMember (cs : Str) : Option ((Str × PyVal) × Str) :=
  (expectChar '"' cs).bind fun r1 =>
  (parseStrBody (r1.length + 1) r1 []).bind fun ks =>
  (expectChar ':' (skipWs ks.2)).bind fun r2 =>
  (parseValue (skipWs r2)).bind fun vp =>
  some ((ks.1, vp.1), vp.2)

/-- What follows one member: `inr next` for a comma (the loop continues
at `next`, whitespace skipped), `inl rest` for the closing brace. -/
def memSep : Str → Option (Sum Str Str)
  | [] => none
  | c :: rest =>
      if c = ',' then some (Sum.inr (skipWs rest))
      else if c = '}' then some (Sum.inl rest)
      else none

/-- The member loop of the `json.loads` object scanner (standing at the
start of a key).  `fuel` bounds the member count; callers pass the input
length plus one, which suffices since every member consumes characters. -/
def parseMembers : Nat → PyDict → Str → Option (PyDict × Str)
  | 0, _, _ => none
  | fuel + 1, acc, cs =>
      (parseMember cs).bind fun mv =>
        (memSep (skipWs mv.2)).bind
          (Sum.elim (fun rest => some (dictInsert mv.1.1 mv.1.2 acc, rest))
            (fun next => parseMembers fuel (dictInsert mv.1.1 mv.1.2 acc) next))

/-- The object body after the opening brace (whitespace already skipped):
empty object or the member loop. -/
def objBody : Str → Option (PyDict × Str)
  | [] => none
  | c :: rest =>
      if c = '}' then some ([], rest)
      else parseMembers ((c :: rest).length + 1) [] (c :: rest)

/-- A JSON object (the only top-level shape `load_jsonl_from_bytes` feeds
to `pd.DataFrame`, per the input contract: one JSON object per line). -/
def parseObj (cs : Str) : Option (PyDict × Str) :=
  (expectChar '{' (skipWs cs)).bind fun r1 => objBody (skipWs r1)

/-- `json.loads` of one line: the object must span the whole line up to
trailing whitespace (anything further is the `Extra data` error). -/
def loads (line : Str) : Option PyDict :=
  (parseObj line).bind fun p => if skipWs p.2 = [] then some p.1 else none

/-- `json.dumps` of one member (default separators: `": "`). -/
def printMember (kv : Str × PyVal) : Str :=
  printJStr kv.1 ++ ':' :: ' ' :: printVal kv.2

/-- Members joined by `", "`. -/
def printMembersSep : PyDict → Str
  | [] => []
  | [kv] => printMember kv
  | kv :: rest => printMember kv ++ ',' :: ' ' :: printMembersSep rest

/-- `json.dumps` of a dict. -/
def printRecord (r : PyDict) : Str :=
  if r = [] then ['{', '}'] else '{' :: (printMembersSep r ++ ['}'])

/-- `"\n".join(lines)`. -/
def joinLines : List Str → Str
  | [] => []
  | [l] => l
  | l :: ls => l ++ '\n' :: joinLines ls

/-! ## The pandas `DataFrame` model

`pd.DataFrame(records)` builds a column-major table: columns are the keys
in order of first appearance, a record missing a key contributes `NaN`,
and each column's dtype is inferred — which rewrites cell values: an
otherwise-numeric column containing a float, a `NaN` (also from a missing
entry) or a `None` is cast to `float64` (ints become floats, `None`
becomes `NaN`); columns containing a string, or mixing booleans with
anything else, keep their cells as Python objects; all-bool and all-int
columns keep their cells.  `to_dict(orient="records")` (pandas ≥ 1.2, as
the source's comment assumes) returns native Python scalars, which this
model's cells already are. -/

structure DataFrame where
  cols : List Str
  colData : List (List PyVal)
  nrow : Nat
deriving DecidableEq, Repr

def dlookup (k : Str) : PyDict → Option PyVal
  | [] => none
  | kv :: t => if kv.1 = k then some kv.2 else dlookup k t

/-- The cell a record contributes to column `k`: its value, or `NaN` when
the key is missing (pandas fills holes with `np.nan`). -/
def cellOf (r : PyDict) (k : Str) : PyVal :=
  (dlookup k r).getD (PyVal.vfloat PyFloat.nan)

/-- Column names in order of first appearance across the records. -/
def firstSeenKeys (recs : List PyDict) : List Str :=
  recs.foldl (fun acc r => r.foldl (fun acc2 kv => if kv.1 ∈ acc2 then acc2 else acc2 ++ [kv.1]) acc) []

def isStrV : PyVal → Bool
  | PyVal.vstr _ => true
  | _ => false

def isBoolV : PyVal → Bool
  | PyVal.vbool _ => true
  | _ => false

def isIntV : PyVal → Bool
  | PyVal.vint _ => true
  | _ => false

def isFloatV : PyVal → Bool
  | PyVal.vfloat _ => true
  | _ => false

def isNumV : PyVal → Bool
  | PyVal.vint _ => true
  | PyVal.vfloat _ => true
  | _ => false

/-- Cast one cell for a `float64` column (`int` → exact float, `None` →
`NaN`; floats unchanged). -/
def toFloatCell : PyVal → PyVal
  | PyVal.vint n => PyVal.vfloat (mkFin n 0)
  | PyVal.vnone => PyVal.vfloat PyFloat.nan
  | v => v

/-- pandas dtype inference over one column's cells (see the section
comment): value-level effect only. -/
def coerceCol (cells : List PyVal) : List PyVal :=
  if cells.any isStrV || cells.any isBoolV then cells
  else if cells.any isNumV then
    (if cells.all isIntV then cells else cells.map toFloatCell)
  else cells

/-- `pd.DataFrame(records)`. -/
def dfOfRecords (recs : List PyDict) : DataFrame :=
  let ks := firstSeenKeys recs
  ⟨ks, ks.map (fun k => coerceCol (recs.map (fun r => cellOf r k))), recs.length⟩

/-- The parse error raised while loading: carries the offending line (the
`doc` of Python's `JSONDecodeError`; its `pos` lies inside that line). -/
structure ParseErr where
  doc : Str
deriving DecidableEq, Repr

instance instDecEqExcept {e a : Type} [DecidableEq e] [DecidableEq a] :
    DecidableEq (Except e a) := fun x y =>
  match x, y with
  | Except.ok u, Except.ok v =>
      match decEq u v with
      | isTrue h => isTrue (by rw [h])
      | isFalse h => isFalse (fun hc => h (by cases hc; rfl))
  | Except.error u, Except.error v =>
      match decEq u v with
      | isTrue h => isTrue (by rw [h])
      | isFalse h => isFalse (fun hc => h (by cases hc; rfl))
  | Except.ok _, Except.error _ => isFalse (fun hc => by cases hc)
  | Except.error _, Except.ok _ => isFalse (fun hc => by cases hc)

/-- `[json.loads(line) for line in lines]`: left to right, the first
failure aborts the whole comprehension. -/
def parseLines : List Str → Except ParseErr (List PyDict)
  | [] => Except.ok []
  | l :: ls =>
      (loads l).elim (Except.error ⟨l⟩)
        (fun r => (parseLines ls).map (fun rs => r :: rs))

/-- The record sequence of `load_jsonl_from_bytes` before the `DataFrame`
is built. -/
def parseRecords (text : Str) : Except ParseErr (List PyDict) :=
  parseLines (pyLines text)

/-- `load_jsonl_from_bytes` (src/streamlit_app.py:20-24): decode, split
into non-blank lines, `json.loads` each, build the `DataFrame`. -/
def load_jsonl_from_bytes (text : Str) : Except ParseErr DataFrame :=
  (parseRecords text).map dfOfRecords

/-- Row `i` as `to_dict(orient="records")` returns it: every column
present, in column order. -/
def rowRec (df : DataFrame) (i : Nat) : PyDict :=
  df.cols.zip (df.colData.map (fun col => col.getD i PyVal.vnone))

def dfRecords (df : DataFrame) : List PyDict :=
  (List.range df.nrow).map (rowRec df)

/-- The JSONL download serialization (src/streamlit_app.py:203):
`"\n".join(json.dumps(r, ensure_ascii=False) for r in df.to_dict(orient="records"))`. -/
def serializeJsonLines (df : DataFrame) : Str :=
  joinLines ((dfRecords df).map printRecord)

/-! ## Round trip: `loads` after `json.dumps` of one record -/

/-- The head of the remainder is not JSON whitespace. -/
def NotWsHead (cs : Str) : Prop := ∀ c, cs.head? = some c → jsonWs c = false

theorem skipWs_eq {cs : Str} (h : NotWsHead cs) : skipWs cs = cs := by
  cases cs with
  | nil => rfl
  | cons c r =>
      have := h c (by rfl)
      simp [skipWs, List.dropWhile_cons, this]

theorem skipWs_cons_ws {c : Char} (cs : Str) (h : jsonWs c = true) :
    skipWs (c :: cs) = skipWs cs := by
  simp [skipWs, List.dropWhile_cons, h]

theorem jsonWs_of_isDigit {c : Char} (h : c.isDigit = true) : jsonWs c = false := by
  have h1 := ne_of_isDigit h ' ' (by decide)
  have h2 := ne_of_isDigit h '\t' (by decide)
  have h3 := ne_of_isDigit h '\n' (by decide)
  have h4 := ne_of_isDigit h '\r' (by decide)
  simp [jsonWs, h1, h2, h3, h4]

theorem printInt_head (k : Int) : ∃ c t, printInt k = c :: t ∧ jsonWs c = false := by
  by_cases hk : k < 0
  · exact ⟨'-', printNat k.natAbs, printInt_neg hk, by decide⟩
  · obtain ⟨c, cs, hpr⟩ := List.exists_cons_of_ne_nil (printNat_ne_nil k.toNat)
    have hdig : c.isDigit = true := printNat_digits k.toNat c (by rw [hpr]; simp)
    exact ⟨c, cs, by rw [printInt_nonneg hk, hpr], jsonWs_of_isDigit hdig⟩

theorem printVal_head (v : PyVal) : ∃ c t, printVal v = c :: t ∧ jsonWs c = false := by
  cases v with
  | vstr s => exact ⟨'"', _, rfl, by decide⟩
  | vint n =>
      obtain ⟨c, t, h1, h2⟩ := printInt_head n
      exact ⟨c, t, h1, h2⟩
  | vfloat x =>
      cases x with
      | finite m e =>
          obtain ⟨c, t, h1, h2⟩ := printInt_head m
          refine ⟨c, t ++ 'e' :: printInt e, ?_, h2⟩
          simp [printVal, h1]
      | nan => exact ⟨'N', _, rfl, by decide⟩
      | inf => exact ⟨'I', _, rfl, by decide⟩
      | ninf => exact ⟨'-', _, rfl, by decide⟩
  | vbool b => cases b with
      | true => exact ⟨'t', _, rfl, by decide⟩
      | false => exact ⟨'f', _, rfl, by decide⟩
  | vnone => exact ⟨'n', _, rfl, by decide⟩

theorem dictInsert_notMem (k : Str) (v : PyVal) (d : PyDict) (h : k ∉ d.map Prod.fst) :
    dictInsert k v d = d ++ [(k, v)] := by
  induction d with
  | nil => rfl
  | cons kv t ih =>
      simp only [List.map_cons, List.mem_cons] at h
      push_neg at h
      simp [dictInsert, Ne.symm h.1, ih h.2]

theorem parseMember_print (k : Str) (v : PyVal) (X : Str) (hnorm : NormVal v)
    (hstop : ValStop X) :
    parseMember (printMember (k, v) ++ X) = some ((k, v), X) := by
  have harr : printMember (k, v) ++ X
      = '"' :: ((k.map escapeChar).flatten ++ '"' :: (':' :: (' ' :: (printVal v ++ X)))) := by
    simp [printMember, printJStr]
  rw [harr]
  unfold parseMember
  rw [show expectChar '"' ('"' :: ((k.map escapeChar).flatten ++ '"'
      :: (':' :: (' ' :: (printVal v ++ X)))))
      = some ((k.map escapeChar).flatten ++ '"' :: (':' :: (' ' :: (printVal v ++ X))))
    from by simp [expectChar]]
  simp only [Option.some_bind]
  rw [parseStrBody_print k _ [] _ (by simp [List.length_append]; omega)]
  simp only [Option.some_bind, List.nil_append]
  rw [skipWs_eq (by intro c hc; cases hc; rfl)]
  rw [show expectChar ':' (':' :: (' ' :: (printVal v ++ X)))
      = some (' ' :: (printVal v ++ X)) from by simp [expectChar]]
  simp only [Option.some_bind]
  rw [skipWs_cons_ws _ (by decide)]
  obtain ⟨c0, t0, hv, hws⟩ := printVal_head v
  rw [skipWs_eq (by
    intro c hc
    rw [hv] at hc
    simp only [List.cons_append, List.head?_cons, Option.some.injEq] at hc
    subst hc
    exact hws)]
  rw [parseValue_print v X hnorm hstop]
  simp

theorem printMembersSep_head (kv : Str × PyVal) (r : PyDict) :
    ∃ t, printMembersSep (kv :: r) = '"' :: t := by
  cases r with
  | nil =>
      refine ⟨(kv.1.map escapeChar).flatten ++ ['"'] ++ (':' :: ' ' :: printVal kv.2), ?_⟩
      simp [printMembersSep, printMember, printJStr]
  | cons kv2 t2 =>
      refine ⟨(kv.1.map escapeChar).flatten ++ ['"'] ++ (':' :: ' ' :: printVal kv.2)
        ++ ',' :: ' ' :: printMembersSep (kv2 :: t2), ?_⟩
      simp [printMembersSep, printMember, printJStr]

theorem parseMembers_print (fields : PyDict) : ∀ (acc : PyDict) (rest : Str) (fuel : Nat),
    (∀ kv ∈ fields, kv.1 ∉ acc.map Prod.fst) →
    (fields.map Prod.fst).Nodup →
    (∀ kv ∈ fields, NormVal kv.2) →
    fields.length < fuel →
    fields ≠ [] →
    parseMembers fuel acc (printMembersSep fields ++ '}' :: rest) = some (acc ++ fields, rest) := by
  induction fields with
  | nil => intro acc rest fuel _ _ _ _ hne; exact absurd rfl hne
  | cons kv tl ih =>
      intro acc rest fuel hdisj hnd hnorm hfuel _
      obtain ⟨k, v⟩ := kv
      cases fuel with
      | zero => omega
      | succ f =>
          cases tl with
          | nil =>
              rw [show printMembersSep [(k, v)] = printMember (k, v) from rfl]
              simp only [parseMembers]
              rw [parseMember_print k v ('}' :: rest) (hnorm (k, v) (by simp)) (Or.inr rfl)]
              simp only [Option.some_bind]
              rw [skipWs_eq (by intro c hc; cases hc; rfl)]
              rw [show memSep ('}' :: rest) = some (Sum.inl rest) from by simp [memSep]]
              rw [dictInsert_notMem k v acc (hdisj (k, v) (by simp))]
              simp
          | cons kv2 tl2 =>
              rw [show printMembersSep ((k, v) :: kv2 :: tl2)
                  = printMember (k, v) ++ ',' :: ' ' :: printMembersSep (kv2 :: tl2) from rfl]
              rw [show (printMember (k, v) ++ ',' :: ' ' :: printMembersSep (kv2 :: tl2))
                    ++ '}' :: rest
                  = printMember (k, v)
                    ++ ',' :: (' ' :: (printMembersSep (kv2 :: tl2) ++ '}' :: rest)) by simp]
              simp only [parseMembers]
              rw [parseMember_print k v
                (',' :: (' ' :: (printMembersSep (kv2 :: tl2) ++ '}' :: rest)))
                (hnorm (k, v) (by simp)) (Or.inl rfl)]
              simp only [Option.some_bind]
              rw [skipWs_eq (by intro c hc; cases hc; rfl)]
              rw [show memSep (',' :: (' ' :: (printMembersSep (kv2 :: tl2) ++ '}' :: rest)))
                  = some (Sum.inr
                      (skipWs (' ' :: (printMembersSep (kv2 :: tl2) ++ '}' :: rest))))
                from by simp [memSep]]
              simp only [Option.some_bind, Sum.elim_inr]
              rw [skipWs_cons_ws _ (by decide)]
              obtain ⟨t0, hh⟩ := printMembersSep_head kv2 tl2
              rw [skipWs_eq (by
                intro c hc
                rw [hh] at hc
                simp only [List.cons_append, List.head?_cons, Option.some.injEq] at hc
                subst hc
                decide)]
              rw [dictInsert_notMem k v acc (hdisj (k, v) (by simp))]
              have hnd2 : ((kv2 :: tl2).map Prod.fst).Nodup := by
                simp only [List.map_cons, List.nodup_cons] at hnd ⊢
                exact hnd.2
              have hdisj2 : ∀ kv ∈ kv2 :: tl2, kv.1 ∉ (acc ++ [(k, v)]).map Prod.fst := by
                intro kv3 h3
                rw [List.map_append]
                intro hc
                rcases List.mem_append.mp hc with hc1 | hc2
                · exact hdisj kv3 (List.mem_cons_of_mem _ h3) hc1
                · simp only [List.map_cons, List.map_nil, List.mem_singleton] at hc2
                  simp only [List.map_cons, List.nodup_cons] at hnd
                  exact hnd.1 (hc2 ▸ List.mem_map_of_mem Prod.fst h3)
              rw [ih (acc ++ [(k, v)]) rest f hdisj2 hnd2
                (fun kv3 h3 => hnorm kv3 (by simp [h3])) (by simp at hfuel ⊢; omega)
                (by simp)]
              simp

theorem parseObj_print (r : PyDict) (rest : Str)
    (hnd : (r.map Prod.fst).Nodup) (hnorm : ∀ kv ∈ r, NormVal kv.2) :
    parseObj (printRecord r ++ rest) = some (r, rest) := by
  by_cases hr : r = []
  · subst hr
    rw [show printRecord [] ++ rest = '{' :: '}' :: rest from by simp [printRecord]]
    unfold parseObj
    rw [skipWs_eq (by intro c hc; cases hc; rfl)]
    rw [show expectChar '{' ('{' :: '}' :: rest) = some ('}' :: rest) from by
      simp [expectChar]]
    simp only [Option.some_bind]
    rw [skipWs_eq (by intro c hc; cases hc; rfl)]
    simp [objBody]
  · obtain ⟨kv, tl, hcons⟩ := List.exists_cons_of_ne_nil hr
    subst hcons
    rw [show printRecord (kv :: tl) ++ rest
        = '{' :: (printMembersSep (kv :: tl) ++ '}' :: rest) by simp [printRecord]]
    unfold parseObj
    rw [skipWs_eq (by intro c hc; cases hc; rfl)]
    rw [show expectChar '{' ('{' :: (printMembersSep (kv :: tl) ++ '}' :: rest))
        = some (printMembersSep (kv :: tl) ++ '}' :: rest) from by simp [expectChar]]
    simp only [Option.some_bind]
    obtain ⟨t0, hh⟩ := printMembersSep_head kv tl
    rw [skipWs_eq (by
      intro c hc
      rw [hh] at hc
      simp only [List.cons_append, List.head?_cons, Option.some.injEq] at hc
      subst hc
      decide)]
    rw [show objBody (printMembersSep (kv :: tl) ++ '}' :: rest)
        = parseMembers ((printMembersSep (kv :: tl) ++ '}' :: rest).length + 1) []
            (printMembersSep (kv :: tl) ++ '}' :: rest) from by
      rw [hh]
      simp only [List.cons_append, objBody]
      rw [if_neg (by decide)]]
    rw [parseMembers_print (kv :: tl) [] rest _ (by simp) hnd hnorm ?lenlt hr]
    · simp
    case lenlt =>
      have hlen : (kv :: tl).length ≤ (printMembersSep (kv :: tl)).length := by
        clear hnd hnorm hh hr
        induction tl generalizing kv with
        | nil => simp [printMembersSep, printMember, printJStr]
        | cons kv3 tl3 ih2 =>
            rw [show printMembersSep (kv :: kv3 :: tl3)
                = printMember kv ++ ',' :: ' ' :: printMembersSep (kv3 :: tl3) from rfl]
            simp only [List.length_append, List.length_cons]
            have := ih2 kv3
            simp only [List.length_cons] at this
            omega
      simp only [List.length_cons] at hlen
      simp only [List.length_append, List.length_cons]
      omega

/-- `json.loads` inverts `json.dumps` on a record with distinct keys and
normalised float values. -/
theorem loads_print (r : PyDict) (hnd : (r.map Prod.fst).Nodup)
    (hnorm : ∀ kv ∈ r, NormVal kv.2) :
    loads (printRecord r) = some r := by
  unfold loads
  rw [show printRecord r = printRecord r ++ [] by simp]
  rw [parseObj_print r [] hnd hnorm]
  simp [skipWs]

/-! ## Every parsed value has a normalised float representation -/

theorem normVal_mkFin (m e : Int) : NormVal (PyVal.vfloat (mkFin m e)) := by
  obtain ⟨m2, e2, heq, hn⟩ := mkFin_norm m e
  rw [heq]
  exact hn

theorem map_const_norm {w : PyVal} {o : Option Str} {v : PyVal} {rest : Str}
    (h : o.map (fun r => (w, r)) = some (v, rest)) (hw : NormVal w) : NormVal v := by
  cases o with
  | none => simp at h
  | some y =>
      simp only [Option.map_some', Option.some.injEq, Prod.mk.injEq] at h
      rw [← h.1]
      exact hw

theorem oor_eq_some {α : Type} {a b : Option α} {x : α} (h : oor a b = some x) :
    a = some x ∨ (a = none ∧ b = some x) := by
  cases a with
  | some y => left; simpa [oor] using h
  | none => right; exact ⟨rfl, by simpa [oor] using h⟩

theorem parseNumAfterSign_norm {neg : Bool} {cs : Str} {v : PyVal} {rest : Str}
    (h : parseNumAfterSign neg cs = some (v, rest)) : NormVal v := by
  unfold parseNumAfterSign at h
  cases hip : parseIntPart cs with
  | none => rw [hip] at h; simp at h
  | some ip =>
      rw [hip] at h
      simp only [Option.some_bind] at h
      split at h
      · simp only [Option.some.injEq, Prod.mk.injEq] at h
        rw [← h.1]
        trivial
      · simp only [Option.some.injEq, Prod.mk.injEq] at h
        rw [← h.1]
        exact normVal_mkFin _ _

theorem parseNumber_norm {cs : Str} {v : PyVal} {rest : Str}
    (h : parseNumber cs = some (v, rest)) : NormVal v := by
  cases cs with
  | nil => simp [parseNumber] at h
  | cons c cs2 =>
      rw [parseNumber_cons] at h
      split at h
      · exact parseNumAfterSign_norm h
      · exact parseNumAfterSign_norm h

theorem parseValue_norm {cs : Str} {v : PyVal} {rest : Str}
    (h : parseValue cs = some (v, rest)) : NormVal v := by
  cases cs with
  | nil => simp [parseValue] at h
  | cons c cs2 =>
      rw [parseValue_cons] at h
      split at h
      · cases hsb : parseStrBody (cs2.length + 1) cs2 [] with
        | none => rw [hsb] at h; simp at h
        | some p =>
            rw [hsb] at h
            simp only [Option.map_some', Option.some.injEq, Prod.mk.injEq] at h
            rw [← h.1]
            trivial
      · rcases oor_eq_some h with h1 | ⟨-, h⟩
        · exact map_const_norm h1 (by trivial)
        rcases oor_eq_some h with h1 | ⟨-, h⟩
        · exact map_const_norm h1 (by trivial)
        rcases oor_eq_some h with h1 | ⟨-, h⟩
        · exact map_const_norm h1 (by trivial)
        rcases oor_eq_some h with h1 | ⟨-, h⟩
        · exact map_const_norm h1 (by trivial)
        rcases oor_eq_some h with h1 | ⟨-, h⟩
        · exact map_const_norm h1 (by trivial)
        rcases oor_eq_some h with h1 | ⟨-, h⟩
        · exact map_const_norm h1 (by trivial)
        exact parseNumber_norm h

theorem parseMember_norm {cs : Str} {kv : Str × PyVal} {rest : Str}
    (h : parseMember cs = some (kv, rest)) : NormVal kv.2 := by
  unfold parseMember at h
  cases h1 : expectChar '"' cs with
  | none => rw [h1] at h; simp at h
  | some r1 =>
      rw [h1] at h
      simp only [Option.some_bind] at h
      cases h2 : parseStrBody (r1.length + 1) r1 [] with
      | none => rw [h2] at h; simp at h
      | some ks =>
          rw [h2] at h
          simp only [Option.some_bind] at h
          cases h3 : expectChar ':' (skipWs ks.2) with
          | none => rw [h3] at h; simp at h
          | some r2 =>
              rw [h3] at h
              simp only [Option.some_bind] at h
              cases h4 : parseValue (skipWs r2) with
              | none => rw [h4] at h; simp at h
              | some vp =>
                  rw [h4] at h
                  simp only [Option.some_bind, Option.some.injEq, Prod.mk.injEq] at h
                  rw [← h.1]
                  exact parseValue_norm h4

theorem dictInsert_normAll {k : Str} {v : PyVal} {d : PyDict} (hv : NormVal v)
    (hd : ∀ kv ∈ d, NormVal kv.2) : ∀ kv ∈ dictInsert k v d, NormVal kv.2 := by
  induction d with
  | nil =>
      intro kv hm
      simp only [dictInsert, List.mem_singleton] at hm
      rw [hm]
      exact hv
  | cons kv0 t ih =>
      intro kv hm
      by_cases he : kv0.1 = k
      · simp only [dictInsert, if_pos he, List.mem_cons] at hm
        rcases hm with hm | hm
        · rw [hm]; exact hv
        · exact hd kv (List.mem_cons_of_mem _ hm)
      · simp only [dictInsert, if_neg he, List.mem_cons] at hm
        rcases hm with hm | hm
        · rw [hm]; exact hd kv0 (by simp)
        · exact ih (fun x hx => hd x (List.mem_cons_of_mem _ hx)) kv hm

theorem members_norm : ∀ (fuel : Nat) (acc : PyDict) (cs : Str) (r : PyDict) (rest : Str),
    parseMembers fuel acc cs = some (r, rest) →
    (∀ kv ∈ acc, NormVal kv.2) → ∀ kv ∈ r, NormVal kv.2 := by
  intro fuel
  induction fuel with
  | zero => intro acc cs r rest h; simp [parseMembers] at h
  | succ f ih =>
      intro acc cs r rest h hacc
      simp only [parseMembers] at h
      cases hm : parseMember cs with
      | none => rw [hm] at h; simp at h
      | some mv =>
          rw [hm] at h
          simp only [Option.some_bind] at h
          cases hs : memSep (skipWs mv.2) with
          | none => rw [hs] at h; simp at h
          | some s =>
              rw [hs] at h
              simp only [Option.some_bind] at h
              cases s with
              | inl rest2 =>
                  simp only [Sum.elim_inl, Option.some.injEq, Prod.mk.injEq] at h
                  rw [← h.1]
                  exact dictInsert_normAll (parseMember_norm hm) hacc
              | inr next =>
                  simp only [Sum.elim_inr] at h
                  exact ih _ _ _ _ h (dictInsert_normAll (parseMember_norm hm) hacc)

theorem loads_norm {line : Str} {r : PyDict} (h : loads line = some r) :
    ∀ kv ∈ r, NormVal kv.2 := by
  unfold loads at h
  cases h1 : parseObj line with
  | none => rw [h1] at h; simp at h
  | some p =>
      obtain ⟨rp, rs⟩ := p
      rw [h1] at h
      simp only [Option.some_bind] at h
      split at h
      · simp only [Option.some.injEq] at h
        subst h
        unfold parseObj at h1
        cases h2 : expectChar '{' (skipWs line) with
        | none => rw [h2] at h1; simp at h1
        | some r1 =>
            rw [h2] at h1
            simp only [Option.some_bind] at h1
            cases hsw : skipWs r1 with
            | nil => rw [hsw] at h1; simp [objBody] at h1
            | cons c cs2 =>
                rw [hsw] at h1
                simp only [objBody] at h1
                split at h1
                · simp only [Option.some.injEq, Prod.mk.injEq] at h1
                  intro kv hm
                  rw [← h1.1] at hm
                  cases hm
                · exact members_norm _ _ _ _ _ h1 (by intro kv hm; cases hm)
      · simp at h

/-! ## Serialized lines contain no line-boundary characters

`json.dumps(..., ensure_ascii=False)` escapes every control character, but
emits `U+0085`, `U+2028` and `U+2029` verbatim.  Text free of those three
characters therefore serializes to lines `str.splitlines` will not cut. -/

/-- The text contains none of the three `≥ U+0020` characters that
`str.splitlines` treats as boundaries but `json.dumps` leaves verbatim. -/
def CleanStr (s : Str) : Prop :=
  ∀ c ∈ s, c.toNat ≠ 0x85 ∧ c.toNat ≠ 0x2028 ∧ c.toNat ≠ 0x2029

/-- Only string cells constrain cleanliness. -/
def CleanVal : PyVal → Prop
  | PyVal.vstr s => CleanStr s
  | _ => True

theorem digitChar_noBoundary {d : Nat} (h : d < 10) : lineBoundary (digitChar d) = false := by
  interval_cases d <;> decide

theorem hexChar_noBoundary {d : Nat} (h : d < 16) : lineBoundary (hexChar d) = false := by
  interval_cases d <;> decide

theorem mem_all_noBoundary {d : Char} {L : List Char} (hd : d ∈ L)
    (hall : L.all (fun c => !lineBoundary c) = true) : lineBoundary d = false := by
  rw [List.all_eq_true] at hall
  have := hall d hd
  simpa using this

theorem escapeChar_noBoundary (c : Char)
    (hc : c.toNat ≠ 0x85 ∧ c.toNat ≠ 0x2028 ∧ c.toNat ≠ 0x2029) :
    ∀ d ∈ escapeChar c, lineBoundary d = false := by
  intro d hd
  unfold escapeChar at hd
  split at hd
  · exact mem_all_noBoundary hd (by decide)
  · split at hd
    · exact mem_all_noBoundary hd (by decide)
    · split at hd
      · exact mem_all_noBoundary hd (by decide)
      · split at hd
        · exact mem_all_noBoundary hd (by decide)
        · split at hd
          · exact mem_all_noBoundary hd (by decide)
          · split at hd
            · exact mem_all_noBoundary hd (by decide)
            · split at hd
              · exact mem_all_noBoundary hd (by decide)
              · split at hd
                · rename_i hlt
                  simp only [List.mem_cons, List.not_mem_nil, or_false] at hd
                  rcases hd with h | h | h | h | h | h
                  · rw [h]; decide
                  · rw [h]; decide
                  · rw [h]; decide
                  · rw [h]; decide
                  · rw [h]; exact hexChar_noBoundary (by omega)
                  · rw [h]; exact hexChar_noBoundary (by omega)
                · rename_i h1 h2 h3 h4 h5 h6 h7 hge
                  simp only [List.mem_singleton] at hd
                  subst hd
                  have hn1 : d ≠ '\n' := fun h => hge (by rw [h]; decide)
                  have hn2 : d ≠ '\x0b' := fun h => hge (by rw [h]; decide)
                  have hn3 : d ≠ '\x0c' := fun h => hge (by rw [h]; decide)
                  have hn4 : d ≠ '\r' := fun h => hge (by rw [h]; decide)
                  have hn5 : d ≠ '\x1c' := fun h => hge (by rw [h]; decide)
                  have hn6 : d ≠ '\x1d' := fun h => hge (by rw [h]; decide)
                  have hn7 : d ≠ '\x1e' := fun h => hge (by rw [h]; decide)
                  simp [lineBoundary, hn1, hn2, hn3, hn4, hn5, hn6, hn7,
                    hc.1, hc.2.1, hc.2.2]

theorem printJStr_noBoundary (s : Str) (h : CleanStr s) :
    ∀ d ∈ printJStr s, lineBoundary d = false := by
  intro d hd
  unfold printJStr at hd
  rcases List.mem_cons.mp hd with h1 | h1
  · rw [h1]; decide
  · rcases List.mem_append.mp h1 with h2 | h2
    · rw [List.mem_flatten] at h2
      obtain ⟨l, hl, hdl⟩ := h2
      rw [List.mem_map] at hl
      obtain ⟨c, hcs, rfl⟩ := hl
      exact escapeChar_noBoundary c (h c hcs) d hdl
    · exact mem_all_noBoundary h2 (by decide)

theorem printNat_noBoundary (n : Nat) : ∀ d ∈ printNat n, lineBoundary d = false := by
  intro d hd
  have hdig := printNat_digits n d hd
  have h1 : d ≠ '\n' := ne_of_isDigit hdig '\n' (by decide)
  have h2 : d ≠ '\x0b' := ne_of_isDigit hdig '\x0b' (by decide)
  have h3 : d ≠ '\x0c' := ne_of_isDigit hdig '\x0c' (by decide)
  have h4 : d ≠ '\r' := ne_of_isDigit hdig '\r' (by decide)
  have h5 : d ≠ '\x1c' := ne_of_isDigit hdig '\x1c' (by decide)
  have h6 : d ≠ '\x1d' := ne_of_isDigit hdig '\x1d' (by decide)
  have h7 : d ≠ '\x1e' := ne_of_isDigit hdig '\x1e' (by decide)
  have h8 : d ≠ Char.ofNat 0x85 := ne_of_isDigit hdig _ (by decide)
  have h9 : d ≠ Char.ofNat 0x2028 := ne_of_isDigit hdig _ (by decide)
  have h10 : d ≠ Char.ofNat 0x2029 := ne_of_isDigit hdig _ (by decide)
  have t8 : d.toNat ≠ 0x85 := fun hc => h8 (char_eq_of_toNat hc)
  have t9 : d.toNat ≠ 0x2028 := fun hc => h9 (char_eq_of_toNat hc)
  have t10 : d.toNat ≠ 0x2029 := fun hc => h10 (char_eq_of_toNat hc)
  simp [lineBoundary, h1, h2, h3, h4, h5, h6, h7, t8, t9, t10]

theorem printInt_noBoundary (k : Int) : ∀ d ∈ printInt k, lineBoundary d = false := by
  intro d hd
  unfold printInt at hd
  split at hd
  · simp only [List.mem_cons] at hd
    rcases hd with h | h
    · rw [h]; decide
    · exact printNat_noBoundary _ d h
  · exact printNat_noBoundary _ d hd

theorem printVal_noBoundary (v : PyVal) (hv : CleanVal v) :
    ∀ d ∈ printVal v, lineBoundary d = false := by
  intro d hd
  cases v with
  | vstr s => exact printJStr_noBoundary s hv d hd
  | vint n => exact printInt_noBoundary n d hd
  | vfloat x =>
      cases x with
      | finite m e =>
          simp only [printVal, List.mem_append, List.mem_cons] at hd
          rcases hd with h | h | h
          · exact printInt_noBoundary m d h
          · rw [h]; decide
          · exact printInt_noBoundary e d h
      | nan =>
          rw [show printVal (PyVal.vfloat PyFloat.nan) = ['N', 'a', 'N'] from rfl] at hd
          exact mem_all_noBoundary hd (by decide)
      | inf =>
          rw [show printVal (PyVal.vfloat PyFloat.inf)
              = ['I', 'n', 'f', 'i', 'n', 'i', 't', 'y'] from rfl] at hd
          exact mem_all_noBoundary hd (by decide)
      | ninf =>
          rw [show printVal (PyVal.vfloat PyFloat.ninf)
              = ['-', 'I', 'n', 'f', 'i', 'n', 'i', 't', 'y'] from rfl] at hd
          exact mem_all_noBoundary hd (by decide)
  | vbool b =>
      cases b with
      | true =>
          rw [show printVal (PyVal.vbool true) = ['t', 'r', 'u', 'e'] from rfl] at hd
          exact mem_all_noBoundary hd (by decide)
      | false =>
          rw [show printVal (PyVal.vbool false) = ['f', 'a', 'l', 's', 'e'] from rfl] at hd
          exact mem_all_noBoundary hd (by decide)
  | vnone =>
      rw [show printVal PyVal.vnone = ['n', 'u', 'l', 'l'] from rfl] at hd
      exact mem_all_noBoundary hd (by decide)

theorem printMembersSep_noBoundary (r : PyDict)
    (h : ∀ kv ∈ r, CleanStr kv.1 ∧ CleanVal kv.2) :
    ∀ d ∈ printMembersSep r, lineBoundary d = false := by
  induction r with
  | nil => intro d hd; cases hd
  | cons kv tl ih =>
      intro d hd
      have hmem : ∀ d2 ∈ printMember kv, lineBoundary d2 = false := by
        intro d2 hd2
        unfold printMember at hd2
        simp only [List.mem_append, List.mem_cons] at hd2
        rcases hd2 with h2 | h2 | h2 | h2
        · exact printJStr_noBoundary _ (h kv (by simp)).1 d2 h2
        · rw [h2]; decide
        · rw [h2]; decide
        · exact printVal_noBoundary _ (h kv (by simp)).2 d2 h2
      cases tl with
      | nil => exact hmem d hd
      | cons kv2 tl2 =>
          rw [show printMembersSep (kv :: kv2 :: tl2)
              = printMember kv ++ ',' :: ' ' :: printMembersSep (kv2 :: tl2) from rfl] at hd
          simp only [List.mem_append, List.mem_cons] at hd
          rcases hd with h2 | h2 | h2 | h2
          · exact hmem d h2
          · rw [h2]; decide
          · rw [h2]; decide
          · exact ih (fun kv3 h3 => h kv3 (List.mem_cons_of_mem _ h3)) d h2

theorem printRecord_noBoundary (r : PyDict)
    (h : ∀ kv ∈ r, CleanStr kv.1 ∧ CleanVal kv.2) :
    ∀ d ∈ printRecord r, lineBoundary d = false := by
  intro d hd
  unfold printRecord at hd
  split at hd
  · exact mem_all_noBoundary hd (by decide)
  · rcases List.mem_cons.mp hd with h2 | h2
    · rw [h2]; decide
    · rcases List.mem_append.mp h2 with h3 | h3
      · exact printMembersSep_noBoundary r h d h3
      · exact mem_all_noBoundary h3 (by decide)

theorem printRecord_head (r : PyDict) : ∃ t, printRecord r = '{' :: t := by
  unfold printRecord
  split
  · exact ⟨['}'], rfl⟩
  · exact ⟨_, rfl⟩

theorem printRecord_notBlank (r : PyDict) : isBlank (printRecord r) = false := by
  obtain ⟨t, ht⟩ := printRecord_head r
  rw [ht]
  simp [isBlank, pySpace]

/-! ## `splitlines` recovers the lines `"\n".join` put together -/

theorem splitlinesAux_clean (l : Str) (hl : ∀ c ∈ l, lineBoundary c = false) :
    ∀ (rest acc : Str) (fuel : Nat), l.length + rest.length < fuel →
      splitlinesAux fuel (l ++ rest) acc
        = splitlinesAux (rest.length + 1) rest (l.reverse ++ acc) := by
  induction l with
  | nil =>
      intro rest acc fuel hf
      simp only [List.nil_append, List.reverse_nil]
      rw [splitlinesAux_fuel fuel (rest.length + 1) rest acc (by simpa using hf) (by omega)]
  | cons c l2 ih =>
      intro rest acc fuel hf
      have hb : lineBoundary c = false := hl c (by simp)
      have hcr : c ≠ '\r' := by
        intro h
        rw [h] at hb
        exact absurd hb (by decide)
      cases fuel with
      | zero => omega
      | succ f =>
          rw [List.cons_append]
          simp only [splitlinesAux]
          rw [if_neg hcr, if_neg (by rw [hb]; exact Bool.false_ne_true)]
          rw [ih (fun x hx => hl x (List.mem_cons_of_mem _ hx)) rest (c :: acc) f
            (by simp only [List.length_cons] at hf; omega)]
          simp

theorem splitlinesAux_newline (f : Nat) (rest acc : Str) :
    splitlinesAux (f + 1) ('\n' :: rest) acc = acc.reverse :: splitlinesAux f rest [] := by
  simp only [splitlinesAux]
  rw [if_neg (show ('\n' : Char) ≠ '\r' by decide),
    if_pos (show lineBoundary '\n' = true by decide)]

theorem splitlines_joinLines (ls : List Str)
    (hb : ∀ l ∈ ls, ∀ c ∈ l, lineBoundary c = false)
    (hne : ∀ l ∈ ls, l ≠ []) :
    splitlines (joinLines ls) = ls := by
  induction ls with
  | nil => rfl
  | cons l ls2 ih =>
      cases ls2 with
      | nil =>
          rw [show joinLines [l] = l from rfl]
          unfold splitlines
          have h1 := splitlinesAux_clean l (hb l (by simp)) [] [] (l.length + 1) (by simp)
          rw [List.append_nil] at h1
          rw [h1]
          have hlne : l ≠ [] := hne l (by simp)
          simp only [splitlinesAux]
          rw [if_neg (by simpa using hlne)]
          simp
      | cons l2 ls3 =>
          rw [show joinLines (l :: l2 :: ls3) = l ++ '\n' :: joinLines (l2 :: ls3) from rfl]
          unfold splitlines
          rw [splitlinesAux_clean l (hb l (by simp)) ('\n' :: joinLines (l2 :: ls3)) []
            ((l ++ '\n' :: joinLines (l2 :: ls3)).length + 1)
            (by simp only [List.length_append, List.length_cons]; omega)]
          rw [show ('\n' :: joinLines (l2 :: ls3)).length + 1
              = ((joinLines (l2 :: ls3)).length + 1) + 1 by simp]
          rw [splitlinesAux_newline]
          rw [show splitlinesAux ((joinLines (l2 :: ls3)).length + 1) (joinLines (l2 :: ls3)) []
              = splitlines (joinLines (l2 :: ls3)) from rfl]
          rw [ih (fun x hx => hb x (List.mem_cons_of_mem _ hx))
            (fun x hx => hne x (List.mem_cons_of_mem _ hx))]
          simp

theorem pyLines_joinLines (ls : List Str)
    (hb : ∀ l ∈ ls, ∀ c ∈ l, lineBoundary c = false)
    (hne : ∀ l ∈ ls, l ≠ [])
    (hnb : ∀ l ∈ ls, isBlank l = false) :
    pyLines (joinLines ls) = ls := by
  unfold pyLines
  rw [splitlines_joinLines ls hb hne]
  rw [List.filter_eq_self]
  intro l hl
  rw [hnb l hl]
  rfl

/-! ## The rebuilt `DataFrame` equals the original

`pd.DataFrame(df.to_dict(orient="records"))` reproduces `df`: every
record carries the full column set, and dtype inference is idempotent. -/

/-- Well-formedness of a loaded table: shapes line up, column names are
distinct, dtype coercion has been applied (and is a fixed point), floats
are normalised, and a table with no rows has no columns (as
`pd.DataFrame([])` yields). -/
structure DFWF (df : DataFrame) : Prop where
  ncols : df.colData.length = df.cols.length
  nodupCols : df.cols.Nodup
  rowlen : ∀ col ∈ df.colData, col.length = df.nrow
  stable : ∀ col ∈ df.colData, coerceCol col = col
  norm : ∀ col ∈ df.colData, ∀ v ∈ col, NormVal v
  emptyCols : df.nrow = 0 → df.cols = []

/-- All column names and string cells avoid the three verbatim line
separators. -/
def CleanDf (df : DataFrame) : Prop :=
  (∀ k ∈ df.cols, CleanStr k) ∧ (∀ col ∈ df.colData, ∀ v ∈ col, CleanVal v)

/-- One record folded into the first-seen key accumulator (only the key
list matters). -/
def insKeysK (acc : List Str) (ks : List Str) : List Str :=
  ks.foldl (fun a k => if k ∈ a then a else a ++ [k]) acc

theorem firstSeenKeys_eq_foldK (recs : List PyDict) :
    firstSeenKeys recs = recs.foldl (fun acc r => insKeysK acc (r.map Prod.fst)) [] := by
  unfold firstSeenKeys insKeysK
  congr 1
  funext acc r
  rw [List.foldl_map]

theorem insKeysK_sub (acc ks : List Str) : ∃ extra, insKeysK acc ks = acc ++ extra := by
  induction ks generalizing acc with
  | nil => exact ⟨[], by simp [insKeysK]⟩
  | cons k ks2 ih =>
      by_cases hm : k ∈ acc
      · obtain ⟨extra, he⟩ := ih acc
        exact ⟨extra, by simpa [insKeysK, hm] using he⟩
      · obtain ⟨extra, he⟩ := ih (acc ++ [k])
        refine ⟨[k] ++ extra, ?_⟩
        rw [show insKeysK acc (k :: ks2) = insKeysK (acc ++ [k]) ks2 by
          simp [insKeysK, hm]]
        rw [he]
        simp

theorem insKeysK_nodup (acc ks : List Str) (h : acc.Nodup) : (insKeysK acc ks).Nodup := by
  induction ks generalizing acc with
  | nil => simpa [insKeysK] using h
  | cons k ks2 ih =>
      by_cases hm : k ∈ acc
      · rw [show insKeysK acc (k :: ks2) = insKeysK acc ks2 by simp [insKeysK, hm]]
        exact ih acc h
      · rw [show insKeysK acc (k :: ks2) = insKeysK (acc ++ [k]) ks2 by
          simp [insKeysK, hm]]
        exact ih (acc ++ [k]) (by simp [List.nodup_append, h, hm])

theorem firstSeenKeys_nodup (recs : List PyDict) : (firstSeenKeys recs).Nodup := by
  rw [firstSeenKeys_eq_foldK]
  have gen : ∀ (acc : List Str), acc.Nodup →
      (recs.foldl (fun acc r => insKeysK acc (r.map Prod.fst)) acc).Nodup := by
    induction recs with
    | nil => intro acc h; simpa using h
    | cons r recs2 ih =>
        intro acc h
        exact ih _ (insKeysK_nodup acc _ h)
  exact gen [] (by simp)

theorem insKeysK_of_sub (acc ks : List Str) (h : ∀ k ∈ ks, k ∈ acc) :
    insKeysK acc ks = acc := by
  induction ks with
  | nil => rfl
  | cons k ks2 ih =>
      rw [show insKeysK acc (k :: ks2) = insKeysK acc ks2 by
        simp [insKeysK, h k (by simp)]]
      exact ih (fun x hx => h x (List.mem_cons_of_mem _ hx))

theorem insKeysK_nil_nodup (ks : List Str) (hnd : ks.Nodup) : insKeysK [] ks = ks := by
  have gen : ∀ acc, (∀ k ∈ ks, k ∉ acc) → insKeysK acc ks = acc ++ ks := by
    induction ks with
    | nil => intro acc _; simp [insKeysK]
    | cons k ks2 ih =>
        intro acc hdisj
        rw [show insKeysK acc (k :: ks2) = insKeysK (acc ++ [k]) ks2 by
          simp [insKeysK, hdisj k (by simp)]]
        rw [List.nodup_cons] at hnd
        rw [ih hnd.2 (acc ++ [k]) ?hd]
        · simp
        case hd =>
          intro x hx
          simp only [List.mem_append, List.mem_singleton]
          push_neg
          exact ⟨hdisj x (List.mem_cons_of_mem _ hx), fun he => hnd.1 (he ▸ hx)⟩
  simpa using gen [] (by simp)

/-- First-seen keys over records that all carry exactly the key list
`ks`. -/
theorem firstSeenKeys_const (recs : List PyDict) (ks : List Str) (hnd : ks.Nodup)
    (hne : recs ≠ []) (hk : ∀ r ∈ recs, r.map Prod.fst = ks) :
    firstSeenKeys recs = ks := by
  rw [firstSeenKeys_eq_foldK]
  cases recs with
  | nil => exact absurd rfl hne
  | cons r0 rest =>
      rw [List.foldl_cons, hk r0 (by simp), insKeysK_nil_nodup ks hnd]
      have gen : ∀ (l : List PyDict), (∀ r ∈ l, r.map Prod.fst = ks) →
          l.foldl (fun acc r => insKeysK acc (r.map Prod.fst)) ks = ks := by
        intro l
        induction l with
        | nil => intro _; rfl
        | cons r l2 ih =>
            intro hl
            rw [List.foldl_cons, hl r (by simp), insKeysK_of_sub ks ks (fun k hk2 => hk2)]
            exact ih (fun x hx => hl x (List.mem_cons_of_mem _ hx))
      exact gen rest (fun x hx => hk x (List.mem_cons_of_mem _ hx))

theorem dlookup_zip (cols : List Str) (xs : List PyVal) (hlen : xs.length = cols.length)
    (hnd : cols.Nodup) (j : Nat) (hj : j < cols.length) (hj2 : j < xs.length) :
    dlookup cols[j] (cols.zip xs) = some xs[j] := by
  induction cols generalizing xs j with
  | nil => cases hj
  | cons c cols2 ih =>
      cases xs with
      | nil => cases hj2
      | cons x xs2 =>
          cases j with
          | zero => simp [dlookup]
          | succ j2 =>
              rw [List.nodup_cons] at hnd
              have hj3 : j2 < cols2.length := by simpa using hj
              have hne : c ≠ cols2[j2] := by
                intro he
                exact hnd.1 (he ▸ List.getElem_mem hj3)
              simp only [List.zip_cons_cons, dlookup, List.getElem_cons_succ]
              rw [if_neg hne]
              exact ih xs2 (by simpa using hlen) hnd.2 j2 (by simpa using hj)
                (by simpa using hj2)

theorem dlookup_mem {k : Str} {r : PyDict} {v : PyVal} (h : dlookup k r = some v) :
    ∃ kv ∈ r, kv.2 = v := by
  induction r with
  | nil => simp [dlookup] at h
  | cons kv0 t ih =>
      unfold dlookup at h
      split at h
      · exact ⟨kv0, by simp, by simpa using h⟩
      · obtain ⟨kv, hm, he⟩ := ih h
        exact ⟨kv, List.mem_cons_of_mem _ hm, he⟩

theorem coerceCol_length (cells : List PyVal) : (coerceCol cells).length = cells.length := by
  unfold coerceCol
  split
  · rfl
  · split
    · split <;> simp
    · rfl

theorem coerceCol_norm (cells : List PyVal) (h : ∀ v ∈ cells, NormVal v) :
    ∀ v ∈ coerceCol cells, NormVal v := by
  unfold coerceCol
  split
  · exact h
  · split
    · split
      · exact h
      · intro v hv
        rw [List.mem_map] at hv
        obtain ⟨w, hw, rfl⟩ := hv
        cases w with
        | vint n => exact normVal_mkFin n 0
        | vnone => trivial
        | vstr s => exact h _ hw
        | vfloat x => exact h _ hw
        | vbool b => exact h _ hw
    · exact h

theorem coerceCol_stable (cells : List PyVal) : coerceCol (coerceCol cells) = coerceCol cells := by
  by_cases h1 : (cells.any isStrV || cells.any isBoolV) = true
  · rw [show coerceCol cells = cells from by unfold coerceCol; rw [if_pos h1]]
    unfold coerceCol
    rw [if_pos h1]
  · by_cases h2 : cells.any isNumV = true
    · by_cases h3 : cells.all isIntV = true
      · rw [show coerceCol cells = cells from by
          unfold coerceCol; rw [if_neg h1, if_pos h2, if_pos h3]]
        unfold coerceCol
        rw [if_neg h1, if_pos h2, if_pos h3]
      · have hmap : coerceCol cells = cells.map toFloatCell := by
          unfold coerceCol
          rw [if_neg h1, if_pos h2, if_neg h3]
        rw [hmap]
        have hcells : ∀ v ∈ cells, isStrV v = false ∧ isBoolV v = false := by
          simp only [Bool.or_eq_true, List.any_eq_true, not_or] at h1
          push_neg at h1
          intro v hv
          exact ⟨by simpa using h1.1 v hv, by simpa using h1.2 v hv⟩
        have hallf : ∀ v ∈ cells.map toFloatCell, isFloatV v = true := by
          intro v hv
          rw [List.mem_map] at hv
          obtain ⟨w, hw, rfl⟩ := hv
          have := hcells w hw
          cases w with
          | vstr s => simp [isStrV] at this
          | vbool b => simp [isBoolV] at this
          | vint n => rfl
          | vnone => rfl
          | vfloat x => rfl
        have hne : cells ≠ [] := by
          intro he
          rw [he] at h2
          simp at h2
        unfold coerceCol
        rw [if_neg ?hsb, if_pos ?hnum, if_neg ?hint]
        · have hid : ∀ v ∈ cells.map toFloatCell, toFloatCell v = v := by
            intro v hv
            have hf := hallf v hv
            cases v <;> simp_all [isFloatV, toFloatCell]
          rw [List.map_congr_left hid]
          simp
        case hsb =>
          simp only [Bool.or_eq_true, List.any_eq_true, not_or]
          push_neg
          constructor
          · intro v hv
            have hf := hallf v hv
            cases v <;> simp_all [isFloatV, isStrV]
          · intro v hv
            have hf := hallf v hv
            cases v <;> simp_all [isFloatV, isBoolV]
        case hnum =>
          obtain ⟨c0, cs0, hc0⟩ := List.exists_cons_of_ne_nil hne
          rw [List.any_eq_true]
          refine ⟨toFloatCell c0, by rw [hc0]; simp, ?_⟩
          have hf := hallf (toFloatCell c0) (by rw [hc0]; simp)
          cases hm : toFloatCell c0 <;> rw [hm] at hf <;> simp_all [isFloatV, isNumV]
        case hint =>
          obtain ⟨c0, cs0, hc0⟩ := List.exists_cons_of_ne_nil hne
          rw [List.all_eq_true]
          intro hall
          have h4 := hall (toFloatCell c0) (by rw [hc0]; simp)
          have h5 := hallf (toFloatCell c0) (by rw [hc0]; simp)
          cases hm : toFloatCell c0 <;> rw [hm] at h4 h5 <;> simp_all [isFloatV, isIntV]
    · rw [show coerceCol cells = cells from by
        unfold coerceCol; rw [if_neg h1, if_neg h2]]
      unfold coerceCol
      rw [if_neg h1, if_neg h2]

theorem rowRec_keys (df : DataFrame) (h : DFWF df) (i : Nat) :
    (rowRec df i).map Prod.fst = df.cols := by
  unfold rowRec
  rw [List.map_fst_zip]
  rw [List.length_map, h.ncols]

theorem dfRecords_keys (df : DataFrame) (h : DFWF df) :
    ∀ r ∈ dfRecords df, r.map Prod.fst = df.cols := by
  intro r hr
  unfold dfRecords at hr
  rw [List.mem_map] at hr
  obtain ⟨i, _, rfl⟩ := hr
  exact rowRec_keys df h i

theorem rowRec_lookup (df : DataFrame) (h : DFWF df) (i j : Nat) (hj : j < df.cols.length)
    (hj2 : j < df.colData.length) :
    dlookup df.cols[j] (rowRec df i)
      = some ((df.colData[j]).getD i PyVal.vnone) := by
  unfold rowRec
  rw [dlookup_zip df.cols (df.colData.map (fun col => col.getD i PyVal.vnone))
    (by rw [List.length_map, h.ncols]) h.nodupCols j hj (by rw [List.length_map]; exact hj2)]
  rw [List.getElem_map]

theorem range_map_getD (l : List PyVal) (d : PyVal) :
    (List.range l.length).map (fun i => l.getD i d) = l := by
  apply List.ext_getElem
  · simp
  · intro i h1 h2
    simp only [List.getElem_map, List.getElem_range]
    exact List.getD_eq_getElem l d h2

/-- A well-formed table survives the `to_dict(orient="records")` /
`pd.DataFrame(records)` round trip unchanged. -/
theorem dfOfRecords_dfRecords (df : DataFrame) (h : DFWF df) :
    dfOfRecords (dfRecords df) = df := by
  by_cases hn : df.nrow = 0
  · have hc : df.cols = [] := h.emptyCols hn
    have hd : df.colData = [] := by
      have h2 := h.ncols
      rw [hc] at h2
      exact List.eq_nil_of_length_eq_zero h2
    have hrec : dfRecords df = [] := by
      unfold dfRecords
      rw [hn]
      rfl
    obtain ⟨cols, colData, nrow⟩ := df
    simp only at hc hd hn
    subst hc hd hn
    rw [hrec]
    rfl
  · have hne : dfRecords df ≠ [] := by
      unfold dfRecords
      intro he
      have := congrArg List.length he
      simp at this
      exact hn this
    have hkeys := firstSeenKeys_const (dfRecords df) df.cols h.nodupCols hne (dfRecords_keys df h)
    have hlenrec : (dfRecords df).length = df.nrow := by
      unfold dfRecords
      simp
    have hcol : df.cols.map (fun k => coerceCol ((dfRecords df).map (fun r => cellOf r k)))
        = df.colData := by
      apply List.ext_getElem
      · rw [List.length_map, h.ncols]
      · intro j h1 h2
        rw [List.length_map] at h1
        rw [List.getElem_map]
        have hmapeq : (dfRecords df).map (fun r => cellOf r df.cols[j]) = df.colData[j] := by
          unfold dfRecords
          rw [List.map_map]
          have hstep : ∀ i, cellOf (rowRec df i) df.cols[j]
              = (df.colData[j]).getD i PyVal.vnone := by
            intro i
            unfold cellOf
            rw [rowRec_lookup df h i j h1 h2]
            rfl
          rw [show ((fun r => cellOf r df.cols[j]) ∘ rowRec df)
              = (fun i => (df.colData[j]).getD i PyVal.vnone) from funext hstep]
          rw [show df.nrow = (df.colData[j]).length from
            (h.rowlen df.colData[j] (List.getElem_mem h2)).symm]
          exact range_map_getD _ _
        rw [hmapeq]
        exact h.stable df.colData[j] (List.getElem_mem h2)
    simp only [dfOfRecords]
    rw [hkeys, hcol, hlenrec]

theorem getD_norm {col : List PyVal} {i : Nat} (h : ∀ v ∈ col, NormVal v) :
    NormVal (col.getD i PyVal.vnone) := by
  by_cases hi : i < col.length
  · rw [List.getD_eq_getElem col _ hi]
    exact h _ (List.getElem_mem hi)
  · rw [List.getD_eq_default col _ (by omega)]
    trivial

theorem getD_clean {col : List PyVal} {i : Nat} (h : ∀ v ∈ col, CleanVal v) :
    CleanVal (col.getD i PyVal.vnone) := by
  by_cases hi : i < col.length
  · rw [List.getD_eq_getElem col _ hi]
    exact h _ (List.getElem_mem hi)
  · rw [List.getD_eq_default col _ (by omega)]
    trivial

theorem rowRec_mem_val {df : DataFrame} {i : Nat} {k : Str} {v : PyVal}
    (hm : (k, v) ∈ rowRec df i) :
    k ∈ df.cols ∧ ∃ col ∈ df.colData, v = col.getD i PyVal.vnone := by
  unfold rowRec at hm
  have h2 := List.of_mem_zip hm
  refine ⟨h2.1, ?_⟩
  have h3 := h2.2
  rw [List.mem_map] at h3
  obtain ⟨col, hcol, he⟩ := h3
  exact ⟨col, hcol, he.symm⟩

theorem dfRecords_norm (df : DataFrame) (h : DFWF df) :
    ∀ r ∈ dfRecords df, ∀ kv ∈ r, NormVal kv.2 := by
  intro r hr kv hkv
  unfold dfRecords at hr
  rw [List.mem_map] at hr
  obtain ⟨i, _, rfl⟩ := hr
  obtain ⟨k, v⟩ := kv
  obtain ⟨-, col, hcol, hv⟩ := rowRec_mem_val hkv
  rw [hv]
  exact getD_norm (h.norm col hcol)

theorem dfRecords_clean (df : DataFrame) (h : CleanDf df) :
    ∀ r ∈ dfRecords df, ∀ kv ∈ r, CleanStr kv.1 ∧ CleanVal kv.2 := by
  intro r hr kv hkv
  unfold dfRecords at hr
  rw [List.mem_map] at hr
  obtain ⟨i, _, rfl⟩ := hr
  obtain ⟨k, v⟩ := kv
  obtain ⟨hk, col, hcol, hv⟩ := rowRec_mem_val hkv
  refine ⟨h.1 k hk, ?_⟩
  rw [hv]
  exact getD_clean (h.2 col hcol)

theorem parseLines_map_print (recs : List PyDict)
    (hnd : ∀ r ∈ recs, (r.map Prod.fst).Nodup)
    (hnorm : ∀ r ∈ recs, ∀ kv ∈ r, NormVal kv.2) :
    parseLines (recs.map printRecord) = Except.ok recs := by
  induction recs with
  | nil => rfl
  | cons r rs ih =>
      rw [List.map_cons]
      unfold parseLines
      rw [loads_print r (hnd r (by simp)) (hnorm r (by simp))]
      show (parseLines (rs.map printRecord)).map (fun x => r :: x) = Except.ok (r :: rs)
      rw [ih (fun x hx => hnd x (List.mem_cons_of_mem _ hx))
        (fun x hx => hnorm x (List.mem_cons_of_mem _ hx))]
      rfl

/-- Parsing the JSONL download of a clean, well-formed table recovers its
records exactly. -/
theorem parseRecords_serialize (df : DataFrame) (h : DFWF df) (hc : CleanDf df) :
    parseRecords (serializeJsonLines df) = Except.ok (dfRecords df) := by
  unfold parseRecords serializeJsonLines
  rw [pyLines_joinLines ((dfRecords df).map printRecord) ?hb ?hne ?hnb]
  · exact parseLines_map_print (dfRecords df)
      (fun r hr => (dfRecords_keys df h r hr) ▸ h.nodupCols)
      (dfRecords_norm df h)
  case hb =>
    intro l hl
    rw [List.mem_map] at hl
    obtain ⟨r, hr, rfl⟩ := hl
    exact printRecord_noBoundary r (dfRecords_clean df hc r hr)
  case hne =>
    intro l hl
    rw [List.mem_map] at hl
    obtain ⟨r, hr, rfl⟩ := hl
    obtain ⟨t, ht⟩ := printRecord_head r
    rw [ht]
    exact List.cons_ne_nil _ _
  case hnb =>
    intro l hl
    rw [List.mem_map] at hl
    obtain ⟨r, hr, rfl⟩ := hl
    exact printRecord_notBlank r

/-- The full round trip at the `DataFrame` level (the amended C1 shape):
re-loading the JSONL download of a clean, well-formed table reproduces
the table. -/
theorem load_serialize (df : DataFrame) (h : DFWF df) (hc : CleanDf df) :
    load_jsonl_from_bytes (serializeJsonLines df) = Except.ok df := by
  unfold load_jsonl_from_bytes
  rw [parseRecords_serialize df h hc]
  show Except.ok (dfOfRecords (dfRecords df)) = Except.ok df
  rw [dfOfRecords_dfRecords df h]

theorem parseLines_norm : ∀ (ls : List Str) (recs : List PyDict),
    parseLines ls = Except.ok recs → ∀ r ∈ recs, ∀ kv ∈ r, NormVal kv.2 := by
  intro ls
  induction ls with
  | nil =>
      intro recs h
      unfold parseLines at h
      injection h with h
      subst h
      intro r hr
      cases hr
  | cons l ls ih =>
      intro recs h r hr kv hkv
      unfold parseLines at h
      cases hl : loads l with
      | none =>
          rw [hl] at h
          simp only [Option.elim] at h
          exact Except.noConfusion h
      | some r0 =>
          rw [hl] at h
          simp only [Option.elim] at h
          cases hp : parseLines ls with
          | error e =>
              rw [hp] at h
              simp only [Except.map] at h
              exact Except.noConfusion h
          | ok rs =>
              rw [hp] at h
              simp only [Except.map] at h
              injection h with h
              subst h
              rcases List.mem_cons.mp hr with hr0 | hr2
              · subst hr0
                exact loads_norm hl kv hkv
              · exact ih rs hp r hr2 kv hkv

theorem cellOf_norm {r : PyDict} (h : ∀ kv ∈ r, NormVal kv.2) (k : Str) :
    NormVal (cellOf r k) := by
  unfold cellOf
  cases hd : dlookup k r with
  | none => trivial
  | some v =>
      obtain ⟨kv, hm, he⟩ := dlookup_mem hd
      show NormVal v
      exact he ▸ h kv hm

/-- `pd.DataFrame(records)` always yields a well-formed table (keys
distinct per column construction, dtype inference idempotent, floats
normalised when the input values were). -/
theorem dfOfRecords_wf (recs : List PyDict)
    (hnorm : ∀ r ∈ recs, ∀ kv ∈ r, NormVal kv.2) :
    DFWF (dfOfRecords recs) := by
  refine ⟨?_, ?_, ?_, ?_, ?_, ?_⟩
  · simp [dfOfRecords]
  · simp only [dfOfRecords]
    exact firstSeenKeys_nodup recs
  · intro col hcol
    simp only [dfOfRecords, List.mem_map] at hcol
    obtain ⟨k, hk, rfl⟩ := hcol
    simp [dfOfRecords, coerceCol_length]
  · intro col hcol
    simp only [dfOfRecords, List.mem_map] at hcol
    obtain ⟨k, hk, rfl⟩ := hcol
    exact coerceCol_stable _
  · intro col hcol
    simp only [dfOfRecords, List.mem_map] at hcol
    obtain ⟨k, hk, rfl⟩ := hcol
    apply coerceCol_norm
    intro v hv
    rw [List.mem_map] at hv
    obtain ⟨r, hr, rfl⟩ := hv
    exact cellOf_norm (hnorm r hr) k
  · intro h0
    simp only [dfOfRecords] at h0 ⊢
    have hrecs : recs = [] := List.eq_nil_of_length_eq_zero h0
    subst hrecs
    rfl

/-- Every table `load_jsonl_from_bytes` returns is well-formed. -/
theorem load_wf {text : Str} {df : DataFrame}
    (h : load_jsonl_from_bytes text = Except.ok df) : DFWF df := by
  unfold load_jsonl_from_bytes at h
  cases hp : parseRecords text with
  | error e =>
      rw [hp] at h
      simp only [Except.map] at h
      exact Except.noConfusion h
  | ok recs =>
      rw [hp] at h
      simp only [Except.map] at h
      injection h with h
      subst h
      unfold parseRecords at hp
      exact dfOfRecords_wf recs (parseLines_norm _ _ hp)

/-! ## The application layer: session state and one script rerun

`st.session_state` holds the table (`df`, `None` before a load) and the
index (`idx`); each Streamlit interaction reruns the script top to
bottom (src/streamlit_app.py:34-213). -/

def kSubGoal : Str := "sub_goal_setting".toList
def kVerif : Str := "verification".toList
def kBacktrack : Str := "backtracking".toList
def kBackChain : Str := "backward_chaining".toList
def kComment : Str := "annotator_comment".toList
def kAnnot : Str := "annotation".toList

/-- `ANNOTATION_COLS` (src/streamlit_app.py:43). -/
def ANNOT_COLS : List Str := [kSubGoal, kVerif, kBacktrack, kBackChain]

/-- The `(column name, column cells)` pairs of a table. -/
def dfPairs (df : DataFrame) : List (Str × List PyVal) := df.cols.zip df.colData

def pairLookup {α : Type} (k : Str) : List (Str × α) → Option α
  | [] => none
  | p :: t => if p.1 = k then some p.2 else pairLookup k t

/-- The cells of column `k` (`df[k]`), if the column exists. -/
def colAt (df : DataFrame) (k : Str) : Option (List PyVal) := pairLookup k (dfPairs df)

/-- Scalar column assignment `df[k] = 0` for a missing annotation column
(src/streamlit_app.py:72-74): a full column of `int` zeros. -/
def addColZero (df : DataFrame) (k : Str) : DataFrame :=
  if k ∈ df.cols then df
  else ⟨df.cols ++ [k], df.colData ++ [List.replicate df.nrow (PyVal.vint 0)], df.nrow⟩

/-- `df["annotator_comment"] = ""` when that column is missing
(src/streamlit_app.py:76-77). -/
def addColEmptyStr (df : DataFrame) (k : Str) : DataFrame :=
  if k ∈ df.cols then df
  else ⟨df.cols ++ [k], df.colData ++ [List.replicate df.nrow (PyVal.vstr [])], df.nrow⟩

/-- `df.drop(columns=[k])`. -/
def dropCol (df : DataFrame) (k : Str) : DataFrame :=
  ⟨((dfPairs df).filter (fun p => decide (p.1 ≠ k))).map Prod.fst,
    ((dfPairs df).filter (fun p => decide (p.1 ≠ k))).map Prod.snd,
    df.nrow⟩

/-- src/streamlit_app.py:79-81: drop an `"annotation"` column when
present. -/
def dropAnnotCol (df : DataFrame) : DataFrame :=
  if kAnnot ∈ df.cols then dropCol df kAnnot else df

/-- src/streamlit_app.py:71-81: inject the four count columns (default 0)
and the comment column (default `""`) when absent, then drop an
`"annotation"` column if present. -/
def normalizeDf (df : DataFrame) : DataFrame :=
  dropAnnotCol (addColEmptyStr (ANNOT_COLS.foldl addColZero df) kComment)

/-- A `float64` column in this model: nonempty and all cells floats (see
the dtype-inference comment on `coerceCol`). -/
def colIsFloat (col : List PyVal) : Bool := !col.isEmpty && col.all isFloatV

/-- `df.at[i, k] = v`: replace one cell of an existing column `k` (the
save handler only writes columns the normalisation step guarantees). -/
def atPut (df : DataFrame) (i : Nat) (k : Str) (v : PyVal) : DataFrame :=
  ⟨df.cols,
    (dfPairs df).map (fun p => if p.1 = k then p.2.set i v else p.2),
    df.nrow⟩

/-- The value `df.at[i, k] = int(n)` actually stores: pandas keeps the
`int` in an `int64`/`object` column but casts it to `float` in a
`float64` column. -/
def storedInt (df : DataFrame) (k : Str) (n : Int) : PyVal :=
  if colIsFloat ((colAt df k).getD []) then PyVal.vfloat (mkFin n 0) else PyVal.vint n

def atPutInt (df : DataFrame) (i : Nat) (k : Str) (n : Int) : DataFrame :=
  atPut df i k (storedInt df k n)

def atPutStr (df : DataFrame) (i : Nat) (k : Str) (s : Str) : DataFrame :=
  atPut df i k (PyVal.vstr s)

/-- The save handler (src/streamlit_app.py:180-184): write the four
counts (cast with `int(...)`) and the comment into row `i`. -/
def saveUpdate (df : DataFrame) (i : Nat) (a b c d : Nat) (m : Str) : DataFrame :=
  atPutStr (atPutInt (atPutInt (atPutInt (atPutInt df i kSubGoal a) i kVerif b)
    i kBacktrack c) i kBackChain d) i kComment m

/-- The `number_input` clamp (src/streamlit_app.py:88-95): `min_value=0`,
`max_value=max(0, n-1)`; Streamlit forces the widget value into that
range. -/
def clampIdx (n : Nat) (k : Int) : Nat :=
  (min (max k 0) (max 0 ((n : Int) - 1))).toNat

/-- The spec's `seek`, as the app realises it through the widget clamp. -/
def seek (n : Nat) (k : Int) : Nat := clampIdx n k

/-- Modelled from the spec: `stepNext()` is `seek(current + 1)` (the app
itself has no step buttons; navigation goes through the clamped widget). -/
def stepNext (n cur : Nat) : Nat := seek n ((cur : Int) + 1)

/-- Modelled from the spec: `stepPrev()` is `seek(current - 1)`. -/
def stepPrev (n cur : Nat) : Nat := seek n ((cur : Int) - 1)

/-- Session state: the loaded table and the current index. -/
structure AppState where
  df : Option DataFrame
  idx : Nat
deriving DecidableEq, Repr

/-- The widget inputs of one script rerun: the sidebar upload (if any),
the navigation target typed into the `number_input`, whether the save
button was pressed, the four count widgets (naturals, by their
`min_value=0` contract) and the comment text area. -/
structure RerunInput where
  upload : Option Str
  nav : Int
  save : Bool
  subGoal : Nat
  verifCount : Nat
  backtrackCount : Nat
  backchainCount : Nat
  comment : Str
deriving DecidableEq, Repr

/-- The upload handler (src/streamlit_app.py:46-51): parse the uploaded
bytes only when no table is loaded yet; on a parse failure the table
stays `None` (the exception is caught and only displayed). -/
def uploadStep (cur : Option DataFrame) (upload : Option Str) : Option DataFrame :=
  if cur.isNone then upload.elim none (fun text => (load_jsonl_from_bytes text).toOption)
  else cur

/-- One top-to-bottom script run: upload handling, `st.stop()` when no
table is loaded, annotation-column normalisation, the navigation widget,
and the save handler. -/
def rerun (s : AppState) (inp : RerunInput) : AppState :=
  (uploadStep s.df inp.upload).elim ⟨none, s.idx⟩ (fun d0 =>
    let d1 := normalizeDf d0
    let i := clampIdx d1.nrow inp.nav
    ⟨some (if inp.save then
        saveUpdate d1 i inp.subGoal inp.verifCount inp.backtrackCount inp.backchainCount
          inp.comment
      else d1), i⟩)

/-- The header row of `df.to_csv(index=False)` (src/streamlit_app.py:199):
the column names. -/
def csvColumns (df : DataFrame) : List Str := df.cols

/-- The prompt fallback chain (src/streamlit_app.py:110). -/
def FALLBACK_KEYS : List Str :=
  ["input prompt".toList, "input".toList, "prompt".toList, "text".toList]

/-- `json.dumps(..., ensure_ascii=False, indent=2)` member list
(src/streamlit_app.py:115): two-space indent, one member per line. -/
def printMembersInd : PyDict → Str
  | [] => []
  | [kv] => ' ' :: ' ' :: printMember kv
  | kv :: rest => ' ' :: ' ' :: printMember kv ++ ',' :: '\n' :: printMembersInd rest

def printRecordInd (r : PyDict) : Str :=
  if r = [] then ['{', '}'] else '{' :: '\n' :: (printMembersInd r ++ '\n' :: ['}'])

/-- The prompt-resolution loop (src/streamlit_app.py:110-113): the first
fallback key present in the column schema wins, and the cell is read from
the given row. -/
def promptScan (cols : List Str) (r : PyDict) : List Str → Option PyVal
  | [] => none
  | k :: ks => if k ∈ cols then some (cellOf r k) else promptScan cols r ks

/-- src/streamlit_app.py:108-115: the resolved prompt.  Both "no fallback
key in the schema" and "the looked-up cell is `None`" fall through to the
indented JSON dump of the whole record. -/
def prompt_text (cols : List Str) (r : PyDict) : Sum Str PyVal :=
  (promptScan cols r FALLBACK_KEYS).elim (Sum.inl (printRecordInd r))
    (fun v => if v = PyVal.vnone then Sum.inl (printRecordInd r) else Sum.inr v)

/-- Python `str.strip()` with no argument: drop whitespace at both ends. -/
def pyStrip (s : Str) : Str := ((s.dropWhile pySpace).reverse.dropWhile pySpace).reverse

/-- `pat` occurs in `text` at position `i`. -/
def occursAt (text pat : Str) (i : Nat) : Bool :=
  decide ((text.drop i).take pat.length = pat)

def scanOccur (text pat : Str) : Nat → Nat → Option Nat
  | 0, _ => none
  | fuel + 1, i => if occursAt text pat i then some i else scanOccur text pat fuel (i + 1)

/-- Modelled from the spec: the position of the first occurrence of `pat`
in `text` at or after `start` (Python `str.find`). -/
def findOccur (text pat : Str) (start : Nat) : Option Nat :=
  scanOccur text pat (text.length + 1 - start) start

/-- Modelled from the spec: `extractDelimitedSpan(text, startMarker,
endMarker)` — the trimmed span strictly between the end of the first
`startMarker` and the first `endMarker` at or after that point; absent
when either marker is missing. -/
def extractDelimitedSpan (text startM endM : Str) : Option Str :=
  (findOccur text startM 0).bind (fun i =>
    (findOccur text endM (i + startM.length)).map (fun j =>
      pyStrip ((text.drop (i + startM.length)).take (j - (i + startM.length)))))

/-- Python's `json.JSONDecodeError` line number: the newlines of the
parsed document before the error position, plus one.  The document here
is the single line handed to `json.loads`, never the whole file. -/
def jsonErrorLineno (err : ParseErr) (pos : Nat) : Nat :=
  ((err.doc.take pos).filter (fun c => decide (c = '\n'))).length + 1

/-- A committed count cell: a non-negative integer value, either as an
`int` or as an integral non-negative `float`. -/
def NonnegIntCell : PyVal → Prop
  | PyVal.vint n => 0 ≤ n
  | PyVal.vfloat (PyFloat.finite m e) => 0 ≤ m ∧ 0 ≤ e
  | _ => False

/-! ## Lemmas for the error path of the loader -/

theorem splitlinesAux_noBound : ∀ (fuel : Nat) (cs acc l : Str),
    l ∈ splitlinesAux fuel cs acc → (∀ c ∈ acc, lineBoundary c = false) →
    ∀ c ∈ l, lineBoundary c = false := by
  intro fuel
  induction fuel with
  | zero =>
      intro cs acc l hl hacc
      simp only [splitlinesAux] at hl
      split at hl
      · cases hl
      · rcases List.mem_singleton.mp hl with rfl
        intro c hc
        exact hacc c (List.mem_reverse.mp hc)
  | succ f ih =>
      intro cs acc l hl hacc
      cases cs with
      | nil =>
          simp only [splitlinesAux] at hl
          split at hl
          · cases hl
          · rcases List.mem_singleton.mp hl with rfl
            intro c hc
            exact hacc c (List.mem_reverse.mp hc)
      | cons c0 rest =>
          simp only [splitlinesAux] at hl
          by_cases hr : c0 = '\r'
          · rw [if_pos hr] at hl
            rcases List.mem_cons.mp hl with rfl | hl2
            · intro c hc
              exact hacc c (List.mem_reverse.mp hc)
            · exact ih _ [] l hl2 (by intro c hc; cases hc)
          · rw [if_neg hr] at hl
            by_cases hb : lineBoundary c0 = true
            · rw [if_pos hb] at hl
              rcases List.mem_cons.mp hl with rfl | hl2
              · intro c hc
                exact hacc c (List.mem_reverse.mp hc)
              · exact ih _ [] l hl2 (by intro c hc; cases hc)
            · rw [if_neg hb] at hl
              refine ih _ (c0 :: acc) l hl ?_
              intro c hc
              rcases List.mem_cons.mp hc with rfl | hc2
              · simpa using hb
              · exact hacc c hc2

theorem splitlines_noBound {text l : Str} (hl : l ∈ splitlines text) :
    ∀ c ∈ l, lineBoundary c = false :=
  splitlinesAux_noBound _ _ _ l hl (by intro c hc; cases hc)

/-- The first line `json.loads` rejects aborts the whole comprehension:
the error carries that line, and no record list is produced at all. -/
theorem parseLines_error : ∀ (ls : List Str) (e : ParseErr),
    parseLines ls = Except.error e → e.doc ∈ ls ∧ loads e.doc = none := by
  intro ls
  induction ls with
  | nil =>
      intro e h
      exact Except.noConfusion h
  | cons l ls ih =>
      intro e h
      unfold parseLines at h
      cases hl : loads l with
      | none =>
          rw [hl] at h
          simp only [Option.elim] at h
          injection h with h
          subst h
          exact ⟨by simp, hl⟩
      | some r =>
          rw [hl] at h
          simp only [Option.elim] at h
          cases hp : parseLines ls with
          | error e2 =>
              rw [hp] at h
              simp only [Except.map] at h
              injection h with h
              subst h
              obtain ⟨hm, hn⟩ := ih e2 hp
              exact ⟨List.mem_cons_of_mem _ hm, hn⟩
          | ok rs =>
              rw [hp] at h
              simp only [Except.map] at h
              exact Except.noConfusion h

/-- A file whose every non-blank line parses loads successfully. -/
theorem parseLines_ok : ∀ (ls : List Str), (∀ l ∈ ls, loads l ≠ none) →
    ∃ recs, parseLines ls = Except.ok recs := by
  intro ls
  induction ls with
  | nil => exact fun _ => ⟨[], rfl⟩
  | cons l ls ih =>
      intro h
      obtain ⟨r, hr⟩ := Option.ne_none_iff_exists.mp (h l (by simp))
      obtain ⟨recs, hrecs⟩ := ih (fun x hx => h x (List.mem_cons_of_mem _ hx))
      refine ⟨r :: recs, ?_⟩
      unfold parseLines
      rw [← hr]
      simp only [Option.elim]
      rw [hrecs]
      rfl

/-- The offending line a load failure reports contains no newline, so the
`JSONDecodeError` line number — newlines before the error position plus
one — is `1` at every position: it is relative to the single line, never
the file. -/
theorem parseRecords_lineno {text : Str} {e : ParseErr}
    (h : parseRecords text = Except.error e) (pos : Nat) :
    jsonErrorLineno e pos = 1 := by
  have hmem : e.doc ∈ pyLines text := (parseLines_error _ e h).1
  have hnb : ∀ c ∈ e.doc, lineBoundary c = false :=
    splitlines_noBound (List.mem_of_mem_filter hmem)
  unfold jsonErrorLineno
  rw [show (e.doc.take pos).filter (fun c => decide (c = '\n')) = [] from ?_]
  · rfl
  · rw [List.filter_eq_nil_iff]
    intro c hc
    have hb := hnb c (List.mem_of_mem_take hc)
    simp only [decide_eq_true_eq]
    intro he
    subst he
    exact absurd hb (by decide)

/-! ## The pairs view of a table, and cell updates -/

/-- The shape part of well-formedness: what every in-session table keeps
(normalisation may add columns to a zero-row table, so `DFWF.emptyCols`
is not preserved, but the shape is). -/
structure DFShape (df : DataFrame) : Prop where
  ncols : df.colData.length = df.cols.length
  nodupCols : df.cols.Nodup
  rowlen : ∀ col ∈ df.colData, col.length = df.nrow

theorem DFWF.shape {df : DataFrame} (h : DFWF df) : DFShape df :=
  ⟨h.ncols, h.nodupCols, h.rowlen⟩

theorem dfPairs_fst {df : DataFrame} (h : DFShape df) :
    (dfPairs df).map Prod.fst = df.cols :=
  List.map_fst_zip _ _ (le_of_eq h.ncols.symm)

theorem dfPairs_snd {df : DataFrame} (h : DFShape df) :
    (dfPairs df).map Prod.snd = df.colData :=
  List.map_snd_zip _ _ (le_of_eq h.ncols)

theorem dfPairs_mem {df : DataFrame} {p : Str × List PyVal} (hp : p ∈ dfPairs df) :
    p.1 ∈ df.cols ∧ p.2 ∈ df.colData := by
  obtain ⟨a, b⟩ := p
  exact List.of_mem_zip hp

theorem rowRec_pairs {df : DataFrame} (h : DFShape df) (i : Nat) :
    rowRec df i = (dfPairs df).map (fun p => (p.1, p.2.getD i PyVal.vnone)) := by
  unfold rowRec
  conv_lhs => rw [← dfPairs_fst h, ← dfPairs_snd h]
  rw [List.map_map, List.zip_map']
  rfl

theorem pairLookup_getD (k : Str) (i : Nat) : ∀ ps : List (Str × List PyVal),
    pairLookup k (ps.map (fun p => (p.1, p.2.getD i PyVal.vnone)))
      = (pairLookup k ps).map (fun col => col.getD i PyVal.vnone) := by
  intro ps
  induction ps with
  | nil => rfl
  | cons p t ih =>
      obtain ⟨pk, pc⟩ := p
      simp only [List.map_cons, pairLookup]
      by_cases hp : pk = k
      · rw [if_pos hp, if_pos hp]
        rfl
      · rw [if_neg hp, if_neg hp, ih]

theorem pairLookup_put (k k2 : Str) (i : Nat) (v : PyVal) : ∀ ps : List (Str × List PyVal),
    pairLookup k2 (ps.map (fun p => (p.1, if p.1 = k then p.2.set i v else p.2)))
      = (pairLookup k2 ps).map (fun col => if k2 = k then col.set i v else col) := by
  intro ps
  induction ps with
  | nil => rfl
  | cons p t ih =>
      obtain ⟨pk, pc⟩ := p
      simp only [List.map_cons, pairLookup]
      by_cases hp : pk = k2
      · rw [if_pos hp, if_pos hp, hp]
        rfl
      · rw [if_neg hp, if_neg hp, ih]

theorem pairLookup_mem {α : Type} {k : Str} {x : α} :
    ∀ {ps : List (Str × α)}, pairLookup k ps = some x → (k, x) ∈ ps := by
  intro ps
  induction ps with
  | nil => intro h; exact Option.noConfusion h
  | cons p t ih =>
      intro h
      unfold pairLookup at h
      by_cases hp : p.1 = k
      · rw [if_pos hp] at h
        injection h with h
        have hpe : (k, x) = p := by
          obtain ⟨pk, pc⟩ := p
          simp only at hp h
          rw [hp, h]
        rw [hpe]
        exact List.mem_cons_self p t
      · rw [if_neg hp] at h
        exact List.mem_cons_of_mem _ (ih h)

theorem pairLookup_some_of_mem {α : Type} {k : Str} :
    ∀ {ps : List (Str × α)}, k ∈ ps.map Prod.fst → ∃ x, pairLookup k ps = some x := by
  intro ps
  induction ps with
  | nil => intro h; cases h
  | cons p t ih =>
      intro h
      unfold pairLookup
      by_cases hp : p.1 = k
      · exact ⟨p.2, if_pos hp⟩
      · rw [if_neg hp]
        simp only [List.map_cons] at h
        rcases List.mem_cons.mp h with h1 | h2
        · exact absurd h1.symm hp
        · exact ih h2

theorem pairLookup_eq_none {α : Type} {k : Str} :
    ∀ {ps : List (Str × α)}, k ∉ ps.map Prod.fst → pairLookup k ps = none := by
  intro ps
  induction ps with
  | nil => intro _; rfl
  | cons p t ih =>
      intro h
      simp only [List.map_cons, List.mem_cons, not_or] at h
      unfold pairLookup
      rw [if_neg (fun he => h.1 he.symm)]
      exact ih h.2

theorem pairLookup_append {α : Type} (k : Str) :
    ∀ ps qs : List (Str × α),
    pairLookup k (ps ++ qs) = oor (pairLookup k ps) (pairLookup k qs) := by
  intro ps qs
  induction ps with
  | nil => rfl
  | cons p t ih =>
      simp only [List.cons_append, pairLookup, List.append_eq]
      by_cases hp : p.1 = k
      · rw [if_pos hp, if_pos hp]
        rfl
      · rw [if_neg hp, if_neg hp, ih]

theorem dlookup_eq_pairLookup (k : Str) : ∀ r : PyDict, dlookup k r = pairLookup k r := by
  intro r
  induction r with
  | nil => rfl
  | cons kv t ih =>
      unfold dlookup pairLookup
      rw [ih]

theorem dfPairs_atPut {df : DataFrame} (h : DFShape df) (i : Nat) (k : Str) (v : PyVal) :
    dfPairs (atPut df i k v)
      = (dfPairs df).map (fun p => (p.1, if p.1 = k then p.2.set i v else p.2)) := by
  show df.cols.zip ((dfPairs df).map (fun p => if p.1 = k then p.2.set i v else p.2)) = _
  conv_lhs => rw [← dfPairs_fst h]
  rw [List.zip_map']

theorem atPut_shape {df : DataFrame} (h : DFShape df) (i : Nat) (k : Str) (v : PyVal) :
    DFShape (atPut df i k v) := by
  refine ⟨?_, h.nodupCols, ?_⟩
  · show ((dfPairs df).map _).length = df.cols.length
    rw [List.length_map]
    unfold dfPairs
    rw [List.length_zip, h.ncols, min_self]
  · intro col hcol
    simp only [atPut, List.mem_map] at hcol
    obtain ⟨p, hp, rfl⟩ := hcol
    have h2 := (dfPairs_mem hp).2
    show (if p.1 = k then p.2.set i v else p.2).length = df.nrow
    by_cases hpk : p.1 = k
    · rw [if_pos hpk, List.length_set]
      exact h.rowlen p.2 h2
    · rw [if_neg hpk]
      exact h.rowlen p.2 h2

theorem colAt_atPut {df : DataFrame} (h : DFShape df) (i : Nat) (k k2 : Str) (v : PyVal) :
    colAt (atPut df i k v) k2
      = (colAt df k2).map (fun col => if k2 = k then col.set i v else col) := by
  unfold colAt
  rw [dfPairs_atPut h, pairLookup_put]

theorem colAt_atPut_ne {df : DataFrame} (h : DFShape df) {k k2 : Str} (hne : k2 ≠ k)
    (i : Nat) (v : PyVal) : colAt (atPut df i k v) k2 = colAt df k2 := by
  rw [colAt_atPut h i k k2 v]
  cases hc : colAt df k2 with
  | none => rfl
  | some col => simp [hne]

theorem cellOf_colAt {df : DataFrame} (h : DFShape df) (i : Nat) (k : Str) :
    cellOf (rowRec df i) k
      = ((colAt df k).map (fun col => col.getD i PyVal.vnone)).getD
          (PyVal.vfloat PyFloat.nan) := by
  unfold cellOf
  rw [dlookup_eq_pairLookup, rowRec_pairs h i, pairLookup_getD]
  rfl

theorem getD_set_ne (l : List PyVal) (i j : Nat) (v : PyVal) (hij : j ≠ i) :
    (l.set i v).getD j PyVal.vnone = l.getD j PyVal.vnone := by
  by_cases hj : j < l.length
  · rw [List.getD_eq_getElem _ _ (by rw [List.length_set]; exact hj),
      List.getD_eq_getElem _ _ hj]
    exact List.getElem_set_of_ne (by omega) v _
  · rw [List.getD_eq_default _ _ (by rw [List.length_set]; omega),
      List.getD_eq_default _ _ (by omega)]

theorem getD_set_self (l : List PyVal) (i : Nat) (v : PyVal) (hi : i < l.length) :
    (l.set i v).getD i PyVal.vnone = v := by
  rw [List.getD_eq_getElem _ _ (by rw [List.length_set]; exact hi)]
  exact List.getElem_set_self _

theorem rowRec_atPut_ne {df : DataFrame} (h : DFShape df) {i j : Nat} (hij : j ≠ i)
    (k : Str) (v : PyVal) : rowRec (atPut df i k v) j = rowRec df j := by
  rw [rowRec_pairs (atPut_shape h i k v) j, rowRec_pairs h j, dfPairs_atPut h, List.map_map]
  apply List.map_congr_left
  intro p hp
  simp only [Function.comp_apply]
  by_cases hpk : p.1 = k
  · rw [if_pos hpk]
    rw [getD_set_ne _ _ _ _ hij]
  · rw [if_neg hpk]

/-! ## Normalisation lemmas: injected defaults and the dropped column -/

theorem addColZero_nrow (df : DataFrame) (k : Str) : (addColZero df k).nrow = df.nrow := by
  unfold addColZero
  split <;> rfl

theorem addColEmptyStr_nrow (df : DataFrame) (k : Str) :
    (addColEmptyStr df k).nrow = df.nrow := by
  unfold addColEmptyStr
  split <;> rfl

theorem addColZero_shape {df : DataFrame} (h : DFShape df) (k : Str) :
    DFShape (addColZero df k) := by
  unfold addColZero
  split
  · exact h
  · next hk =>
      refine ⟨?_, ?_, ?_⟩
      · show (df.colData ++ _).length = (df.cols ++ _).length
        simp [h.ncols]
      · show (df.cols ++ [k]).Nodup
        rw [List.nodup_append]
        refine ⟨h.nodupCols, by simp, ?_⟩
        intro a ha hak
        rw [List.mem_singleton] at hak
        exact hk (hak ▸ ha)
      · intro col hcol
        rcases List.mem_append.mp hcol with h1 | h1
        · exact h.rowlen col h1
        · rw [List.mem_singleton] at h1
          rw [h1, List.length_replicate]

theorem addColEmptyStr_shape {df : DataFrame} (h : DFShape df) (k : Str) :
    DFShape (addColEmptyStr df k) := by
  unfold addColEmptyStr
  split
  · exact h
  · next hk =>
      refine ⟨?_, ?_, ?_⟩
      · show (df.colData ++ _).length = (df.cols ++ _).length
        simp [h.ncols]
      · show (df.cols ++ [k]).Nodup
        rw [List.nodup_append]
        refine ⟨h.nodupCols, by simp, ?_⟩
        intro a ha hak
        rw [List.mem_singleton] at hak
        exact hk (hak ▸ ha)
      · intro col hcol
        rcases List.mem_append.mp hcol with h1 | h1
        · exact h.rowlen col h1
        · rw [List.mem_singleton] at h1
          rw [h1, List.length_replicate]

theorem dfPairs_dropCol (df : DataFrame) (k : Str) :
    dfPairs (dropCol df k) = (dfPairs df).filter (fun p => decide (p.1 ≠ k)) := by
  show (((dfPairs df).filter _).map Prod.fst).zip (((dfPairs df).filter _).map Prod.snd) = _
  rw [List.zip_map']
  simp

theorem dropCol_shape {df : DataFrame} (h : DFShape df) (k : Str) :
    DFShape (dropCol df k) := by
  refine ⟨?_, ?_, ?_⟩
  · show (((dfPairs df).filter _).map Prod.snd).length
        = (((dfPairs df).filter _).map Prod.fst).length
    simp
  · show (((dfPairs df).filter _).map Prod.fst).Nodup
    refine List.Nodup.sublist (List.Sublist.map Prod.fst (List.filter_sublist _)) ?_
    rw [dfPairs_fst h]
    exact h.nodupCols
  · intro col hcol
    simp only [dropCol, List.mem_map, List.mem_filter] at hcol
    obtain ⟨p, ⟨hp, _⟩, rfl⟩ := hcol
    exact h.rowlen p.2 (dfPairs_mem hp).2

theorem dropCol_not_mem (df : DataFrame) (k : Str) : k ∉ (dropCol df k).cols := by
  intro hmem
  simp only [dropCol, List.mem_map, List.mem_filter, decide_eq_true_eq] at hmem
  obtain ⟨p, ⟨_, hne⟩, hp1⟩ := hmem
  exact hne hp1

theorem dropCol_mem_of {df : DataFrame} (h : DFShape df) {k k2 : Str} (hne : k2 ≠ k)
    (hmem : k2 ∈ df.cols) : k2 ∈ (dropCol df k).cols := by
  obtain ⟨col, hc⟩ := @pairLookup_some_of_mem (List PyVal) k2 (dfPairs df)
    (by rw [dfPairs_fst h]; exact hmem)
  have hpm := pairLookup_mem hc
  show k2 ∈ ((dfPairs df).filter _).map Prod.fst
  rw [List.mem_map]
  exact ⟨(k2, col), List.mem_filter.mpr ⟨hpm, by simpa using hne⟩, rfl⟩

theorem pairLookup_filter_ne {α : Type} {k k2 : Str} (hne : k2 ≠ k) :
    ∀ ps : List (Str × α),
    pairLookup k2 (ps.filter (fun p => decide (p.1 ≠ k))) = pairLookup k2 ps := by
  intro ps
  induction ps with
  | nil => rfl
  | cons p t ih =>
      by_cases hp : p.1 ≠ k
      · rw [List.filter_cons_of_pos (by simpa using hp)]
        unfold pairLookup
        rw [ih]
      · rw [List.filter_cons_of_neg (by simpa using hp)]
        push_neg at hp
        have hpc : pairLookup k2 (p :: t) = pairLookup k2 t := by
          rw [show pairLookup k2 (p :: t)
              = if p.1 = k2 then some p.2 else pairLookup k2 t from rfl]
          rw [if_neg (show ¬ p.1 = k2 from fun he => hne (he ▸ hp))]
        rw [ih, hpc]

theorem colAt_dropCol_ne {df : DataFrame} {k k2 : Str} (hne : k2 ≠ k) :
    colAt (dropCol df k) k2 = colAt df k2 := by
  unfold colAt
  rw [dfPairs_dropCol, pairLookup_filter_ne hne]

theorem oor_none_right {α : Type} (a : Option α) : oor a none = a := by
  cases a <;> rfl

theorem addColZero_not_mem {df : DataFrame} {k k2 : Str} (h2 : k2 ∉ df.cols)
    (hne : k2 ≠ k) : k2 ∉ (addColZero df k).cols := by
  unfold addColZero
  split
  · exact h2
  · intro hmem
    rcases List.mem_append.mp hmem with h1 | h1
    · exact h2 h1
    · rw [List.mem_singleton] at h1
      exact hne h1

theorem dfPairs_addColZero {df : DataFrame} (h : DFShape df) {k : Str} (hk : k ∉ df.cols) :
    dfPairs (addColZero df k)
      = dfPairs df ++ [(k, List.replicate df.nrow (PyVal.vint 0))] := by
  unfold addColZero
  rw [if_neg hk]
  show (df.cols ++ [k]).zip (df.colData ++ _) = _
  rw [List.zip_append h.ncols.symm]
  rfl

theorem dfPairs_addColEmptyStr {df : DataFrame} (h : DFShape df) {k : Str}
    (hk : k ∉ df.cols) :
    dfPairs (addColEmptyStr df k)
      = dfPairs df ++ [(k, List.replicate df.nrow (PyVal.vstr []))] := by
  unfold addColEmptyStr
  rw [if_neg hk]
  show (df.cols ++ [k]).zip (df.colData ++ _) = _
  rw [List.zip_append h.ncols.symm]
  rfl

theorem colAt_addColZero_ne {df : DataFrame} (h : DFShape df) {k k2 : Str} (hne : k2 ≠ k) :
    colAt (addColZero df k) k2 = colAt df k2 := by
  by_cases hk : k ∈ df.cols
  · unfold addColZero colAt
    rw [if_pos hk]
  · unfold colAt
    rw [dfPairs_addColZero h hk, pairLookup_append]
    rw [show pairLookup k2 [(k, List.replicate df.nrow (PyVal.vint 0))] = none from by
      unfold pairLookup
      rw [if_neg (fun he => hne he.symm)]
      rfl]
    exact oor_none_right _

theorem colAt_addColEmptyStr_ne {df : DataFrame} (h : DFShape df) {k k2 : Str}
    (hne : k2 ≠ k) : colAt (addColEmptyStr df k) k2 = colAt df k2 := by
  by_cases hk : k ∈ df.cols
  · unfold addColEmptyStr colAt
    rw [if_pos hk]
  · unfold colAt
    rw [dfPairs_addColEmptyStr h hk, pairLookup_append]
    rw [show pairLookup k2 [(k, List.replicate df.nrow (PyVal.vstr []))] = none from by
      unfold pairLookup
      rw [if_neg (fun he => hne he.symm)]
      rfl]
    exact oor_none_right _

theorem colAt_addColZero_self {df : DataFrame} (h : DFShape df) {k : Str}
    (hk : k ∉ df.cols) :
    colAt (addColZero df k) k = some (List.replicate df.nrow (PyVal.vint 0)) := by
  unfold colAt
  rw [dfPairs_addColZero h hk, pairLookup_append,
    pairLookup_eq_none (by rw [dfPairs_fst h]; exact hk), oor_none]
  unfold pairLookup
  rw [if_pos rfl]

theorem colAt_addColEmptyStr_self {df : DataFrame} (h : DFShape df) {k : Str}
    (hk : k ∉ df.cols) :
    colAt (addColEmptyStr df k) k = some (List.replicate df.nrow (PyVal.vstr [])) := by
  unfold colAt
  rw [dfPairs_addColEmptyStr h hk, pairLookup_append,
    pairLookup_eq_none (by rw [dfPairs_fst h]; exact hk), oor_none]
  unfold pairLookup
  rw [if_pos rfl]

theorem addColZero_mem_mono {df : DataFrame} {k k2 : Str} (hmem : k2 ∈ df.cols) :
    k2 ∈ (addColZero df k).cols := by
  unfold addColZero
  split
  · exact hmem
  · exact List.mem_append_left _ hmem

theorem addColZero_mem_self (df : DataFrame) (k : Str) : k ∈ (addColZero df k).cols := by
  unfold addColZero
  split
  · next hk => exact hk
  · exact List.mem_append_right _ (by simp)

theorem addColEmptyStr_mem_mono {df : DataFrame} {k k2 : Str} (hmem : k2 ∈ df.cols) :
    k2 ∈ (addColEmptyStr df k).cols := by
  unfold addColEmptyStr
  split
  · exact hmem
  · exact List.mem_append_left _ hmem

theorem addColEmptyStr_mem_self (df : DataFrame) (k : Str) :
    k ∈ (addColEmptyStr df k).cols := by
  unfold addColEmptyStr
  split
  · next hk => exact hk
  · exact List.mem_append_right _ (by simp)

/-! The fold over `ANNOTATION_COLS` (generic in the key list). -/

theorem foldlZero_shape : ∀ (ks : List Str) {df : DataFrame}, DFShape df →
    DFShape (ks.foldl addColZero df) := by
  intro ks
  induction ks with
  | nil => intro df h; exact h
  | cons k0 ks ih => intro df h; exact ih (addColZero_shape h k0)

theorem foldlZero_nrow : ∀ (ks : List Str) (df : DataFrame),
    (ks.foldl addColZero df).nrow = df.nrow := by
  intro ks
  induction ks with
  | nil => intro df; rfl
  | cons k0 ks ih =>
      intro df
      rw [List.foldl_cons, ih, addColZero_nrow]

theorem foldlZero_mem_mono : ∀ (ks : List Str) {df : DataFrame} {k : Str},
    k ∈ df.cols → k ∈ (ks.foldl addColZero df).cols := by
  intro ks
  induction ks with
  | nil => intro df k h; exact h
  | cons k0 ks ih => intro df k h; exact ih (addColZero_mem_mono h)

theorem foldlZero_mem_self : ∀ (ks : List Str) (df : DataFrame) {k : Str},
    k ∈ ks → k ∈ (ks.foldl addColZero df).cols := by
  intro ks
  induction ks with
  | nil => intro df k h; cases h
  | cons k0 ks ih =>
      intro df k h
      rw [List.foldl_cons]
      rcases List.mem_cons.mp h with rfl | h2
      · exact foldlZero_mem_mono ks (addColZero_mem_self df k)
      · exact ih (addColZero df k0) h2

theorem foldlZero_not_mem : ∀ (ks : List Str) {df : DataFrame} {k : Str},
    k ∉ df.cols → k ∉ ks → k ∉ (ks.foldl addColZero df).cols := by
  intro ks
  induction ks with
  | nil => intro df k h _; exact h
  | cons k0 ks ih =>
      intro df k h hks
      simp only [List.mem_cons, not_or] at hks
      exact ih (addColZero_not_mem h hks.1) hks.2

theorem foldlZero_colAt_preserve : ∀ (ks : List Str) {df : DataFrame}, DFShape df →
    ∀ {k : Str}, k ∉ ks → colAt (ks.foldl addColZero df) k = colAt df k := by
  intro ks
  induction ks with
  | nil => intro df _ k _; rfl
  | cons k0 ks ih =>
      intro df h k hks
      simp only [List.mem_cons, not_or] at hks
      rw [List.foldl_cons, ih (addColZero_shape h k0) hks.2,
        colAt_addColZero_ne h hks.1]

theorem foldlZero_colAt : ∀ (ks : List Str) {df : DataFrame}, DFShape df →
    ∀ {k : Str}, k ∈ ks → ks.Nodup → k ∉ df.cols →
    colAt (ks.foldl addColZero df) k = some (List.replicate df.nrow (PyVal.vint 0)) := by
  intro ks
  induction ks with
  | nil => intro df _ k h; cases h
  | cons k0 ks ih =>
      intro df h k hk hnd hnot
      rw [List.nodup_cons] at hnd
      rcases List.mem_cons.mp hk with rfl | h2
      · rw [List.foldl_cons,
          foldlZero_colAt_preserve ks (addColZero_shape h k) hnd.1,
          colAt_addColZero_self h hnot]
      · rw [List.foldl_cons]
        rw [ih (addColZero_shape h k0) h2 hnd.2
          (addColZero_not_mem hnot (fun he => hnd.1 (he ▸ h2)))]
        rw [addColZero_nrow]

/-! Normalisation as a whole. -/

theorem dropAnnotCol_shape {df : DataFrame} (h : DFShape df) : DFShape (dropAnnotCol df) := by
  unfold dropAnnotCol
  split
  · exact dropCol_shape h kAnnot
  · exact h

theorem dropAnnotCol_nrow (df : DataFrame) : (dropAnnotCol df).nrow = df.nrow := by
  unfold dropAnnotCol
  split <;> rfl

theorem dropAnnotCol_colAt_ne {df : DataFrame} {k : Str} (hne : k ≠ kAnnot) :
    colAt (dropAnnotCol df) k = colAt df k := by
  unfold dropAnnotCol
  split
  · exact colAt_dropCol_ne hne
  · rfl

theorem dropAnnotCol_mem {df : DataFrame} (h : DFShape df) {k : Str} (hne : k ≠ kAnnot)
    (hmem : k ∈ df.cols) : k ∈ (dropAnnotCol df).cols := by
  unfold dropAnnotCol
  split
  · exact dropCol_mem_of h hne hmem
  · exact hmem

theorem dropAnnotCol_annot (df : DataFrame) : kAnnot ∉ (dropAnnotCol df).cols := by
  unfold dropAnnotCol
  split
  · exact dropCol_not_mem df kAnnot
  · next hk => exact hk

theorem normalizeDf_shape {df : DataFrame} (h : DFShape df) : DFShape (normalizeDf df) :=
  dropAnnotCol_shape (addColEmptyStr_shape (foldlZero_shape ANNOT_COLS h) kComment)

theorem normalizeDf_nrow (df : DataFrame) : (normalizeDf df).nrow = df.nrow := by
  unfold normalizeDf
  rw [dropAnnotCol_nrow, addColEmptyStr_nrow, foldlZero_nrow]

theorem normalizeDf_annot (df : DataFrame) : kAnnot ∉ (normalizeDf df).cols :=
  dropAnnotCol_annot _

theorem normalizeDf_mem_count {df : DataFrame} (h : DFShape df) {k : Str}
    (hk : k ∈ ANNOT_COLS) : k ∈ (normalizeDf df).cols := by
  have hall : ∀ k2 ∈ ANNOT_COLS, k2 ≠ kAnnot := by decide
  exact dropAnnotCol_mem (addColEmptyStr_shape (foldlZero_shape ANNOT_COLS h) kComment)
    (hall k hk) (addColEmptyStr_mem_mono (foldlZero_mem_self ANNOT_COLS df hk))

theorem normalizeDf_mem_comment {df : DataFrame} (h : DFShape df) :
    kComment ∈ (normalizeDf df).cols :=
  dropAnnotCol_mem (addColEmptyStr_shape (foldlZero_shape ANNOT_COLS h) kComment)
    (by decide) (addColEmptyStr_mem_self _ kComment)

theorem normalizeDf_colAt_count {df : DataFrame} (h : DFShape df) {k : Str}
    (hk : k ∈ ANNOT_COLS) (hnot : k ∉ df.cols) :
    colAt (normalizeDf df) k = some (List.replicate df.nrow (PyVal.vint 0)) := by
  have hann : ∀ k2 ∈ ANNOT_COLS, k2 ≠ kAnnot := by decide
  have hcom : ∀ k2 ∈ ANNOT_COLS, k2 ≠ kComment := by decide
  unfold normalizeDf
  rw [dropAnnotCol_colAt_ne (hann k hk)]
  rw [colAt_addColEmptyStr_ne (foldlZero_shape ANNOT_COLS h) (hcom k hk)]
  exact foldlZero_colAt ANNOT_COLS h hk (by decide) hnot

theorem normalizeDf_colAt_comment {df : DataFrame} (h : DFShape df)
    (hnot : kComment ∉ df.cols) :
    colAt (normalizeDf df) kComment
      = some (List.replicate df.nrow (PyVal.vstr [])) := by
  unfold normalizeDf
  rw [dropAnnotCol_colAt_ne (by decide)]
  rw [colAt_addColEmptyStr_self (foldlZero_shape ANNOT_COLS h)
    (foldlZero_not_mem ANNOT_COLS hnot (by decide))]
  rw [foldlZero_nrow]

theorem getD_replicate_self {n i : Nat} (hi : i < n) (x d : PyVal) :
    (List.replicate n x).getD i d = x := by
  rw [List.getD_eq_getElem _ _ (by rw [List.length_replicate]; exact hi)]
  simp

/-! ## The save handler: frame and effect -/

theorem colAt_atPut_self {df : DataFrame} (h : DFShape df) (i : Nat) (k : Str) (v : PyVal) :
    colAt (atPut df i k v) k = (colAt df k).map (fun col => col.set i v) := by
  rw [colAt_atPut h i k k v]
  cases colAt df k <;> simp

theorem colAt_some {df : DataFrame} (h : DFShape df) {k : Str} (hk : k ∈ df.cols) :
    ∃ col, colAt df k = some col ∧ col.length = df.nrow := by
  obtain ⟨col, hc⟩ := pairLookup_some_of_mem (by rw [dfPairs_fst h]; exact hk)
  exact ⟨col, hc, h.rowlen col (dfPairs_mem (pairLookup_mem hc)).2⟩

theorem storedInt_congr {df df2 : DataFrame} {k : Str} (h : colAt df2 k = colAt df k)
    (n : Int) : storedInt df2 k n = storedInt df k n := by
  unfold storedInt
  rw [h]

theorem cellOf_eq_of_colAt {df df2 : DataFrame} (h : DFShape df) (h2 : DFShape df2)
    (i : Nat) {k : Str} (hc : colAt df2 k = colAt df k) :
    cellOf (rowRec df2 i) k = cellOf (rowRec df i) k := by
  rw [cellOf_colAt h2 i k, cellOf_colAt h i k, hc]

/-! ## Rerun shape lemmas -/

theorem uploadStep_ready (d : DataFrame) (u : Option Str) : uploadStep (some d) u = some d :=
  rfl

theorem rerun_ready (d : DataFrame) (idx : Nat) (inp : RerunInput) :
    rerun ⟨some d, idx⟩ inp
      = ⟨some (if inp.save then
            saveUpdate (normalizeDf d) (clampIdx (normalizeDf d).nrow inp.nav) inp.subGoal
              inp.verifCount inp.backtrackCount inp.backchainCount inp.comment
          else normalizeDf d),
          clampIdx (normalizeDf d).nrow inp.nav⟩ := rfl

theorem rerun_empty_fail (idx : Nat) (inp : RerunInput) {t : Str} {e : ParseErr}
    (hu : inp.upload = some t) (hl : load_jsonl_from_bytes t = Except.error e) :
    rerun ⟨none, idx⟩ inp = ⟨none, idx⟩ := by
  unfold rerun
  rw [show uploadStep (AppState.mk none idx).df inp.upload = none from by
    unfold uploadStep
    rw [hu, if_pos (show Option.isNone (AppState.mk none idx).df = true from rfl)]
    show (some t).elim none _ = none
    simp only [Option.elim]
    rw [hl]
    rfl]
  rfl

theorem rerun_empty_ok (idx : Nat) (inp : RerunInput) {t : Str} {d0 : DataFrame}
    (hu : inp.upload = some t) (hl : load_jsonl_from_bytes t = Except.ok d0) :
    rerun ⟨none, idx⟩ inp
      = ⟨some (if inp.save then
            saveUpdate (normalizeDf d0) (clampIdx (normalizeDf d0).nrow inp.nav) inp.subGoal
              inp.verifCount inp.backtrackCount inp.backchainCount inp.comment
          else normalizeDf d0),
          clampIdx (normalizeDf d0).nrow inp.nav⟩ := by
  unfold rerun
  rw [show uploadStep (AppState.mk none idx).df inp.upload = some d0 from by
    unfold uploadStep
    rw [hu, if_pos (show Option.isNone (AppState.mk none idx).df = true from rfl)]
    show (some t).elim none _ = some d0
    simp only [Option.elim]
    rw [hl]
    rfl]
  rfl

/-! ## Non-negativity of the stored counts -/

theorem normPairF_nonneg : ∀ (fuel : Nat) (m e : Int), 0 ≤ m → 0 ≤ e →
    0 ≤ (normPairF fuel m e).1 ∧ 0 ≤ (normPairF fuel m e).2 := by
  intro fuel
  induction fuel with
  | zero => intro m e hm he; exact ⟨hm, he⟩
  | succ f ih =>
      intro m e hm he
      simp only [normPairF]
      by_cases h0 : m = 0
      · rw [if_pos h0]
        exact ⟨le_refl 0, le_refl 0⟩
      · rw [if_neg h0]
        by_cases h10 : m % 10 = 0
        · rw [if_pos h10]
          exact ih (m / 10) (e + 1) (Int.ediv_nonneg hm (by norm_num)) (by omega)
        · rw [if_neg h10]
          exact ⟨hm, he⟩

theorem mkFin_nonneg {n : Int} (hn : 0 ≤ n) :
    ∃ m e : Int, mkFin n 0 = PyFloat.finite m e ∧ 0 ≤ m ∧ 0 ≤ e := by
  unfold mkFin normPair
  exact ⟨_, _, rfl, (normPairF_nonneg _ n 0 hn (le_refl 0)).1,
    (normPairF_nonneg _ n 0 hn (le_refl 0)).2⟩

theorem storedInt_nonneg (df : DataFrame) (k : Str) {n : Int} (hn : 0 ≤ n) :
    NonnegIntCell (storedInt df k n) := by
  unfold storedInt
  split
  · obtain ⟨m, e, heq, hm, he⟩ := mkFin_nonneg hn
    rw [heq]
    exact ⟨hm, he⟩
  · exact hn

/-! ## The prompt fallback chain -/

theorem promptScan_eq (cols : List Str) (r : PyDict) : ∀ ks : List Str,
    promptScan cols r ks = (ks.find? (fun k => decide (k ∈ cols))).map (cellOf r) := by
  intro ks
  induction ks with
  | nil => rfl
  | cons k ks ih =>
      unfold promptScan
      by_cases hk : k ∈ cols
      · rw [if_pos hk, List.find?_cons_of_pos _ (by simpa using hk)]
        rfl
      · rw [if_neg hk, List.find?_cons_of_neg _ (by simpa using hk), ih]

/-! ## The delimited-span extraction (spec-modelled) -/

theorem scanOccur_none (text pat : Str) : ∀ (fuel start : Nat),
    (∀ t, start ≤ t → t < start + fuel → occursAt text pat t = false) →
    scanOccur text pat fuel start = none := by
  intro fuel
  induction fuel with
  | zero => intro start _; rfl
  | succ f ih =>
      intro start h
      unfold scanOccur
      rw [if_neg (by rw [h start (le_refl _) (by omega)]; exact Bool.false_ne_true)]
      exact ih (start + 1) (fun t ht1 ht2 => h t (by omega) (by omega))

theorem scanOccur_found (text pat : Str) : ∀ (fuel start i0 : Nat),
    start ≤ i0 → i0 < start + fuel → occursAt text pat i0 = true →
    (∀ t, start ≤ t → t < i0 → occursAt text pat t = false) →
    scanOccur text pat fuel start = some i0 := by
  intro fuel
  induction fuel with
  | zero => intro start i0 h1 h2 _ _; omega
  | succ f ih =>
      intro start i0 h1 h2 h3 h4
      unfold scanOccur
      by_cases hs : start = i0
      · subst hs
        rw [if_pos h3]
      · rw [if_neg (by rw [h4 start (le_refl _) (by omega)]; exact Bool.false_ne_true)]
        exact ih (start + 1) i0 (by omega) (by omega) h3 (fun t ht1 ht2 => h4 t (by omega) ht2)

theorem findOccur_eq_some {text pat : Str} {start i0 : Nat} (h1 : start ≤ i0)
    (h2 : i0 ≤ text.length) (h3 : occursAt text pat i0 = true)
    (h4 : ∀ t, start ≤ t → t < i0 → occursAt text pat t = false) :
    findOccur text pat start = some i0 :=
  scanOccur_found text pat _ start i0 h1 (by omega) h3 h4

theorem occursAt_far {text pat : Str} (hp : pat ≠ []) {t : Nat} (ht : text.length ≤ t) :
    occursAt text pat t = false := by
  unfold occursAt
  rw [List.drop_eq_nil_of_le ht, List.take_nil]
  exact decide_eq_false (fun he => hp he.symm)

theorem findOccur_eq_none {text pat : Str} (hp : pat ≠ []) {start : Nat}
    (h : ∀ t, start ≤ t → t ≤ text.length → occursAt text pat t = false) :
    findOccur text pat start = none := by
  apply scanOccur_none
  intro t ht1 ht2
  by_cases hb : t ≤ text.length
  · exact h t ht1 hb
  · exact occursAt_far hp (by omega)

theorem occursAt_append (pre pat rest : Str) :
    occursAt (pre ++ (pat ++ rest)) pat pre.length = true := by
  unfold occursAt
  rw [List.drop_left, List.take_left]
  simp

/-- The save handler's full frame/effect description: rows other than `i`
untouched, fields outside the five written ones untouched, the comment
stored as text, each count stored through the dtype rule (`int`, or
`float` in a `float64` column). -/
theorem saveUpdate_cells {df : DataFrame} (h : DFShape df) {i : Nat} (hi : i < df.nrow)
    (hsub : kSubGoal ∈ df.cols) (hcm : kComment ∈ df.cols)
    (a b c d : Nat) (m : Str) :
    (∀ j, j ≠ i → rowRec (saveUpdate df i a b c d m) j = rowRec df j)
    ∧ (∀ k, k ≠ kSubGoal → k ≠ kVerif → k ≠ kBacktrack → k ≠ kBackChain → k ≠ kComment →
        cellOf (rowRec (saveUpdate df i a b c d m) i) k = cellOf (rowRec df i) k)
    ∧ cellOf (rowRec (saveUpdate df i a b c d m) i) kSubGoal
        = storedInt df kSubGoal (a : Int)
    ∧ (kVerif ∈ df.cols →
        cellOf (rowRec (saveUpdate df i a b c d m) i) kVerif = storedInt df kVerif (b : Int))
    ∧ (kBacktrack ∈ df.cols →
        cellOf (rowRec (saveUpdate df i a b c d m) i) kBacktrack
          = storedInt df kBacktrack (c : Int))
    ∧ (kBackChain ∈ df.cols →
        cellOf (rowRec (saveUpdate df i a b c d m) i) kBackChain
          = storedInt df kBackChain (d : Int))
    ∧ cellOf (rowRec (saveUpdate df i a b c d m) i) kComment = PyVal.vstr m := by
  unfold saveUpdate atPutStr atPutInt
  rw [storedInt_congr (colAt_atPut_ne h (show kVerif ≠ kSubGoal from by decide) i
    (storedInt df kSubGoal (a : Int))) (b : Int)]
  have h1 : DFShape (atPut df i kSubGoal (storedInt df kSubGoal (a : Int))) :=
    atPut_shape h _ _ _
  rw [storedInt_congr (show colAt (atPut (atPut df i kSubGoal
        (storedInt df kSubGoal (a : Int))) i kVerif (storedInt df kVerif (b : Int)))
        kBacktrack = colAt df kBacktrack from by
      rw [colAt_atPut_ne h1 (show kBacktrack ≠ kVerif from by decide) i _,
        colAt_atPut_ne h (show kBacktrack ≠ kSubGoal from by decide) i _]) (c : Int)]
  have h2 : DFShape (atPut (atPut df i kSubGoal (storedInt df kSubGoal (a : Int)))
      i kVerif (storedInt df kVerif (b : Int))) := atPut_shape h1 _ _ _
  rw [storedInt_congr (show colAt (atPut (atPut (atPut df i kSubGoal
        (storedInt df kSubGoal (a : Int))) i kVerif (storedInt df kVerif (b : Int)))
        i kBacktrack (storedInt df kBacktrack (c : Int))) kBackChain
        = colAt df kBackChain from by
      rw [colAt_atPut_ne h2 (show kBackChain ≠ kBacktrack from by decide) i _,
        colAt_atPut_ne h1 (show kBackChain ≠ kVerif from by decide) i _,
        colAt_atPut_ne h (show kBackChain ≠ kSubGoal from by decide) i _]) (d : Int)]
  have h3 : DFShape (atPut (atPut (atPut df i kSubGoal (storedInt df kSubGoal (a : Int)))
      i kVerif (storedInt df kVerif (b : Int))) i kBacktrack
      (storedInt df kBacktrack (c : Int))) := atPut_shape h2 _ _ _
  have h4 : DFShape (atPut (atPut (atPut (atPut df i kSubGoal
      (storedInt df kSubGoal (a : Int))) i kVerif (storedInt df kVerif (b : Int)))
      i kBacktrack (storedInt df kBacktrack (c : Int))) i kBackChain
      (storedInt df kBackChain (d : Int))) := atPut_shape h3 _ _ _
  have h5 : DFShape (atPut (atPut (atPut (atPut (atPut df i kSubGoal
      (storedInt df kSubGoal (a : Int))) i kVerif (storedInt df kVerif (b : Int)))
      i kBacktrack (storedInt df kBacktrack (c : Int))) i kBackChain
      (storedInt df kBackChain (d : Int))) i kComment (PyVal.vstr m)) := atPut_shape h4 _ _ _
  refine ⟨?_, ?_, ?_, ?_, ?_, ?_, ?_⟩
  · intro j hj
    rw [rowRec_atPut_ne h4 hj, rowRec_atPut_ne h3 hj, rowRec_atPut_ne h2 hj,
      rowRec_atPut_ne h1 hj, rowRec_atPut_ne h hj]
  · intro k hk1 hk2 hk3 hk4 hk5
    rw [cellOf_colAt h5 i k, cellOf_colAt h i k]
    rw [colAt_atPut_ne h4 hk5 i _, colAt_atPut_ne h3 hk4 i _, colAt_atPut_ne h2 hk3 i _,
      colAt_atPut_ne h1 hk2 i _, colAt_atPut_ne h hk1 i _]
  · rw [cellOf_colAt h5 i kSubGoal]
    rw [colAt_atPut_ne h4 (show kSubGoal ≠ kComment from by decide) i _,
      colAt_atPut_ne h3 (show kSubGoal ≠ kBackChain from by decide) i _,
      colAt_atPut_ne h2 (show kSubGoal ≠ kBacktrack from by decide) i _,
      colAt_atPut_ne h1 (show kSubGoal ≠ kVerif from by decide) i _,
      colAt_atPut_self h i kSubGoal _]
    obtain ⟨col, hcol, hlen⟩ := colAt_some h hsub
    rw [hcol]
    simp only [Option.map_some', Option.getD_some]
    exact getD_set_self col i _ (by rw [hlen]; exact hi)
  · intro hver
    rw [cellOf_colAt h5 i kVerif]
    rw [colAt_atPut_ne h4 (show kVerif ≠ kComment from by decide) i _,
      colAt_atPut_ne h3 (show kVerif ≠ kBackChain from by decide) i _,
      colAt_atPut_ne h2 (show kVerif ≠ kBacktrack from by decide) i _,
      colAt_atPut_self h1 i kVerif _,
      colAt_atPut_ne h (show kVerif ≠ kSubGoal from by decide) i _]
    obtain ⟨col, hcol, hlen⟩ := colAt_some h hver
    rw [hcol]
    simp only [Option.map_some', Option.getD_some]
    exact getD_set_self col i _ (by rw [hlen]; exact hi)
  · intro hbt
    rw [cellOf_colAt h5 i kBacktrack]
    rw [colAt_atPut_ne h4 (show kBacktrack ≠ kComment from by decide) i _,
      colAt_atPut_ne h3 (show kBacktrack ≠ kBackChain from by decide) i _,
      colAt_atPut_self h2 i kBacktrack _,
      colAt_atPut_ne h1 (show kBacktrack ≠ kVerif from by decide) i _,
      colAt_atPut_ne h (show kBacktrack ≠ kSubGoal from by decide) i _]
    obtain ⟨col, hcol, hlen⟩ := colAt_some h hbt
    rw [hcol]
    simp only [Option.map_some', Option.getD_some]
    exact getD_set_self col i _ (by rw [hlen]; exact hi)
  · intro hbc
    rw [cellOf_colAt h5 i kBackChain]
    rw [colAt_atPut_ne h4 (show kBackChain ≠ kComment from by decide) i _,
      colAt_atPut_self h3 i kBackChain _,
      colAt_atPut_ne h2 (show kBackChain ≠ kBacktrack from by decide) i _,
      colAt_atPut_ne h1 (show kBackChain ≠ kVerif from by decide) i _,
      colAt_atPut_ne h (show kBackChain ≠ kSubGoal from by decide) i _]
    obtain ⟨col, hcol, hlen⟩ := colAt_some h hbc
    rw [hcol]
    simp only [Option.map_some', Option.getD_some]
    exact getD_set_self col i _ (by rw [hlen]; exact hi)
  · rw [cellOf_colAt h5 i kComment]
    rw [colAt_atPut_self h4 i kComment _,
      colAt_atPut_ne h3 (show kComment ≠ kBackChain from by decide) i _,
      colAt_atPut_ne h2 (show kComment ≠ kBacktrack from by decide) i _,
      colAt_atPut_ne h1 (show kComment ≠ kVerif from by decide) i _,
      colAt_atPut_ne h (show kComment ≠ kSubGoal from by decide) i _]
    obtain ⟨col, hcol, hlen⟩ := colAt_some h hcm
    rw [hcol]
    simp only [Option.map_some', Option.getD_some]
    exact getD_set_self col i _ (by rw [hlen]; exact hi)

theorem saveUpdate_cols (df : DataFrame) (i : Nat) (a b c d : Nat) (m : Str) :
    (saveUpdate df i a b c d m).cols = df.cols := rfl

theorem saveUpdate_nrow (df : DataFrame) (i : Nat) (a b c d : Nat) (m : Str) :
    (saveUpdate df i a b c d m).nrow = df.nrow := rfl

theorem saveUpdate_shape {df : DataFrame} (h : DFShape df) (i : Nat) (a b c d : Nat)
    (m : Str) : DFShape (saveUpdate df i a b c d m) := by
  unfold saveUpdate atPutStr atPutInt
  exact atPut_shape (atPut_shape (atPut_shape (atPut_shape (atPut_shape h _ _ _) _ _ _)
    _ _ _) _ _ _) _ _ _

/-! ## The claims -/

/-! ### C1 -/

def c1Text : Str := "\x7b\"k\": \"a\\u2028b\"\x7d".toList

def c1Recs : List PyDict := [[("k".toList, PyVal.vstr "a b".toList)]]

def c1Df : DataFrame := ⟨[['a']], [[PyVal.vint 1]], 1⟩

/-- C1: the spec's record-level round trip
`parseJsonLines(serializeJsonLines(parseJsonLines(T))) == parseJsonLines(T)`
fails in general (see the counterexample: `json.dumps` emits `U+2028`
verbatim and `str.splitlines` cuts it).  Amended: re-loading the JSONL
download of a well-formed table whose column names and string cells avoid
the three verbatim line separators reproduces the table exactly. -/
theorem C1_round_trip (df : DataFrame) (h1 : DFWF df) (h2 : CleanDf df) :
    load_jsonl_from_bytes (serializeJsonLines df) = Except.ok df :=
  load_serialize df h1 h2

/-- C1 counterexample: a record holding the character `U+2028` (written
as the JSON escape ` ` in the input) loads fine, but its download
serialization no longer parses back to the same records. -/
theorem C1_counterexample :
    parseRecords c1Text = Except.ok c1Recs ∧
    parseRecords (serializeJsonLines (dfOfRecords c1Recs)) ≠ Except.ok c1Recs :=
  ⟨by decide, by decide⟩

/-- C1 witness: the amended round trip at a concrete one-row table. -/
theorem C1_round_trip_witness :
    DFWF c1Df ∧ CleanDf c1Df
    ∧ load_jsonl_from_bytes (serializeJsonLines c1Df) = Except.ok c1Df := by
  have hwf : DFWF c1Df := by
    refine ⟨rfl, by decide, ?_, ?_, ?_, ?_⟩
    · intro col hcol
      simp only [c1Df, List.mem_singleton] at hcol
      rw [hcol]
      rfl
    · intro col hcol
      simp only [c1Df, List.mem_singleton] at hcol
      rw [hcol]
      decide
    · intro col hcol v hv
      simp only [c1Df, List.mem_singleton] at hcol
      subst hcol
      simp only [List.mem_singleton] at hv
      subst hv
      trivial
    · intro h0
      exact absurd h0 (by decide)
  have hcl : CleanDf c1Df := by
    constructor
    · intro k hk
      simp only [c1Df, List.mem_singleton] at hk
      subst hk
      intro ch hch
      simp only [List.mem_singleton] at hch
      subst hch
      decide
    · intro col hcol v hv
      simp only [c1Df, List.mem_singleton] at hcol
      subst hcol
      simp only [List.mem_singleton] at hv
      subst hv
      trivial
  exact ⟨hwf, hcl, C1_round_trip c1Df hwf hcl⟩

/-! ### C2 -/

def c2Good : Str := "\x7b\"a\": 1\x7d".toList

def c2Bad : Str := "\x7bbad json".toList

def c2Text : Str := "\x7b\"a\": 1\x7d\n\x7bbad json".toList

def c2Df : DataFrame :=
  ⟨[kSubGoal, kVerif, kBacktrack, kBackChain, kComment],
   [[PyVal.vint 0], [PyVal.vint 0], [PyVal.vint 0], [PyVal.vint 0], [PyVal.vstr []]], 1⟩

def c2InpE : RerunInput := ⟨some c2Text, 3, false, 0, 0, 0, 0, []⟩

def c2InpR : RerunInput := ⟨some c2Text, 0, false, 0, 0, 0, 0, []⟩

/-- C2: corrected.  A load failure is all-or-nothing (the error carries
the first unparsable line and no records are produced), a failed upload
leaves an empty session untouched, and a loaded session ignores uploads
entirely, so it survives any (also malformed) upload.  But the reported
`JSONDecodeError` line number is computed inside the single failing line
— it is `1` at every error position, never the file line number the spec
promises. -/
theorem C2_load_failure :
    (∀ (ls : List Str) (e : ParseErr), parseLines ls = Except.error e →
        e.doc ∈ ls ∧ loads e.doc = none)
    ∧ (∀ (text : Str) (e : ParseErr), parseRecords text = Except.error e →
        ∀ pos, jsonErrorLineno e pos = 1)
    ∧ (∀ (idx : Nat) (inp : RerunInput) (t : Str), inp.upload = some t →
        (∃ e, load_jsonl_from_bytes t = Except.error e) →
        rerun ⟨none, idx⟩ inp = ⟨none, idx⟩)
    ∧ (∀ (d : DataFrame) (idx : Nat) (inp : RerunInput), normalizeDf d = d →
        clampIdx d.nrow inp.nav = idx → inp.save = false →
        rerun ⟨some d, idx⟩ inp = ⟨some d, idx⟩) := by
  refine ⟨parseLines_error, ?_, ?_, ?_⟩
  · intro text e h pos
    exact parseRecords_lineno h pos
  · rintro idx inp t hu ⟨e, he⟩
    exact rerun_empty_fail idx inp hu he
  · intro d idx inp hnorm hclamp hsave
    rw [rerun_ready, hsave]
    rw [if_neg Bool.false_ne_true]
    rw [hnorm, hclamp]

/-- C2 counterexample: a file whose second line is `\x7bbad json` fails
with the error carrying that line, and the `JSONDecodeError` line number
at the actual error position (`char 1`) is `1`, not the file line `2`
the spec's example promises. -/
theorem C2_counterexample :
    parseRecords c2Text = Except.error ⟨c2Bad⟩
    ∧ jsonErrorLineno ⟨c2Bad⟩ 1 = 1
    ∧ (1 : Nat) ≠ 2 :=
  ⟨by decide, by decide, by decide⟩

/-- C2 witness: the load-failure semantics at the concrete two-line
file, an empty session and a loaded session. -/
theorem C2_load_failure_witness :
    (c2Bad ∈ [c2Good, c2Bad] ∧ loads c2Bad = none)
    ∧ jsonErrorLineno ⟨c2Bad⟩ 3 = 1
    ∧ rerun ⟨none, 5⟩ c2InpE = ⟨none, 5⟩
    ∧ rerun ⟨some c2Df, 0⟩ c2InpR = ⟨some c2Df, 0⟩ := by
  refine ⟨C2_load_failure.1 [c2Good, c2Bad] ⟨c2Bad⟩ (by decide),
    C2_load_failure.2.1 c2Text ⟨c2Bad⟩ (by decide) 3,
    C2_load_failure.2.2.1 5 c2InpE c2Text rfl ⟨⟨c2Bad⟩, by decide⟩,
    C2_load_failure.2.2.2 c2Df 0 c2InpR (by decide) (by decide) rfl⟩

/-! ### C3 -/

def c3Text : Str := "\x7b\"annotation\": \"Yes\", \"input\": \"q\"\x7d".toList

def c3Inp : RerunInput := ⟨some c3Text, 0, true, 1, 2, 3, 4, "note".toList⟩

def c3WDf : DataFrame :=
  ⟨["q".toList, kSubGoal, kVerif, kBacktrack, kBackChain, kComment],
   [[PyVal.vstr "x".toList, PyVal.vstr "y".toList],
    [PyVal.vint 0, PyVal.vint 0], [PyVal.vint 0, PyVal.vint 0],
    [PyVal.vint 0, PyVal.vint 0], [PyVal.vint 0, PyVal.vint 0],
    [PyVal.vstr [], PyVal.vstr []]], 2⟩

def c3M : Str := "n".toList

/-- C3: corrected.  The app's only commit is the save handler, which
writes exactly the four count fields and the comment; it cannot set an
`"annotation"` field at all, and normalisation drops such a field (see
the counterexample).  Amended frame property of the real commit: columns,
row count and every other row are unchanged; in the committed row every
field outside the five written ones is unchanged, the comment holds the
given text and each count holds the given value through the dtype rule. -/
theorem C3_commit_frame {df : DataFrame} (h : DFShape df) {i : Nat} (hi : i < df.nrow)
    (hsub : kSubGoal ∈ df.cols) (hver : kVerif ∈ df.cols) (hbt : kBacktrack ∈ df.cols)
    (hbc : kBackChain ∈ df.cols) (hcm : kComment ∈ df.cols) (a b c d : Nat) (m : Str) :
    (saveUpdate df i a b c d m).cols = df.cols
    ∧ (saveUpdate df i a b c d m).nrow = df.nrow
    ∧ (∀ j, j ≠ i → rowRec (saveUpdate df i a b c d m) j = rowRec df j)
    ∧ (∀ k, k ≠ kSubGoal → k ≠ kVerif → k ≠ kBacktrack → k ≠ kBackChain → k ≠ kComment →
        cellOf (rowRec (saveUpdate df i a b c d m) i) k = cellOf (rowRec df i) k)
    ∧ cellOf (rowRec (saveUpdate df i a b c d m) i) kSubGoal
        = storedInt df kSubGoal (a : Int)
    ∧ cellOf (rowRec (saveUpdate df i a b c d m) i) kVerif = storedInt df kVerif (b : Int)
    ∧ cellOf (rowRec (saveUpdate df i a b c d m) i) kBacktrack
        = storedInt df kBacktrack (c : Int)
    ∧ cellOf (rowRec (saveUpdate df i a b c d m) i) kBackChain
        = storedInt df kBackChain (d : Int)
    ∧ cellOf (rowRec (saveUpdate df i a b c d m) i) kComment = PyVal.vstr m := by
  have hc := saveUpdate_cells h hi hsub hcm a b c d m
  exact ⟨rfl, rfl, hc.1, hc.2.1, hc.2.2.1, hc.2.2.2.1 hver, hc.2.2.2.2.1 hbt,
    hc.2.2.2.2.2.1 hbc, hc.2.2.2.2.2.2⟩

/-- C3 counterexample: load a record that already carries
`"annotation": "Yes"` and press save in the same run — the session stays
loaded, yet the exported record at the committed index has no
`"annotation"` field at all: the spec's
`commit(\x7b"annotation": "Yes"\x7d)` test cannot hold, and the field is
not even left unchanged. -/
theorem C3_counterexample :
    (rerun ⟨none, 0⟩ c3Inp).df ≠ none
    ∧ dlookup kAnnot (rowRec (((rerun ⟨none, 0⟩ c3Inp).df).getD ⟨[], [], 0⟩) 0) = none
    ∧ dlookup kAnnot (rowRec (((rerun ⟨none, 0⟩ c3Inp).df).getD ⟨[], [], 0⟩) 0)
        ≠ some (PyVal.vstr "Yes".toList) :=
  ⟨by decide, by decide, by decide⟩

/-- C3 witness: the commit frame at a concrete two-row table. -/
theorem C3_commit_frame_witness :
    cellOf (rowRec (saveUpdate c3WDf 0 1 2 3 4 c3M) 0) kSubGoal = storedInt c3WDf kSubGoal 1
    ∧ cellOf (rowRec (saveUpdate c3WDf 0 1 2 3 4 c3M) 0) kComment = PyVal.vstr c3M
    ∧ cellOf (rowRec (saveUpdate c3WDf 0 1 2 3 4 c3M) 0) "q".toList
        = cellOf (rowRec c3WDf 0) "q".toList := by
  have h := @C3_commit_frame c3WDf ⟨rfl, by decide, by decide⟩ 0 (by decide)
    (by decide) (by decide) (by decide) (by decide) (by decide) 1 2 3 4 c3M
  exact ⟨h.2.2.2.2.1, h.2.2.2.2.2.2.2.2,
    h.2.2.2.1 "q".toList (by decide) (by decide) (by decide) (by decide) (by decide)⟩

/-! ### C4 -/

def c4Df : DataFrame :=
  ⟨["q".toList, kSubGoal, kVerif, kBacktrack, kBackChain, kComment],
   [[PyVal.vstr "x".toList, PyVal.vstr "y".toList],
    [PyVal.vint 0, PyVal.vint 0], [PyVal.vint 0, PyVal.vint 0],
    [PyVal.vint 0, PyVal.vint 0], [PyVal.vint 0, PyVal.vint 0],
    [PyVal.vstr [], PyVal.vstr []]], 2⟩

def c4Text : Str := "\x7b\"q\": \"z\"\x7d".toList

def c4Recs : List PyDict := [[("q".toList, PyVal.vstr "z".toList)]]

def c4Inp : RerunInput := ⟨some c4Text, 1, false, 0, 0, 0, 0, []⟩

def c4InpW : RerunInput := ⟨some c4Text, 0, false, 0, 0, 0, 0, []⟩

def c4InpW2 : RerunInput := ⟨some c1Text, 0, false, 0, 0, 0, 0, []⟩

def c4InpW3 : RerunInput := ⟨none, 0, false, 0, 0, 0, 0, []⟩

set_option maxHeartbeats 1600000 in
/-- C4: corrected.  A successful load happens only from the empty state
(the handler's `df is None` guard): there it installs the normalised
table and the cursor is the clamped navigation value (`0` in a fresh
session, whose widget starts at the initial index `0`).  With a table
already loaded, an upload is ignored entirely — the spec's
`Ready --load(valid)--> Ready(cursor=0)` full-replace transition does
not exist (see the counterexample). -/
theorem C4_load_transitions :
    (∀ (idx0 : Nat) (inp : RerunInput) (t : Str) (d0 : DataFrame),
        inp.upload = some t → inp.save = false →
        load_jsonl_from_bytes t = Except.ok d0 →
        rerun ⟨none, idx0⟩ inp
          = ⟨some (normalizeDf d0), clampIdx (normalizeDf d0).nrow inp.nav⟩
        ∧ (inp.nav = 0 → (rerun ⟨none, idx0⟩ inp).idx = 0))
    ∧ (∀ (d : DataFrame) (idx : Nat) (u u2 : Option Str) (nav : Int) (save : Bool)
        (a b c dd : Nat) (m : Str),
        rerun ⟨some d, idx⟩ ⟨u, nav, save, a, b, c, dd, m⟩
          = rerun ⟨some d, idx⟩ ⟨u2, nav, save, a, b, c, dd, m⟩) := by
  constructor
  · intro idx0 inp t d0 hu hsave hl
    have he := rerun_empty_ok idx0 inp hu hl
    rw [hsave, if_neg Bool.false_ne_true] at he
    refine ⟨he, ?_⟩
    intro hnav
    rw [he]
    show clampIdx (normalizeDf d0).nrow inp.nav = 0
    rw [hnav]
    unfold clampIdx
    omega
  · intro d idx u u2 nav save a b c dd m
    rw [rerun_ready, rerun_ready]

set_option maxHeartbeats 2000000 in
/-- C4 counterexample: with a table loaded, uploading a different valid
file leaves the session exactly as it was — no replacement, no cursor
reset. -/
theorem C4_counterexample :
    (load_jsonl_from_bytes c4Text).toOption ≠ none
    ∧ rerun ⟨some c4Df, 1⟩ c4Inp = ⟨some c4Df, 1⟩
    ∧ normalizeDf ((load_jsonl_from_bytes c4Text).toOption.getD ⟨[], [], 0⟩) ≠ c4Df :=
  ⟨by decide, by decide, by decide⟩

/-- C4 witness: the empty-state load and the loaded-state upload
independence at concrete inputs. -/
theorem C4_load_transitions_witness :
    rerun ⟨none, 7⟩ c4InpW
      = ⟨some (normalizeDf (dfOfRecords c4Recs)),
          clampIdx (normalizeDf (dfOfRecords c4Recs)).nrow c4InpW.nav⟩
    ∧ rerun ⟨some c4Df, 1⟩ c4InpW2 = rerun ⟨some c4Df, 1⟩ c4InpW3 := by
  refine ⟨(C4_load_transitions.1 7 c4InpW c4Text (dfOfRecords c4Recs) rfl rfl
    (by decide)).1, ?_⟩
  exact C4_load_transitions.2 c4Df 1 (some c1Text) none 0 false 0 0 0 0 []

/-! ### C5 -/

def c5Text : Str := "\x7b\"a\": 1, \"sub_goal_setting\": 3\x7d\n\x7b\"a\": 2\x7d".toList

def c5Inp : RerunInput := ⟨some c5Text, 0, false, 0, 0, 0, 0, []⟩

def c5WDf : DataFrame := ⟨["q".toList], [[PyVal.vstr "x".toList, PyVal.vstr "y".toList]], 2⟩

/-- C5: corrected.  Default injection is per column, not per record: a
count column absent from the input is created with `0` in every record,
and a missing comment column with `""`.  But when a count column exists
on some records and not others, the missing entries become `NaN`, not
`0` (see the counterexample), so the spec's "for every record
individually" reading fails.  Amended: per-column injection, stated for
a column absent from the input. -/
theorem C5_column_defaults {df : DataFrame} (h : DFShape df) {k : Str}
    (hk : k ∈ ANNOT_COLS) (hnot : k ∉ df.cols) {i : Nat} (hi : i < df.nrow) :
    k ∈ (normalizeDf df).cols ∧ kComment ∈ (normalizeDf df).cols
    ∧ cellOf (rowRec (normalizeDf df) i) k = PyVal.vint 0
    ∧ (kComment ∉ df.cols →
        cellOf (rowRec (normalizeDf df) i) kComment = PyVal.vstr []) := by
  refine ⟨normalizeDf_mem_count h hk, normalizeDf_mem_comment h, ?_, ?_⟩
  · rw [cellOf_colAt (normalizeDf_shape h) i k, normalizeDf_colAt_count h hk hnot]
    simp only [Option.map_some', Option.getD_some]
    exact getD_replicate_self hi _ _
  · intro hcm
    rw [cellOf_colAt (normalizeDf_shape h) i kComment, normalizeDf_colAt_comment h hcm]
    simp only [Option.map_some', Option.getD_some]
    exact getD_replicate_self hi _ _

/-- C5 counterexample: `sub_goal_setting` present on record 0 only —
after the load, record 1 holds `NaN` there, not the promised default
`0`. -/
theorem C5_counterexample :
    (rerun ⟨none, 0⟩ c5Inp).df ≠ none
    ∧ cellOf (rowRec (((rerun ⟨none, 0⟩ c5Inp).df).getD ⟨[], [], 0⟩) 1) kSubGoal
        = PyVal.vfloat PyFloat.nan
    ∧ cellOf (rowRec (((rerun ⟨none, 0⟩ c5Inp).df).getD ⟨[], [], 0⟩) 1) kSubGoal
        ≠ PyVal.vint 0 :=
  ⟨by decide, by decide, by decide⟩

/-- C5 witness: the injected defaults at a concrete table missing all
annotation columns. -/
theorem C5_column_defaults_witness :
    kSubGoal ∈ (normalizeDf c5WDf).cols
    ∧ cellOf (rowRec (normalizeDf c5WDf) 1) kSubGoal = PyVal.vint 0
    ∧ cellOf (rowRec (normalizeDf c5WDf) 1) kComment = PyVal.vstr [] := by
  have h := @C5_column_defaults c5WDf ⟨rfl, by decide, by decide⟩ kSubGoal
    (by decide) (by decide) 1 (by decide)
  exact ⟨h.1, h.2.2.1, h.2.2.2 (by decide)⟩

/-! ### C6 -/

/-- C6: the navigation clamp.  `seek(k)` — realised by the
`number_input` with `min_value=0`, `max_value=max(0, n-1)` — lands on
`clamp(k, 0, n-1)` for a non-empty table, stays inside the table, and
the spec's step operations (`seek(cur ± 1)`, modelled from the spec: the
app has no step buttons) are no-ops at the ends. -/
theorem C6_seek_clamp (n : Nat) (hn : 0 < n) (k : Int) :
    ((seek n k : Nat) : Int) = max 0 (min k ((n : Int) - 1))
    ∧ seek n k < n
    ∧ stepNext n (n - 1) = n - 1
    ∧ stepPrev n 0 = 0 := by
  unfold stepNext stepPrev seek clampIdx
  refine ⟨?_, ?_, ?_, ?_⟩ <;> omega

/-- C6 witness: the clamp at a table of three records and a negative
target. -/
theorem C6_seek_clamp_witness :
    0 < 3
    ∧ (((seek 3 (-5) : Nat) : Int) = max 0 (min (-5) ((3 : Int) - 1))
      ∧ seek 3 (-5) < 3
      ∧ stepNext 3 (3 - 1) = 3 - 1
      ∧ stepPrev 3 0 = 0) :=
  ⟨by decide, C6_seek_clamp 3 (by decide) (-5)⟩

/-! ### C7 -/

def c7Cols : List Str := ["input".toList]

def c7Rec : PyDict := [("input".toList, PyVal.vnone)]

def c7WCols : List Str := ["input prompt".toList, "x".toList]

def c7WRec : PyDict := [("input prompt".toList, PyVal.vstr "hello".toList)]

/-- C7: corrected.  The prompt resolution takes the first fallback key
present in the dataset-wide column schema and reads the cell from the
given record, and renders the indented JSON dump of the record when no
fallback key is in the schema — but a `None` cell also falls through to
the JSON dump (see the counterexample), which the spec's "returns the
value" wording does not allow. -/
theorem C7_prompt_resolution (cols : List Str) (r : PyDict) :
    (∀ k, FALLBACK_KEYS.find? (fun k2 => decide (k2 ∈ cols)) = some k →
        cellOf r k ≠ PyVal.vnone → prompt_text cols r = Sum.inr (cellOf r k))
    ∧ (FALLBACK_KEYS.find? (fun k2 => decide (k2 ∈ cols)) = none →
        prompt_text cols r = Sum.inl (printRecordInd r)) := by
  constructor
  · intro k hf hnn
    unfold prompt_text
    rw [promptScan_eq, hf]
    simp only [Option.map_some', Option.elim]
    rw [if_neg hnn]
  · intro hf
    unfold prompt_text
    rw [promptScan_eq, hf]
    rfl

/-- C7 counterexample: `"input"` is in the schema and is the first
fallback key present, but its cell is `null`, so the code renders the
JSON dump instead of returning the cell value. -/
theorem C7_counterexample :
    FALLBACK_KEYS.find? (fun k2 => decide (k2 ∈ c7Cols)) = some "input".toList
    ∧ prompt_text c7Cols c7Rec = Sum.inl (printRecordInd c7Rec)
    ∧ prompt_text c7Cols c7Rec ≠ Sum.inr (cellOf c7Rec "input".toList) :=
  ⟨by decide, by decide, by decide⟩

/-- C7 witness: the first present fallback key wins on a concrete
schema and record. -/
theorem C7_prompt_resolution_witness :
    prompt_text c7WCols c7WRec = Sum.inr (cellOf c7WRec "input prompt".toList) :=
  (C7_prompt_resolution c7WCols c7WRec).1 "input prompt".toList (by decide) (by decide)

/-! ### C8 -/

def c8Pre : Str := "ab".toList

def c8S : Str := "<s>".toList

def c8Mid : Str := " mid x ".toList

def c8E : Str := "</e>".toList

def c8Post : Str := "cd".toList

def c8NText : Str := "ab mid cd".toList

/-- C8: the delimited-span extraction, modelled from the spec (the
repository has no such code): when the start marker first occurs at the
end of `pre` and the end marker first occurs (at or after the start
marker's end) right after `mid`, the extraction returns `mid` trimmed;
when either marker never occurs, it returns `none` and no error. -/
theorem C8_extract_span :
    (∀ pre mid post s e : Str,
        (∀ t < pre.length, occursAt (pre ++ (s ++ (mid ++ (e ++ post)))) s t = false) →
        (∀ t < pre.length + s.length + mid.length, pre.length + s.length ≤ t →
            occursAt (pre ++ (s ++ (mid ++ (e ++ post)))) e t = false) →
        extractDelimitedSpan (pre ++ (s ++ (mid ++ (e ++ post)))) s e
          = some (pyStrip mid))
    ∧ (∀ text s e : Str, s ≠ [] → (∀ t ≤ text.length, occursAt text s t = false) →
        extractDelimitedSpan text s e = none)
    ∧ (∀ text s e : Str, e ≠ [] → (∀ t ≤ text.length, occursAt text e t = false) →
        extractDelimitedSpan text s e = none) := by
  refine ⟨?_, ?_, ?_⟩
  · intro pre mid post s e hpre hmid
    unfold extractDelimitedSpan
    rw [findOccur_eq_some (Nat.zero_le _)
      (by simp only [List.length_append]; omega)
      (occursAt_append pre s (mid ++ (e ++ post)))
      (fun t _ ht2 => hpre t ht2)]
    simp only [Option.some_bind]
    rw [findOccur_eq_some (show pre.length + s.length ≤ pre.length + s.length + mid.length
        by omega)
      (by simp only [List.length_append]; omega)
      (by
        have h0 := occursAt_append (pre ++ (s ++ mid)) e post
        rw [show (pre ++ (s ++ mid)) ++ (e ++ post) = pre ++ (s ++ (mid ++ (e ++ post)))
          by simp] at h0
        rw [show (pre ++ (s ++ mid)).length = pre.length + s.length + mid.length by
          simp [List.length_append, Nat.add_assoc]] at h0
        exact h0)
      (fun t ht1 ht2 => hmid t ht2 ht1)]
    simp only [Option.map_some']
    rw [show pre.length + s.length + mid.length - (pre.length + s.length) = mid.length
      by omega]
    rw [show pre ++ (s ++ (mid ++ (e ++ post))) = (pre ++ s) ++ (mid ++ (e ++ post))
      by simp]
    rw [show pre.length + s.length = (pre ++ s).length by simp]
    rw [List.drop_left, List.take_left]
  · intro text s e hs h
    unfold extractDelimitedSpan
    rw [findOccur_eq_none hs (fun t _ ht2 => h t ht2)]
    rfl
  · intro text s e he h
    unfold extractDelimitedSpan
    cases hf : findOccur text s 0 with
    | none => rfl
    | some i =>
        simp only [Option.some_bind]
        rw [findOccur_eq_none he (fun t _ ht2 => h t ht2)]
        rfl

/-- C8 witness: a concrete extraction between markers, and a concrete
text without the start marker. -/
theorem C8_extract_span_witness :
    extractDelimitedSpan (c8Pre ++ (c8S ++ (c8Mid ++ (c8E ++ c8Post)))) c8S c8E
      = some (pyStrip c8Mid)
    ∧ extractDelimitedSpan c8NText c8S c8E = none := by
  refine ⟨C8_extract_span.1 c8Pre c8Mid c8Post c8S c8E (by decide) (by decide), ?_⟩
  exact C8_extract_span.2.1 c8NText c8S c8E (by decide) (by decide)

/-! ### C9 -/

def c9Df : DataFrame :=
  ⟨[kSubGoal, kVerif, kBacktrack, kBackChain, kComment],
   [[PyVal.vint 1], [PyVal.vint 0], [PyVal.vint 0], [PyVal.vint 0], [PyVal.vstr []]], 1⟩

def c9Inp : RerunInput := ⟨none, 0, false, 0, 0, 0, 0, []⟩

/-- C9: after every script run that leaves a table loaded, the
`"annotation"` column is gone: it is neither a column of the table (so
not a CSV header field) nor a field of any exported JSONL record. -/
theorem C9_no_annot_export (s : AppState) (inp : RerunInput) (d : DataFrame) (i : Nat)
    (h : rerun s inp = ⟨some d, i⟩) :
    kAnnot ∉ d.cols ∧ kAnnot ∉ csvColumns d
    ∧ ∀ r ∈ dfRecords d, ∀ kv ∈ r, kv.1 ≠ kAnnot := by
  unfold rerun at h
  cases hu : uploadStep s.df inp.upload with
  | none =>
      rw [hu] at h
      simp only [Option.elim] at h
      injection h with h1 h2
      exact absurd h1 (Option.noConfusion)
  | some d0 =>
      rw [hu] at h
      simp only [Option.elim] at h
      injection h with h1 h2
      injection h1 with h1
      have hcols : d.cols = (normalizeDf d0).cols := by
        rw [← h1]
        by_cases hs : inp.save = true
        · rw [if_pos hs, saveUpdate_cols]
        · rw [if_neg hs]
      have hna : kAnnot ∉ d.cols := by
        rw [hcols]
        exact normalizeDf_annot d0
      refine ⟨hna, hna, ?_⟩
      intro r hr kv hkv
      unfold dfRecords at hr
      rw [List.mem_map] at hr
      obtain ⟨j, _, rfl⟩ := hr
      obtain ⟨kk, vv⟩ := kv
      have hmem := (List.of_mem_zip hkv).1
      intro he
      have he2 : kk = kAnnot := he
      rw [he2] at hmem
      exact hna hmem

/-- C9 witness: a run over a loaded, already-normalised table keeps its
columns free of `"annotation"`. -/
theorem C9_no_annot_export_witness : kAnnot ∉ c9Df.cols :=
  (C9_no_annot_export ⟨some c9Df, 0⟩ c9Inp c9Df 0 (by decide)).1

/-! ### C10 -/

def c10Df : DataFrame :=
  ⟨[kSubGoal, kVerif, kBacktrack, kBackChain, kComment],
   [[PyVal.vfloat (PyFloat.finite 2 0)], [PyVal.vint 0], [PyVal.vint 0], [PyVal.vint 0],
    [PyVal.vstr []]], 1⟩

/-- C10: after a commit the four behaviour-count fields of the record at
the cursor hold non-negative integer values — the handler casts the
widget values (which `min_value=0` keeps natural) with `int(...)`, and a
`float64` count column stores the same value as an integral non-negative
float. -/
theorem C10_commit_counts_nonneg {df : DataFrame} (h : DFShape df) {i : Nat}
    (hi : i < df.nrow) (hsub : kSubGoal ∈ df.cols) (hver : kVerif ∈ df.cols)
    (hbt : kBacktrack ∈ df.cols) (hbc : kBackChain ∈ df.cols) (hcm : kComment ∈ df.cols)
    (a b c d : Nat) (m : Str) :
    NonnegIntCell (cellOf (rowRec (saveUpdate df i a b c d m) i) kSubGoal)
    ∧ NonnegIntCell (cellOf (rowRec (saveUpdate df i a b c d m) i) kVerif)
    ∧ NonnegIntCell (cellOf (rowRec (saveUpdate df i a b c d m) i) kBacktrack)
    ∧ NonnegIntCell (cellOf (rowRec (saveUpdate df i a b c d m) i) kBackChain) := by
  have hc := saveUpdate_cells h hi hsub hcm a b c d m
  refine ⟨?_, ?_, ?_, ?_⟩
  · rw [hc.2.2.1]
    exact storedInt_nonneg df kSubGoal (Int.natCast_nonneg a)
  · rw [hc.2.2.2.1 hver]
    exact storedInt_nonneg df kVerif (Int.natCast_nonneg b)
  · rw [hc.2.2.2.2.1 hbt]
    exact storedInt_nonneg df kBacktrack (Int.natCast_nonneg c)
  · rw [hc.2.2.2.2.2.1 hbc]
    exact storedInt_nonneg df kBackChain (Int.natCast_nonneg d)

/-- C10 witness: a commit into a table whose count column is float-typed
still yields non-negative integral cells. -/
theorem C10_commit_counts_nonneg_witness :
    NonnegIntCell (cellOf (rowRec (saveUpdate c10Df 0 5 0 0 0 []) 0) kSubGoal)
    ∧ NonnegIntCell (cellOf (rowRec (saveUpdate c10Df 0 5 0 0 0 []) 0) kVerif) := by
  have h := @C10_commit_counts_nonneg c10Df ⟨rfl, by decide, by decide⟩ 0 (by decide)
    (by decide) (by decide) (by decide) (by decide) (by decide) 5 0 0 0 []
  exact ⟨h.1, h.2.1⟩

end JsonlApp
